import Mathlib

/-!
# Palette relayer: Palette → Poly manager

A shallow embedding of `manager/palette.go` and the helpers of `manager/utils.go`
it relies on.  Machine integers are natural numbers reduced modulo the width of the
Go type, byte slices are lists of naturals, Go errors are `Except String`.
Everything the manager obtains from the two chains (RPC results, transaction
outcomes, write failures of the store) is supplied by an environment record, so that
the control flow of the manager is the only thing the definitions fix.
-/

namespace PaletteRelayer

/-! ## Basic types -/

/-- Go `[]byte`. -/
abbrev Bytes := List Nat

/-- A 20-byte Palette address (`pltcm.Address`). -/
abbrev Address := List Nat

/-- Modulus of Go `uint64`. -/
def uint64Mod : Nat := 2 ^ 64

/-- Modulus of Go `uint32`. -/
def uint32Mod : Nat := 2 ^ 32

/-- Go `a - b` on `uint64`: the difference wraps around below zero. -/
def subU64 (a b : Nat) : Nat := (a % uint64Mod + uint64Mod - b % uint64Mod) % uint64Mod

/-- Go `a + 1` (`a++`) on `uint64`. -/
def incU64 (a : Nat) : Nat := (a + 1) % uint64Mod

/-- Go conversion `uint32(x)` of a `uint64`. -/
def toUint32 (a : Nat) : Nat := a % uint32Mod

/-- Go `strings.Contains` on the characters of the two strings: `sub` occurs in the
first list as a contiguous block. -/
def containsChars : List Char → List Char → Bool
  | [], sub => sub.isEmpty
  | c :: cs, sub => sub.isPrefixOf (c :: cs) || containsChars cs sub

/-- Go `strings.Contains(s, substr)`. -/
def stringsContains (s substr : String) : Bool := containsChars s.toList substr.toList

/-- The `CrossTransfer` record: one pending cross-chain event. -/
structure CrossTransfer where
  txIndex : String
  txId : Bytes
  toChain : Nat
  value : Bytes
  height : Nat
deriving DecidableEq, Repr

/-! ## Persistent store -/

/-- Modelled from the spec: the persistent store `db.BoltDB` (package `db` is not among
the sources).  Retry is a set of serialized records keyed by their bytes, Check maps a
Poly transaction hash to the serialized record, and the height table holds the Palette
checkpoint. -/
structure BoltDB where
  retry : List Bytes
  check : List (String × Bytes)
  paletteHeight : Nat
deriving DecidableEq, Repr

/-- Modelled from the spec: `PutRetry` of package `db`.  A single-row atomic write: when it
fails (`ok = false`) the store is unchanged and an error is returned. -/
def BoltDB.PutRetry (db : BoltDB) (ok : Bool) (k : Bytes) : BoltDB × Option String :=
  if ok then
    ({ db with retry := if k ∈ db.retry then db.retry else db.retry ++ [k] }, none)
  else (db, some "put retry failed")

/-- Modelled from the spec: `DeleteRetry` of package `db`. -/
def BoltDB.DeleteRetry (db : BoltDB) (ok : Bool) (k : Bytes) : BoltDB × Option String :=
  if ok then ({ db with retry := db.retry.filter (fun x => decide (x ≠ k)) }, none)
  else (db, some "delete retry failed")

/-- Modelled from the spec: `GetAllRetry` of package `db`. -/
def BoltDB.GetAllRetry (db : BoltDB) (ok : Bool) : Except String (List Bytes) :=
  if ok then .ok db.retry else .error "get all retry failed"

/-- Modelled from the spec: `PutCheck(hash, bytes)` of package `db`; a later write to the
same hash replaces the earlier one. -/
def BoltDB.PutCheck (db : BoltDB) (ok : Bool) (txHash : String) (v : Bytes) :
    BoltDB × Option String :=
  if ok then
    ({ db with check := db.check.filter (fun e => decide (e.1 ≠ txHash)) ++ [(txHash, v)] }, none)
  else (db, some "put check failed")

/-- Modelled from the spec: `DeleteCheck` of package `db`. -/
def BoltDB.DeleteCheck (db : BoltDB) (ok : Bool) (txHash : String) : BoltDB × Option String :=
  if ok then ({ db with check := db.check.filter (fun e => decide (e.1 ≠ txHash)) }, none)
  else (db, some "delete check failed")

/-- Modelled from the spec: `GetAllCheck` of package `db`; the result is a Go map, here the
list of its entries. -/
def BoltDB.GetAllCheck (db : BoltDB) (ok : Bool) : Except String (List (String × Bytes)) :=
  if ok then .ok db.check else .error "get all check failed"

/-- Modelled from the spec: `UpdatePaletteHeight` of package `db`. -/
def BoltDB.UpdatePaletteHeight (db : BoltDB) (ok : Bool) (h : Nat) : BoltDB × Option String :=
  if ok then ({ db with paletteHeight := h }, none) else (db, some "update height failed")

/-- Modelled from the spec: `GetPaletteHeight` of package `db`. -/
def BoltDB.GetPaletteHeight (db : BoltDB) : Nat := db.paletteHeight

/-- The value the Check table holds for a Poly transaction hash. -/
def BoltDB.checkValue (db : BoltDB) (txHash : String) : Option Bytes :=
  (db.check.find? (fun e => decide (e.1 = txHash))).map Prod.snd

/-! ## Proof submission: `handleDepositEvents` -/

/-- What `handleDepositEvents` obtains from outside the manager.  The first argument of
the per-record fields is the position of the record in the list returned by
`GetAllRetry`, so that two calls in one pass may answer differently. -/
structure DepositEnv where
  /-- The `PaletteConfig.BlockConfig` setting. -/
  blockConfig : Nat
  /-- The `CrossTransfer.Deserialization` codec behind `deserializeCrossTransfer`. -/
  deserialization : Bytes → Except String CrossTransfer
  /-- The storage key `getMappingKey(txIndex)`. -/
  getMappingKey : String → Except String Bytes
  /-- The call `palette.GetProof(eccd, key, height)`. -/
  paletteGetProof : Nat → Bytes → Nat → Except String Bytes
  /-- The call `BlockByNumber(height)` followed by `Header().MarshalJSON()`. -/
  blockHeaderJSON : Nat → Nat → Except String Bytes
  /-- The call `Native.Ccm.ImportOuterTransfer(chain, txData, height, proof, relayer, hdr)`;
  on success the hex string of the Poly transaction hash. -/
  importOuterTransfer : Nat → Bytes → Nat → Bytes → Bytes → Except String String
  /-- Whether `GetAllRetry` succeeds. -/
  getAllRetryOk : Bool
  /-- Whether the `PutCheck` for the record at this position succeeds. -/
  putCheckOk : Nat → Bool
  /-- Whether the `DeleteRetry` for the record at this position succeeds. -/
  deleteRetryOk : Nat → Bool

/-- The constant `defaultDistance`. -/
def defaultDistance : Nat := 6

/-- The method `safeBlockDistance`. -/
def safeBlockDistance (blockConfig : Nat) : Nat :=
  if blockConfig < defaultDistance then defaultDistance else blockConfig

/-- The function `deserializeCrossTransfer`. -/
def deserializeCrossTransfer (env : DepositEnv) (retry : Bytes) : Except String CrossTransfer :=
  match env.deserialization retry with
  | .error err => .error err
  | .ok crossTx => .ok crossTx

/-- The method `getProof`: the proof and the header JSON at `height`. -/
def getProof (env : DepositEnv) (i : Nat) (e : CrossTransfer) (height : Nat) :
    Except String (Bytes × Bytes) :=
  match env.getMappingKey e.txIndex with
  | .error err => .error err
  | .ok keyBytes =>
    match env.paletteGetProof i keyBytes height with
    | .error err => .error err
    | .ok proof =>
      match env.blockHeaderJSON i height with
      | .error err => .error err
      | .ok hdr => .ok (proof, hdr)

/-- The method `commitProof`. -/
def commitProof (env : DepositEnv) (i : Nat) (height : Nat) (proof txData _txhash hdr : Bytes) :
    Except String String :=
  match env.importOuterTransfer i txData height proof hdr with
  | .error err => .error err
  | .ok tx => .ok tx

/-- One call of `commitProof` made by `handleDepositEvents`. -/
structure Submission where
  /-- The serialized record being submitted. -/
  record : Bytes
  /-- The height of the event, `crossTx.height`. -/
  eventHeight : Nat
  /-- The height `safeHeight` the proof was fetched at. -/
  safeHeight : Nat
  /-- The height handed to `commitProof`, `uint32(safeHeight)`. -/
  height : Nat
deriving DecidableEq, Repr

/-- The condition under which `handleDepositEvents` ignores a record:
`refHeight-distance <= crossTx.height` on `uint64`. -/
def distanceGateIgnores (refHeight distance eventHeight : Nat) : Bool :=
  decide (subU64 refHeight distance ≤ eventHeight)

/-- The body of the loop of `handleDepositEvents` for the record `v` at position `i`; the
state is the store and the submissions made so far. -/
def depositRecord (env : DepositEnv) (refHeight : Nat) (i : Nat) (v : Bytes)
    (st : BoltDB × List Submission) : BoltDB × List Submission :=
  match deserializeCrossTransfer env v with
  | .error _ => st
  | .ok crossTx =>
    let distance := safeBlockDistance env.blockConfig
    if distanceGateIgnores refHeight distance crossTx.height then st
    else
      let safeHeight := subU64 refHeight 1
      match getProof env i crossTx safeHeight with
      | .error _ => st
      | .ok (proof, hdr) =>
        let subs := st.2 ++ [Submission.mk v crossTx.height safeHeight (toUint32 safeHeight)]
        match commitProof env i (toUint32 safeHeight) proof crossTx.value crossTx.txId hdr with
        | .error err =>
          if stringsContains err "chooseUtxos, current utxo is not enough" then (st.1, subs)
          else if stringsContains err "tx already done" then
            ((st.1.DeleteRetry (env.deleteRetryOk i) v).1, subs)
          else (st.1, subs)
        | .ok txHash =>
          let db1 := (st.1.PutCheck (env.putCheckOk i) txHash v).1
          let db2 := (db1.DeleteRetry (env.deleteRetryOk i) v).1
          (db2, subs)

/-- The store after the loop body of `handleDepositEvents` for a record that reaches
`commitProof`, by the result of that call. -/
def afterCommit (env : DepositEnv) (i : Nat) (v : Bytes) (db : BoltDB) :
    Except String String → BoltDB
  | .error err =>
    if stringsContains err "chooseUtxos, current utxo is not enough" then db
    else if stringsContains err "tx already done" then (db.DeleteRetry (env.deleteRetryOk i) v).1
    else db
  | .ok txHash => ((db.PutCheck (env.putCheckOk i) txHash v).1.DeleteRetry (env.deleteRetryOk i) v).1

/-- The loop `for _, v := range retryList` of `handleDepositEvents`, from position `i`. -/
def depositLoop (env : DepositEnv) (refHeight : Nat) :
    Nat → List Bytes → BoltDB × List Submission → BoltDB × List Submission
  | _, [], st => st
  | i, v :: vs, st => depositLoop env refHeight (i + 1) vs (depositRecord env refHeight i v st)

/-- The method `handleDepositEvents`: the returned error, the store afterwards and the
calls of `commitProof` it made. -/
def handleDepositEvents (env : DepositEnv) (refHeight : Nat) (db : BoltDB) :
    Option String × BoltDB × List Submission :=
  match db.GetAllRetry env.getAllRetryOk with
  | .error err => (some ("handleDepositEvents - m.db.GetAllRetry error: " ++ err), db, [])
  | .ok retryList =>
    let st := depositLoop env refHeight 0 retryList (db, [])
    (none, st.1, st.2)

/-- A test codec: a one-byte record `[h]` is an event emitted at height `h`. -/
def sampleDeserialization : Bytes → Except String CrossTransfer
  | [h] => .ok (CrossTransfer.mk "01" [] 0 [] h)
  | _ => .error "deserialize failed"

/-- A test environment in which every call succeeds and `ImportOuterTransfer` answers
with the transaction hash `polytx` for the first record and `polytx2` for the others;
`BlockConfig` is left at zero. -/
def acceptingEnv : DepositEnv where
  blockConfig := 0
  deserialization := sampleDeserialization
  getMappingKey := fun _ => .ok []
  paletteGetProof := fun _ _ _ => .ok []
  blockHeaderJSON := fun _ _ => .ok []
  importOuterTransfer := fun i _ _ _ _ => .ok (if i = 0 then "polytx" else "polytx2")
  getAllRetryOk := true
  putCheckOk := fun _ => true
  deleteRetryOk := fun _ => true

/-- A test environment in which `ImportOuterTransfer` fails with the given error text and
`DeleteRetry` succeeds or not as given. -/
def rejectingEnv (err : String) (deleteOk : Bool) : DepositEnv where
  blockConfig := 0
  deserialization := sampleDeserialization
  getMappingKey := fun _ => .ok []
  paletteGetProof := fun _ _ _ => .ok []
  blockHeaderJSON := fun _ _ => .ok []
  importOuterTransfer := fun _ _ _ _ _ => .error err
  getAllRetryOk := true
  putCheckOk := fun _ => true
  deleteRetryOk := fun _ => deleteOk

/-! ## Confirmation: `checkLockEvents` -/

/-- What `checkLockEvents` obtains from outside the manager. -/
structure CheckEnv where
  /-- Whether `GetAllCheck` succeeds. -/
  getAllCheckOk : Bool
  /-- The order in which Go ranges over the entries of the returned map. -/
  mapOrder : List (String × Bytes) → List (String × Bytes)
  /-- The call `GetSmartContractEvent(txhash)`: an error, a nil event, or the `State` of
  the event. -/
  getSmartContractEvent : String → Except String (Option Nat)
  /-- Whether the `PutRetry` made while handling this transaction hash succeeds. -/
  putRetryOk : String → Bool
  /-- Whether the `DeleteCheck` of this transaction hash succeeds. -/
  deleteCheckOk : String → Bool

/-- The body of the loop of `checkLockEvents` for the entry `(txhash, v)`. -/
def checkEntry (env : CheckEnv) (db : BoltDB) (e : String × Bytes) : BoltDB :=
  match env.getSmartContractEvent e.1 with
  | .error _ => db
  | .ok none => db
  | .ok (some state) =>
    let db1 := if state ≠ 1 then (db.PutRetry (env.putRetryOk e.1) e.2).1 else db
    (db1.DeleteCheck (env.deleteCheckOk e.1) e.1).1

/-- The method `checkLockEvents`: the returned error and the store afterwards. -/
def checkLockEvents (env : CheckEnv) (db : BoltDB) : Option String × BoltDB :=
  match db.GetAllCheck env.getAllCheckOk with
  | .error err => (some ("checkLockEvents - m.db.GetAllCheck error: " ++ err), db)
  | .ok checkMap => (none, (env.mapOrder checkMap).foldl (checkEntry env) db)

/-- A test environment: the Poly transaction `aa` succeeded (state 1), `bb` failed
(state 0), any other is not yet available. -/
def sampleCheckEnv : CheckEnv where
  getAllCheckOk := true
  mapOrder := fun l => l
  getSmartContractEvent := fun k =>
    if k = "aa" then .ok (some 1) else if k = "bb" then .ok (some 0) else .ok none
  putRetryOk := fun _ => true
  deleteCheckOk := fun _ => true

/-! ## The manager and its start height: `init` -/

/-- The type `pltEpoch`: a validator-set snapshot of Palette. -/
structure pltEpoch where
  height : Nat
  valset : List Address
  raw : Bytes
deriving DecidableEq, Repr

/-- The fields of `PaletteManager` that change while it runs; `lastEpoch` and `curHeader`
are pointers and may be nil. -/
structure PaletteManager where
  db : BoltDB
  currentSyncHeaderHeight : Nat
  currentDepositHeight : Nat
  forceHeight : Nat
  lastEpoch : Option pltEpoch
  curHeader : Option pltEpoch
deriving DecidableEq, Repr

/-- What `init` reads from the header-sync contract on Poly. -/
structure InitEnv where
  /-- The storage under `CONSENSUS_PEER_BLOCK_HEIGHT`; `findLastEpochHeight` drops the
  error of the read, so a failed read is the empty slice. -/
  consensusPeerBlockHeight : Bytes
  /-- The storage under `CONSENSUS_PEER`. -/
  consensusPeer : Except String Bytes
  /-- The decoder `bytes2Valset` (deserialization of a `QuorumValSet`). -/
  bytes2Valset : Bytes → Except String (List Address)

/-- The function `bytesToUint64`: the first eight bytes, little endian, short input padded
with zeros. -/
def bytesToUint64 (bz : Bytes) : Nat :=
  ((bz.take 8) ++ List.replicate (8 - bz.length) 0).foldr (fun b acc => b % 256 + 256 * acc) 0

/-- The method `findLastEpochHeight`. -/
def findLastEpochHeight (env : InitEnv) : Nat := bytesToUint64 env.consensusPeerBlockHeight

/-- The method `fetchLastEpoch`. -/
def fetchLastEpoch (env : InitEnv) (m : PaletteManager) (height : Nat) : Bool × PaletteManager :=
  match env.consensusPeer with
  | .error _ => (false, m)
  | .ok raw =>
    match env.bytes2Valset raw with
    | .error _ => (false, m)
    | .ok vals => (true, { m with lastEpoch := some (pltEpoch.mk height vals raw) })

/-- The method `init`. -/
def init (env : InitEnv) (m : PaletteManager) : Except String PaletteManager :=
  let lastEpoch := findLastEpochHeight env
  if lastEpoch = 0 then .error "init - the genesis block has not synced!"
  else
    match fetchLastEpoch env m lastEpoch with
    | (false, _) => .error "init - find the genesis header failded"
    | (true, m1) =>
      let curHeight := m1.db.GetPaletteHeight
      let curHeight := if curHeight = 0 then lastEpoch else curHeight
      let curHeight :=
        if m1.forceHeight > 0 ∧ m1.forceHeight < curHeight then m1.forceHeight else curHeight
      .ok { m1 with currentSyncHeaderHeight := curHeight, currentDepositHeight := curHeight }

/-- The height `init` starts from, by the stored checkpoint, the last epoch height and the
force height. -/
def chosenHeight (checkpoint lastEpoch forceHeight : Nat) : Nat :=
  if forceHeight > 0 ∧ forceHeight < (if checkpoint = 0 then lastEpoch else checkpoint)
  then forceHeight
  else (if checkpoint = 0 then lastEpoch else checkpoint)

/-- The working height a successfully initialised manager starts from. -/
def startHeightOf : Except String PaletteManager → Option (Nat × Nat)
  | .ok m => some (m.currentSyncHeaderHeight, m.currentDepositHeight)
  | .error _ => none

/-- A manager as `NewPaletteManager` builds it before calling `init`, with the given
stored checkpoint, start height and force height. -/
def freshManager (checkpoint startHeight forceHeight : Nat) : PaletteManager where
  db := BoltDB.mk [] [] checkpoint
  currentSyncHeaderHeight := startHeight
  currentDepositHeight := 0
  forceHeight := forceHeight
  lastEpoch := none
  curHeader := none

/-- A test environment for `init`: the last epoch recorded on Poly is at the given height
(below 256) and its validator set decodes to one address. -/
def sampleInitEnv (lastEpochHeight : Nat) : InitEnv where
  consensusPeerBlockHeight := [lastEpochHeight]
  consensusPeer := .ok [7]
  bytes2Valset := fun _ => .ok [[1]]

/-! ## Header sync and event scan: `handleNewBlock`, `MonitorChain` -/

/-- What the manager uses of a Palette header returned by `HeaderByNumber`. -/
structure PltHeader where
  /-- The result of `hdr.MarshalJSON()`. -/
  marshalJSON : Except String Bytes
  /-- The validators of `ExtractIstanbulExtra(hdr)`. -/
  istanbulValidators : Except String (List Address)

/-- The fields of an `EthCrossChainManagerCrossChainEvent` the manager reads. -/
structure CrossChainEvent where
  /-- The field `TxId`. -/
  txId : Bytes
  /-- The field `ProxyOrAssetContract`. -/
  proxyOrAssetContract : Address
  /-- The field `ToChainId`, a `uint64`. -/
  toChainId : Nat
  /-- The field `Rawdata`. -/
  rawdata : Bytes
  /-- The bytes of `Raw.TxHash`. -/
  rawTxHash : Bytes
deriving DecidableEq, Repr

/-- The outcome of `FilterCrossChainEvent`: an error, a nil iterator, or an iterator over
the events it yields. -/
inductive FilterResult where
  | error (err : String)
  | nilIter
  | iter (events : List CrossChainEvent)

/-- What `handleNewBlock` and `MonitorChain` obtain from outside the manager. -/
structure ChainEnv where
  /-- The call `HeaderByNumber(height)`. -/
  headerByNumber : Nat → Except String PltHeader
  /-- The bytes of the string `Address.Hex()`. -/
  addrHex : Address → List Nat
  /-- The call `Native.Hs.SyncBlockHeader` with the raw header; on success the hash of the
  Poly transaction. -/
  syncBlockHeader : Bytes → Except String String
  /-- The call `GetBlockHeightByTxHash` at a tick of the confirmation poll; its error is
  dropped, a failed call gives zero. -/
  getBlockHeightByTxHash : Nat → String → Nat
  /-- The call `GetCurrentBlockHeight` at a tick of the confirmation poll. -/
  getCurrentBlockHeight : Nat → Nat
  /-- The call `FilterCrossChainEvent` for one height. -/
  filterCrossChainEvent : Nat → FilterResult
  /-- The check `TargetContracts.CheckContract(addr, direction, toChainId)`. -/
  checkContract : Address → String → Nat → Bool
  /-- The `CrossChainID` of `recoverMakeTxParams(data)`. -/
  crossChainID : Bytes → Bytes
  /-- The storage of the cross-chain manager under the `DONE_TX` key of a cross-chain id;
  the error of the read is dropped. -/
  doneTxStorage : Bytes → Bytes
  /-- The helper `EncodeBigInt`. -/
  encodeBigInt : Nat → String
  /-- The `CrossTransfer.Serialization` codec. -/
  serialization : CrossTransfer → Bytes
  /-- Whether the `PutRetry` for the event at this height and position succeeds. -/
  putRetryOk : Nat → Nat → Bool
  /-- Whether `UpdatePaletteHeight` with this value succeeds. -/
  updateHeightOk : Nat → Bool

/-- The method `checkEpochHeight`, on the dereferenced `lastEpoch`. -/
def checkEpochHeight (lastEpoch : pltEpoch) (height : Nat) : Bool :=
  if height ≤ lastEpoch.height then false else true

/-- The method `fetchBlockHeader`. -/
def fetchBlockHeader (env : ChainEnv) (m : PaletteManager) (height : Nat) :
    Bool × PaletteManager :=
  if (match m.curHeader with
      | some cur => decide (cur.height = height)
      | none => false) then (true, m)
  else
    match env.headerByNumber height with
    | .error _ => (false, m)
    | .ok hdr =>
      match hdr.marshalJSON with
      | .error _ => (false, m)
      | .ok raw =>
        if (match m.curHeader with
            | some cur => decide (raw = cur.raw)
            | none => false) then (true, m)
        else
          match hdr.istanbulValidators with
          | .error _ => (false, m)
          | .ok vals => (true, { m with curHeader := some (pltEpoch.mk height vals raw) })

/-- The function `sortAddrList`: ascending in the string `Hex()` of the addresses.  The
strings of two different addresses differ, so the sorted list does not depend on the
algorithm. -/
def sortAddrList (env : ChainEnv) (list : List Address) : List Address :=
  list.insertionSort (fun a b => env.addrHex a ≤ env.addrHex b)

/-- The comparison loop of `isEpoch` over two slices of the same length. -/
def valsetDiffers : List Address → List Address → Bool
  | a :: s1, b :: s2 => if a ≠ b then true else valsetDiffers s1 s2
  | _, _ => false

/-- The method `isEpoch`; it sorts both validator sets in place.  The result is `none`
when a nil pointer is dereferenced. -/
def isEpoch (env : ChainEnv) (m : PaletteManager) : Option (Bool × PaletteManager) :=
  match m.curHeader, m.lastEpoch with
  | some cur, some last =>
    if cur.valset.length ≠ last.valset.length then some (true, m)
    else
      let s1 := sortAddrList env cur.valset
      let s2 := sortAddrList env last.valset
      some (valsetDiffers s1 s2,
        { m with curHeader := some { cur with valset := s1 },
                 lastEpoch := some { last with valset := s2 } })
  | _, _ => none

/-- The confirmation poll of `commitHeader`, one iteration per tick: the inclusion height
`h` of the transaction once the current Poly height exceeds it, `none` when the poll is
still running after `fuel` ticks. -/
def confirmPoll (env : ChainEnv) (tx : String) : Nat → Nat → Nat → Option Nat
  | 0, _, _ => none
  | fuel + 1, tick, h =>
    if h = 0 then confirmPoll env tx fuel (tick + 1) (env.getBlockHeightByTxHash tick tx)
    else if env.getCurrentBlockHeight tick > h then some h
    else confirmPoll env tx fuel (tick + 1) h

/-- The method `commitHeader`; `none` when a nil pointer is dereferenced or the poll does
not end within `fuel` ticks. -/
def commitHeader (env : ChainEnv) (fuel : Nat) (m : PaletteManager) :
    Option (Bool × PaletteManager) :=
  match m.curHeader with
  | none => none
  | some cur =>
    match env.syncBlockHeader cur.raw with
    | .error _ => some (false, m)
    | .ok tx =>
      match confirmPoll env tx fuel 0 0 with
      | none => none
      | some _ =>
        match m.lastEpoch with
        | none => none
        | some _ => some (true, { m with lastEpoch := some (pltEpoch.mk cur.height cur.valset cur.raw) })

/-- The method `checkCrossChainEvent`, on the cross-chain id of the parameter. -/
def checkCrossChainEvent (env : ChainEnv) (crossChainID : Bytes) : Bool :=
  if (env.doneTxStorage crossChainID).length ≠ 0 then false else true

/-- The call `big.Int.SetBytes`: the big-endian value of a byte slice. -/
def bigFromBytes (b : Bytes) : Nat := b.foldl (fun acc x => acc * 256 + x % 256) 0

/-- The function `serializeCrossTransfer`. -/
def serializeCrossTransfer (env : ChainEnv) (evt : CrossChainEvent) (height : Nat) :
    CrossTransfer × Bytes :=
  let index := bigFromBytes evt.txId
  let crossTx : CrossTransfer :=
    CrossTransfer.mk (env.encodeBigInt index) evt.rawTxHash (toUint32 evt.toChainId)
      evt.rawdata height
  (crossTx, env.serialization crossTx)

/-- Whether the loop of `fetchLockEvents` keeps an event: it passes the outbound
`TargetContracts` check and is not already done on Poly. -/
def eventWanted (env : ChainEnv) (evt : CrossChainEvent) : Bool :=
  env.checkContract evt.proxyOrAssetContract "outbound" evt.toChainId
    && checkCrossChainEvent env (env.crossChainID evt.rawdata)

/-- The body of the loop of `fetchLockEvents` for the event at position `i`. -/
def lockEvent (env : ChainEnv) (height : Nat) (i : Nat) (evt : CrossChainEvent) (db : BoltDB) :
    BoltDB :=
  if !env.checkContract evt.proxyOrAssetContract "outbound" evt.toChainId then db
  else if !checkCrossChainEvent env (env.crossChainID evt.rawdata) then db
  else (db.PutRetry (env.putRetryOk height i) (serializeCrossTransfer env evt height).2).1

/-- The loop `for iter.Next()` of `fetchLockEvents`, from position `i`. -/
def lockEventLoop (env : ChainEnv) (height : Nat) : Nat → List CrossChainEvent → BoltDB → BoltDB
  | _, [], db => db
  | i, evt :: evts, db => lockEventLoop env height (i + 1) evts (lockEvent env height i evt db)

/-- The method `fetchLockEvents`. -/
def fetchLockEvents (env : ChainEnv) (m : PaletteManager) (height : Nat) : Bool × PaletteManager :=
  match env.filterCrossChainEvent height with
  | .error _ => (false, m)
  | .nilIter => (false, m)
  | .iter events => (true, { m with db := lockEventLoop env height 0 events m.db })

/-- The header part of `handleNewBlock`: `false` where `handleNewBlock` returns false
before looking at the events. -/
def handleHeader (env : ChainEnv) (fuel : Nat) (m : PaletteManager) (height : Nat) :
    Option (Bool × PaletteManager) :=
  match m.lastEpoch with
  | none => none
  | some lastEpoch =>
    if checkEpochHeight lastEpoch height then
      match fetchBlockHeader env m height with
      | (false, m1) => some (false, m1)
      | (true, m1) =>
        match isEpoch env m1 with
        | none => none
        | some (false, m2) => some (true, m2)
        | some (true, m2) =>
          match commitHeader env fuel m2 with
          | none => none
          | some (false, m3) => some (false, m3)
          | some (true, m3) => some (true, m3)
    else some (true, m)

/-- The method `handleNewBlock`; `none` when it does not return (nil dereference, or a
confirmation poll longer than `fuel` ticks). -/
def handleNewBlock (env : ChainEnv) (fuel : Nat) (m : PaletteManager) (height : Nat) :
    Option (Bool × PaletteManager) :=
  match handleHeader env fuel m height with
  | none => none
  | some (false, m1) => some (false, m1)
  | some (true, m1) => some (true, (fetchLockEvents env m1 height).2)

/-- One iteration of the loop `for m.currentSyncHeaderHeight < height` of `MonitorChain`:
the manager afterwards and the value handed to `UpdatePaletteHeight`, if it was called. -/
def monitorChainIter (env : ChainEnv) (fuel : Nat) (m : PaletteManager) :
    Option (PaletteManager × Option Nat) :=
  match handleNewBlock env fuel m m.currentSyncHeaderHeight with
  | none => none
  | some (true, m1) =>
    let persisted := m1.currentSyncHeaderHeight
    let db1 := (m1.db.UpdatePaletteHeight (env.updateHeightOk persisted) persisted).1
    some ({ m1 with db := db1, currentSyncHeaderHeight := incU64 m1.currentSyncHeaderHeight },
      some persisted)
  | some (false, m1) => some (m1, none)

/-- The loop `for m.currentSyncHeaderHeight < height` of `MonitorChain` for one tick with
node height `height`, cut off after `steps` iterations. -/
def monitorChainLoop (env : ChainEnv) (fuel : Nat) (height : Nat) :
    Nat → PaletteManager → Option PaletteManager
  | 0, m => some m
  | steps + 1, m =>
    if m.currentSyncHeaderHeight < height then
      match monitorChainIter env fuel m with
      | none => none
      | some (m1, _) => monitorChainLoop env fuel height steps m1
    else some m

/-- A test event: asset contract `[1]`, target chain 8, payload `[5]`. -/
def sampleEvent : CrossChainEvent where
  txId := [3]
  proxyOrAssetContract := [1]
  toChainId := 8
  rawdata := [5]
  rawTxHash := [9]

/-- A test environment: every height carries `sampleEvent`, which is wanted and not done
on Poly; the headers have one validator; `FilterCrossChainEvent` and the store writes
succeed or not as given. -/
def sampleChainEnv (filterOk putOk : Bool) : ChainEnv where
  headerByNumber := fun _ => .ok (PltHeader.mk (.ok [0]) (.ok [[1]]))
  addrHex := fun a => a
  syncBlockHeader := fun _ => .ok "synctx"
  getBlockHeightByTxHash := fun _ _ => 5
  getCurrentBlockHeight := fun _ => 6
  filterCrossChainEvent := fun _ =>
    if filterOk then .iter [sampleEvent] else .error "filter failed"
  checkContract := fun _ _ _ => true
  crossChainID := fun d => d
  doneTxStorage := fun _ => []
  encodeBigInt := fun _ => "03"
  serialization := fun tx => tx.height :: tx.value
  putRetryOk := fun _ _ => putOk
  updateHeightOk := fun _ => true

/-- A manager after `init`: last epoch at height 5 with validator `[1]`, working heights
at `h`, empty store. -/
def runningManager (h : Nat) : PaletteManager where
  db := BoltDB.mk [] [] 0
  currentSyncHeaderHeight := h
  currentDepositHeight := h
  forceHeight := 0
  lastEpoch := some (pltEpoch.mk 5 [[1]] [7])
  curHeader := none

/-- The manager `isEpoch` leaves behind when the cached header is `cur` and the last epoch
is `last`: both validator sets sorted in place, unless their sizes differ. -/
def afterIsEpoch (env : ChainEnv) (m : PaletteManager) (cur last : pltEpoch) : PaletteManager :=
  if cur.valset.length ≠ last.valset.length then m
  else { m with
    curHeader := some { cur with valset := sortAddrList env cur.valset },
    lastEpoch := some { last with valset := sortAddrList env last.valset } }

/-- The manager on which `handleNewBlock(height)` calls `commitHeader`, when it calls it:
the height is above the last epoch, `fetchBlockHeader` succeeded and `isEpoch` returned
true. -/
def commitCall (env : ChainEnv) (m : PaletteManager) (height : Nat) : Option PaletteManager :=
  match m.lastEpoch with
  | none => none
  | some lastEpoch =>
    if checkEpochHeight lastEpoch height then
      match fetchBlockHeader env m height with
      | (false, _) => none
      | (true, m1) =>
        match isEpoch env m1 with
        | some (true, m2) => some m2
        | _ => none
    else none

/-- A manager after `init` whose last epoch, at height 5, has the validators `[3]` and
`[2]` (in this order); no header is cached. -/
def epochManager (h : Nat) : PaletteManager where
  db := BoltDB.mk [] [] 0
  currentSyncHeaderHeight := h
  currentDepositHeight := h
  forceHeight := 0
  lastEpoch := some (pltEpoch.mk 5 [[3], [2]] [7])
  curHeader := none

/-- A test environment whose headers carry the validators `[2]`, `[1]`, `[3]` (in this
order) and the raw bytes `[0]`; `SyncBlockHeader` succeeds or not as given. -/
def epochChainEnv (syncOk : Bool) : ChainEnv where
  headerByNumber := fun _ => .ok (PltHeader.mk (.ok [0]) (.ok [[2], [1], [3]]))
  addrHex := fun a => a
  syncBlockHeader := fun _ => if syncOk then .ok "synctx" else .error "sync failed"
  getBlockHeightByTxHash := fun _ _ => 5
  getCurrentBlockHeight := fun _ => 6
  filterCrossChainEvent := fun _ => .iter []
  checkContract := fun _ _ _ => true
  crossChainID := fun d => d
  doneTxStorage := fun _ => []
  encodeBigInt := fun _ => "03"
  serialization := fun tx => tx.height :: tx.value
  putRetryOk := fun _ _ => true
  updateHeightOk := fun _ => true

/-! ## Codec layer: the `CrossTransfer` record -/

/-- Modelled from the spec: the ZeroCopy framing of a fixed-width unsigned integer
(`WriteUint16`, `WriteUint32`, `WriteUint64` of the Poly sink, not among the sources):
`n` bytes of `x`, little endian. -/
def writeUintLE : Nat → Nat → Bytes
  | 0, _ => []
  | n + 1, x => (x % 256) :: writeUintLE n (x / 256)

/-- Modelled from the spec: the little-endian value of a byte slice, as read by
`NextUint16`, `NextUint32` and `NextUint64` of the Poly source. -/
def readUintLE (b : Bytes) : Nat := b.foldr (fun d acc => d % 256 + 256 * acc) 0

/-- Modelled from the spec: `WriteVarUint` of the ZeroCopy sink, the length prefix of a
variable-length field. -/
def writeVarUint (x : Nat) : Bytes :=
  if x < 0xFD then [x]
  else if x ≤ 0xFFFF then 0xFD :: writeUintLE 2 x
  else if x ≤ 0xFFFFFFFF then 0xFE :: writeUintLE 4 x
  else 0xFF :: writeUintLE 8 x

/-- Modelled from the spec: `WriteVarBytes` of the ZeroCopy sink, a length-prefixed
variable-byte field. -/
def writeVarBytes (b : Bytes) : Bytes := writeVarUint b.length ++ b

/-- Modelled from the spec: `NextBytes` of the ZeroCopy source: the next `n` bytes and the
rest, `none` at the end of the input. -/
def nextBytes (n : Nat) (src : Bytes) : Option (Bytes × Bytes) :=
  if n ≤ src.length then some (src.take n, src.drop n) else none

/-- Modelled from the spec: `NextUint16`, `NextUint32`, `NextUint64` of the ZeroCopy
source, for `n` = 2, 4, 8. -/
def nextUintLE (n : Nat) (src : Bytes) : Option (Nat × Bytes) :=
  match nextBytes n src with
  | none => none
  | some (b, rest) => some (readUintLE b, rest)

/-- Modelled from the spec: `NextVarUint` of the ZeroCopy source. -/
def nextVarUint : Bytes → Option (Nat × Bytes)
  | [] => none
  | fb :: rest =>
    if fb = 0xFD then nextUintLE 2 rest
    else if fb = 0xFE then nextUintLE 4 rest
    else if fb = 0xFF then nextUintLE 8 rest
    else some (fb, rest)

/-- Modelled from the spec: `NextVarBytes` of the ZeroCopy source. -/
def nextVarBytes (src : Bytes) : Option (Bytes × Bytes) :=
  match nextVarUint src with
  | none => none
  | some (count, rest) => if count > 0 then nextBytes count rest else some ([], rest)

/-- The bytes of a Go string; the string is modelled by the characters with these
codes. -/
def stringBytes (s : String) : Bytes := s.toList.map Char.toNat

/-- The Go conversion `string(bytes)`. -/
def bytesString (b : Bytes) : String := String.mk (b.map Char.ofNat)

/-- Modelled from the spec: `CrossTransfer.Serialization` (the method is not among the
sources): the fields in the order txIndex, txId, toChain, value, height, the string and
the byte fields length-prefixed, the 32-bit chain id and the 64-bit height at their
fixed width. -/
def CrossTransfer.Serialization (tx : CrossTransfer) : Bytes :=
  writeVarBytes (stringBytes tx.txIndex) ++ (writeVarBytes tx.txId ++
    (writeUintLE 4 tx.toChain ++ (writeVarBytes tx.value ++ writeUintLE 8 tx.height)))

/-- Modelled from the spec: `CrossTransfer.Deserialization` (the method is not among the
sources): reads the fields back in the order of `Serialization`, with an error at the
end of the input. -/
def CrossTransfer.Deserialization (src : Bytes) : Except String CrossTransfer :=
  match nextVarBytes src with
  | none => .error "Waiting deserialize txIndex error"
  | some (txIndex, src1) =>
    match nextVarBytes src1 with
    | none => .error "Waiting deserialize txId error"
    | some (txId, src2) =>
      match nextUintLE 4 src2 with
      | none => .error "Waiting deserialize toChain error"
      | some (toChain, src3) =>
        match nextVarBytes src3 with
        | none => .error "Waiting deserialize value error"
        | some (value, src4) =>
          match nextUintLE 8 src4 with
          | none => .error "Waiting deserialize height error"
          | some (height, _) =>
            .ok (CrossTransfer.mk (bytesString txIndex) txId toChain value height)

/-- The test environment `sampleChainEnv` with the modelled `CrossTransfer` codec. -/
def codecChainEnv : ChainEnv :=
  { sampleChainEnv true true with serialization := CrossTransfer.Serialization }

/-- The test environment `acceptingEnv` with the modelled `CrossTransfer` codec. -/
def codecDepositEnv : DepositEnv :=
  { acceptingEnv with deserialization := CrossTransfer.Deserialization }

/-! ## Codec layer: storage slot of an event -/

/-- Go `fromHexChar` of `encoding/hex`: the value of a hexadecimal digit. -/
def fromHexChar (c : Char) : Option Nat :=
  if 48 ≤ c.toNat ∧ c.toNat ≤ 57 then some (c.toNat - 48)
  else if 97 ≤ c.toNat ∧ c.toNat ≤ 102 then some (c.toNat - 97 + 10)
  else if 65 ≤ c.toNat ∧ c.toNat ≤ 70 then some (c.toNat - 65 + 10)
  else none

/-- Go `hex.Decode` on the characters of a string: two digits per byte, an error for a
character that is no hexadecimal digit and for an odd length. -/
def hexDecodeChars : List Char → Except String Bytes
  | [] => .ok []
  | [_] => .error "encoding/hex: odd length hex string"
  | a :: b :: rest =>
    match fromHexChar a, fromHexChar b with
    | some x, some y =>
      match hexDecodeChars rest with
      | .ok bs => .ok ((x * 16 + y) :: bs)
      | .error e => .error e
    | _, _ => .error "encoding/hex: invalid byte"

/-- Go `hex.DecodeString`. -/
def hexDecodeString (s : String) : Except String Bytes := hexDecodeChars s.toList

/-- A valid hexadecimal string: an even number of characters, each a hexadecimal
digit. -/
def isHexString (s : String) : Prop :=
  s.toList.length % 2 = 0 ∧ ∀ c ∈ s.toList, (fromHexChar c).isSome = true

/-- Go `copy(dst, src)`: the first `min(len(dst), len(src))` elements of `dst` are
replaced by those of `src`; the result is `dst` afterwards. -/
def goCopy (dst src : Bytes) : Bytes := src.take dst.length ++ dst.drop src.length

/-- Go slice expression `b[start:stop]`. -/
def goSlice (b : Bytes) (start stop : Nat) : Bytes := (b.drop start).take (stop - start)

/-- The function `leftPadBytes`. -/
def leftPadBytes (slice : Bytes) (l : Nat) : Bytes :=
  if l ≤ slice.length then slice
  else
    let padded := List.replicate l 0
    padded.take (l - slice.length) ++ goCopy (padded.drop (l - slice.length)) slice

/-- The function `mappingKeyAt`; `keccak256` is the hash `crypto.Keccak256` of the
concatenation of its arguments. -/
def mappingKeyAt (keccak256 : Bytes → Bytes) (position1 position2 : String) :
    Except String Bytes :=
  match hexDecodeString position1 with
  | .error err => .error err
  | .ok p1 =>
    match hexDecodeString position2 with
    | .error err => .error err
    | .ok p2 => .ok (keccak256 (leftPadBytes p1 32 ++ leftPadBytes p2 32))

/-- The function `getMappingKey`. -/
def getMappingKey (keccak256 : Bytes → Bytes) (txIndex : String) : Except String Bytes :=
  mappingKeyAt keccak256 txIndex "01"

/-- A stand-in for Keccak256 in tests: the input itself. -/
def sampleKeccak : Bytes → Bytes := fun b => b

/-! ## Codec layer: multi-signature blobs -/

/-- The function `dissembleHeaderSigs`. -/
def dissembleHeaderSigs (raw : Bytes) : Except String (List Bytes) :=
  if raw.length % 65 ≠ 0 then .error "sig lenght invalid"
  else
    let length := raw.length / 65
    .ok ((List.range length).map (fun i =>
      let start := i * 65
      let stop := (i + 1) * 65
      let sigData : Bytes := []
      goCopy sigData (goSlice raw start stop)))

/-- The function `RawMultiSigsToList`. -/
def RawMultiSigsToList (sigData : Bytes) : Except String (List Bytes) :=
  if sigData.length % 65 ≠ 0 then .error "invalid sig data length"
  else
    let sigCount := sigData.length / 65
    if sigCount = 0 then .error "sig count should > 0"
    else
      .ok ((List.range sigCount).map (fun i =>
        let start := i * 65
        let stop := (i + 1) * 65
        let raw := goSlice sigData start stop
        goCopy (List.replicate 65 0) raw))

/-- Go-ethereum `common.BytesToAddress`: the last 20 bytes of the input, left-padded with
zeros to 20 bytes. -/
def BytesToAddress (b : Bytes) : Address :=
  let b1 := if b.length > 20 then b.drop (b.length - 20) else b
  let a := List.replicate 20 0
  a.take (20 - b1.length) ++ goCopy (a.drop (20 - b1.length)) b1

/-- The function `RecoverSignersFromMultiSigs`; `ecrecover` is `crypto.Ecrecover`. -/
def RecoverSignersFromMultiSigs (ecrecover : Bytes → Bytes → Except String Bytes) (hash : Bytes) :
    List Bytes → Except String (List Address)
  | [] => .ok []
  | sig :: sigs =>
    match ecrecover hash sig with
    | .error err => .error err
    | .ok enc =>
      match RecoverSignersFromMultiSigs ecrecover hash sigs with
      | .error err => .error err
      | .ok signers => .ok (BytesToAddress enc :: signers)

/-- The closure `in` of `containsMAddress`: whether an address is among the signers. -/
def signerIn (signers : List Address) (addr : Address) : Bool :=
  signers.any (fun signer => decide (signer = addr))

/-- The counting loop of `containsMAddress`. -/
def keeperCount (signers contains : List Address) : Nat :=
  contains.foldl (fun count keeper => if signerIn signers keeper then count + 1 else count) 0

/-- The function `containsMAddress`; `m` is a Go `int`. -/
def containsMAddress (signers contains : List Address) (m : Int) : Bool :=
  decide ((keeperCount signers contains : Int) ≥ m)

/-- The function `VerifySig`; the result `.ok ()` is the nil error. -/
def VerifySig (ecrecover : Bytes → Bytes → Except String Bytes) (hash multiSigData : Bytes)
    (keepers : List Address) (m : Int) : Except String Unit :=
  match RawMultiSigsToList multiSigData with
  | .error err => .error err
  | .ok sigs =>
    match RecoverSignersFromMultiSigs ecrecover hash sigs with
    | .error err => .error err
    | .ok signers =>
      if containsMAddress signers keepers m then .ok () else .error "signers not enough"

/-- A stand-in for `crypto.Ecrecover` in tests: a signature starting with a zero byte
does not recover, any other recovers to a key made of its first byte. -/
def sampleEcrecover : Bytes → Bytes → Except String Bytes := fun _ sig =>
  match sig with
  | 0 :: _ => .error "recovery failed"
  | b :: _ => .ok (List.replicate 65 b)
  | [] => .error "invalid signature length"

/-! ## Pre-flight verification of a Poly header -/

/-- The fields of a Poly header `VerifyPolyHeader` reads. -/
structure PolyHeader where
  /-- The public keys `Bookkeepers`. -/
  bookkeepers : List Bytes
  /-- The signatures `SigData`. -/
  sigData : List Bytes
  /-- The hash `hdr.Hash()`. -/
  hash : Bytes

/-- What `VerifyPolyHeader` calls in the Poly library. -/
structure PolyVerifyEnv where
  /-- The identifier `vconfig.PubkeyID` of a public key. -/
  pubkeyID : Bytes → String
  /-- The call `VerifyMultiSignature(data, keys, m, sigs)`. -/
  verifyMultiSignature : Bytes → List Bytes → Nat → List Bytes → Except String Unit

/-- The loop of `VerifyPolyHeader` over the bookkeepers, from position `i`: the public-key
id of each must be a key of the peer map. -/
def checkBookkeepers (env : PolyVerifyEnv) (peerMap : List String) :
    Nat → List Bytes → Except String Unit
  | _, [] => .ok ()
  | i, bookkeeper :: rest =>
    let pubkey := env.pubkeyID bookkeeper
    if pubkey ∈ peerMap then checkBookkeepers env peerMap (i + 1) rest
    else .error ("No." ++ toString i ++ " pubkey is invalid: " ++ pubkey)

/-- The function `VerifyPolyHeader`; `peerMap` lists the keys of `peers.PeerMap`, each
once. -/
def VerifyPolyHeader (env : PolyVerifyEnv) (hdr : PolyHeader) (peerMap : List String) :
    Except String Unit :=
  if hdr.bookkeepers.length * 3 < peerMap.length * 2 then
    .error ("header Bookkeepers num " ++ toString hdr.bookkeepers.length
      ++ " must more than 2/3 consensus node num " ++ toString peerMap.length)
  else
    match checkBookkeepers env peerMap 0 hdr.bookkeepers with
    | .error err => .error err
    | .ok _ =>
      match env.verifyMultiSignature hdr.hash hdr.bookkeepers hdr.bookkeepers.length
          hdr.sigData with
      | .error err => .error ("verify sig failed: " ++ err)
      | .ok _ => .ok ()

/-- A test environment: the id of the key `[n]` is the decimal string of `n`, and the
multi-signature check accepts when there are at least `m` signatures. -/
def samplePolyVerifyEnv : PolyVerifyEnv where
  pubkeyID := fun k => toString (k.headD 0)
  verifyMultiSignature := fun _ _ m sigs =>
    if m ≤ sigs.length then .ok () else .error "not enough signatures"

/-! ## Keeper addresses: `assemblePubKeyList` -/

/-- The address `assemblePubKeyList` writes for a bookkeeper whose uncompressed key is
`key`: `crypto.Keccak256(key[1:])[12:]`, the last 20 bytes of the hash of the key without
its one-byte prefix. -/
def keeperAddress (keccak256 : Bytes → Bytes) (key : Bytes) : Bytes :=
  (keccak256 (key.drop 1)).drop 12

/-- The function `assemblePubKeyList` on the deserialized public keys of the peers:
`sortPublicKeys` is `keypair.SortPublicKeys`, `getNoCompressKey` and
`getEthNoCompressKey` are the helpers of that name.  The result is the bytes of the sink
(the number of keepers and the length-prefixed address of each) and the concatenated
uncompressed keys. -/
def assemblePubKeyList (keccak256 : Bytes → Bytes) (sortPublicKeys : List Bytes → List Bytes)
    (getNoCompressKey getEthNoCompressKey : Bytes → Bytes) (peerKeys : List Bytes) :
    Bytes × Bytes :=
  let bookkeepers := sortPublicKeys peerKeys
  (writeUintLE 8 bookkeepers.length ++
      (bookkeepers.map (fun key =>
        writeVarBytes (keeperAddress keccak256 (getEthNoCompressKey key)))).flatten,
    (bookkeepers.map getNoCompressKey).flatten)

/-- A test key: the prefix byte 4 followed by the 64 bytes `1, 2, ..., 64`. -/
def sampleKey : Bytes := 4 :: (List.range 64).map (fun i => i + 1)

/-- A stand-in for `crypto.Ecrecover` in tests: every signature recovers to
`sampleKey`. -/
def sampleKeyRecover : Bytes → Bytes → Except String Bytes := fun _ _ => .ok sampleKey

/-! ## Test data for the remaining loops -/

/-- A test environment whose headers carry an empty validator list. -/
def emptyValsetEnv : ChainEnv :=
  { sampleChainEnv true true with
    headerByNumber := fun _ => .ok (PltHeader.mk (.ok [0]) (.ok [])) }

/-- The test environment `sampleChainEnv` with every `UpdatePaletteHeight` failing. -/
def failingUpdateEnv : ChainEnv :=
  { sampleChainEnv true true with updateHeightOk := fun _ => false }

/-- The test environment `acceptingEnv` with every `PutCheck` failing. -/
def failingPutCheckEnv : DepositEnv :=
  { acceptingEnv with putCheckOk := fun _ => false }

/-- The test environment `sampleCheckEnv` with every `PutRetry` failing. -/
def failingPutRetryEnv : CheckEnv :=
  { sampleCheckEnv with putRetryOk := fun _ => false }

/-! ## `MonitorDeposit` and `NewPaletteManager` -/

/-- One iteration of the loop `for m.currentDepositHeight < m.currentSyncHeaderHeight` of
`MonitorDeposit`: the result of `handleDepositEvents` is dropped. -/
def monitorDepositIter (env : DepositEnv) (m : PaletteManager) : PaletteManager :=
  let r := handleDepositEvents env m.currentDepositHeight m.db
  { m with db := r.2.1, currentDepositHeight := incU64 m.currentDepositHeight }

/-- The loop `for m.currentDepositHeight < m.currentSyncHeaderHeight` of `MonitorDeposit`
for one tick, cut off after `steps` iterations. -/
def monitorDepositLoop (env : DepositEnv) : Nat → PaletteManager → PaletteManager
  | 0, m => m
  | steps + 1, m =>
    if m.currentDepositHeight < m.currentSyncHeaderHeight then
      monitorDepositLoop env steps (monitorDepositIter env m)
    else m

/-- What `NewPaletteManager` needs besides the chain: whether the Poly wallet opens, the
number of configured target contracts, and whether the cross-chain manager binding can
be created. -/
structure ManagerConfig where
  /-- The result of `cfg.OpenPolyWallet(polySdk)`. -/
  openPolyWallet : Except String Unit
  /-- The length of `cfg.TargetContracts`. -/
  targetContracts : Nat
  /-- The result of `eccm_abi.NewEthCrossChainManager`. -/
  newEthCrossChainManager : Except String Unit

/-- The function `NewPaletteManager`. -/
def NewPaletteManager (cfg : ManagerConfig) (env : InitEnv) (startHeight startForceHeight : Nat)
    (boltDB : BoltDB) : Except String PaletteManager :=
  match cfg.openPolyWallet with
  | .error err => .error err
  | .ok _ =>
    if cfg.targetContracts = 0 then .error "NewETHManager - no target contracts"
    else
      match cfg.newEthCrossChainManager with
      | .error err => .error err
      | .ok _ =>
        let mgr : PaletteManager :=
          { db := boltDB,
            currentSyncHeaderHeight := startHeight,
            currentDepositHeight := 0,
            forceHeight := startForceHeight,
            lastEpoch := none,
            curHeader := none }
        match init env mgr with
        | .error err => .error err
        | .ok m => .ok m

/-- A test configuration in which the wallet opens and one target contract is set. -/
def sampleConfig : ManagerConfig where
  openPolyWallet := .ok ()
  targetContracts := 1
  newEthCrossChainManager := .ok ()

/-! ## Arithmetic and string helpers -/

theorem containsChars_iff_infix (s sub : List Char) :
    containsChars s sub = true ↔ sub <:+: s := by
  induction s with
  | nil => simp [containsChars, List.isEmpty_iff]
  | cons c cs ih =>
    simp only [containsChars, Bool.or_eq_true, ih, List.isPrefixOf_iff_prefix]
    rw [List.infix_cons_iff]

theorem subU64_of_le (a b : Nat) (hb : b ≤ a) (ha : a < uint64Mod) : subU64 a b = a - b := by
  unfold subU64
  have hb2 : b < uint64Mod := lt_of_le_of_lt hb ha
  rw [Nat.mod_eq_of_lt ha, Nat.mod_eq_of_lt hb2]
  have h1 : a + uint64Mod - b = (a - b) + uint64Mod := by omega
  rw [h1, Nat.add_mod_right]
  exact Nat.mod_eq_of_lt (by omega)

theorem safeBlockDistance_ge (blockConfig : Nat) : 6 ≤ safeBlockDistance blockConfig := by
  unfold safeBlockDistance defaultDistance
  split <;> omega

theorem safeBlockDistance_eq_max (blockConfig : Nat) :
    safeBlockDistance blockConfig = max blockConfig 6 := by
  unfold safeBlockDistance defaultDistance
  split <;> omega

/-- Where the subtraction does not wrap (`distance ≤ refHeight`), the distance gate lets a
record through exactly when `refHeight > eventHeight + distance`. -/
theorem distanceGate_exact (refHeight distance eventHeight : Nat)
    (hd : distance ≤ refHeight) (hr : refHeight < uint64Mod) :
    distanceGateIgnores refHeight distance eventHeight = false ↔
      refHeight > eventHeight + distance := by
  unfold distanceGateIgnores
  rw [subU64_of_le refHeight distance hd hr]
  simp only [decide_eq_false_iff_not, not_le]
  omega

/-! ## Store lemmas -/

theorem DeleteRetry_not_mem (db : BoltDB) (k : Bytes) : k ∉ (db.DeleteRetry true k).1.retry := by
  simp [BoltDB.DeleteRetry]

theorem DeleteRetry_check (db : BoltDB) (ok : Bool) (k : Bytes) :
    (db.DeleteRetry ok k).1.check = db.check := by
  cases ok <;> simp [BoltDB.DeleteRetry]

theorem DeleteRetry_subset (db : BoltDB) (ok : Bool) (k x : Bytes)
    (hx : x ∈ (db.DeleteRetry ok k).1.retry) : x ∈ db.retry := by
  cases ok
  · simpa [BoltDB.DeleteRetry] using hx
  · simp only [BoltDB.DeleteRetry, if_true, List.mem_filter] at hx
    exact hx.1

theorem DeleteRetry_mem_of_ne (db : BoltDB) (ok : Bool) (k x : Bytes) (hne : x ≠ k)
    (hx : x ∈ db.retry) : x ∈ (db.DeleteRetry ok k).1.retry := by
  cases ok
  · simpa [BoltDB.DeleteRetry] using hx
  · simp only [BoltDB.DeleteRetry, if_true, List.mem_filter]
    exact ⟨hx, by simpa using hne⟩

theorem PutCheck_retry (db : BoltDB) (ok : Bool) (t : String) (v : Bytes) :
    (db.PutCheck ok t v).1.retry = db.retry := by
  cases ok <;> simp [BoltDB.PutCheck]

theorem find_filter_ne (l : List (String × Bytes)) (t : String) :
    (l.filter (fun e => decide (e.1 ≠ t))).find? (fun e => decide (e.1 = t)) = none := by
  rw [List.find?_eq_none]
  intro e he
  simp only [List.mem_filter, decide_eq_true_eq] at he
  simpa using he.2

theorem find_filter_other (l : List (String × Bytes)) (t u : String) (hne : u ≠ t) :
    (l.filter (fun e => decide (e.1 ≠ u))).find? (fun e => decide (e.1 = t))
      = l.find? (fun e => decide (e.1 = t)) := by
  induction l with
  | nil => rfl
  | cons e l ih =>
    by_cases h1 : e.1 = u
    · have h2 : e.1 ≠ t := fun h => hne (h1.symm.trans h)
      have hf : decide (e.1 ≠ u) = false := by simpa using h1
      have hg : decide (e.1 = t) = false := by simpa using h2
      simp only [List.filter_cons, hf, List.find?_cons, hg]
      exact ih
    · have hf : decide (e.1 ≠ u) = true := by simpa using h1
      by_cases h3 : e.1 = t
      · have hg : decide (e.1 = t) = true := by simpa using h3
        simp only [List.filter_cons, hf, List.find?_cons, hg, if_true]
      · have hg : decide (e.1 = t) = false := by simpa using h3
        simp only [List.filter_cons, hf, List.find?_cons, hg, if_true]
        exact ih

theorem PutCheck_checkValue (db : BoltDB) (t : String) (v : Bytes) :
    (db.PutCheck true t v).1.checkValue t = some v := by
  simp [BoltDB.PutCheck, BoltDB.checkValue, List.find?_append, find_filter_ne]

theorem PutCheck_checkValue_other (db : BoltDB) (ok : Bool) (t u : String) (v : Bytes)
    (hne : u ≠ t) : (db.PutCheck ok u v).1.checkValue t = db.checkValue t := by
  cases ok
  · simp [BoltDB.PutCheck]
  · simp only [BoltDB.PutCheck, if_true, BoltDB.checkValue, List.find?_append,
      find_filter_other db.check t u hne]
    cases h : db.check.find? (fun e => decide (e.1 = t)) with
    | some e => simp
    | none => simp [List.find?_cons, hne]

theorem DeleteRetry_checkValue (db : BoltDB) (ok : Bool) (k : Bytes) (t : String) :
    (db.DeleteRetry ok k).1.checkValue t = db.checkValue t := by
  simp [BoltDB.checkValue, DeleteRetry_check]

/-! ## `handleDepositEvents`: the loop body -/

theorem depositRecord_submit (env : DepositEnv) (refHeight i : Nat) (v : Bytes)
    (st : BoltDB × List Submission) (crossTx : CrossTransfer) (proof hdr : Bytes)
    (hdes : deserializeCrossTransfer env v = .ok crossTx)
    (hgate : distanceGateIgnores refHeight (safeBlockDistance env.blockConfig) crossTx.height
      = false)
    (hproof : getProof env i crossTx (subU64 refHeight 1) = .ok (proof, hdr)) :
    depositRecord env refHeight i v st =
      (afterCommit env i v st.1
          (commitProof env i (toUint32 (subU64 refHeight 1)) proof crossTx.value crossTx.txId hdr),
        st.2 ++ [Submission.mk v crossTx.height (subU64 refHeight 1)
          (toUint32 (subU64 refHeight 1))]) := by
  simp only [depositRecord, hdes, hgate, hproof, Bool.false_eq_true, if_false]
  cases hc : commitProof env i (toUint32 (subU64 refHeight 1)) proof crossTx.value crossTx.txId hdr
    with
  | error err =>
    simp only [afterCommit]
    split_ifs <;> rfl
  | ok t => simp [afterCommit]

/-- The loop body either leaves the store alone or changes it as `afterCommit` says. -/
theorem depositRecord_cases (env : DepositEnv) (refHeight i : Nat) (v : Bytes)
    (st : BoltDB × List Submission) :
    (depositRecord env refHeight i v st).1 = st.1 ∨
      ∃ r, (depositRecord env refHeight i v st).1 = afterCommit env i v st.1 r := by
  cases hdes : deserializeCrossTransfer env v with
  | error e => left; simp [depositRecord, hdes]
  | ok crossTx =>
    cases hgate : distanceGateIgnores refHeight (safeBlockDistance env.blockConfig) crossTx.height
      with
    | true => left; simp [depositRecord, hdes, hgate]
    | false =>
      cases hproof : getProof env i crossTx (subU64 refHeight 1) with
      | error e => left; simp [depositRecord, hdes, hgate, hproof]
      | ok ph =>
        obtain ⟨proof, hdr⟩ := ph
        right
        rw [depositRecord_submit env refHeight i v st crossTx proof hdr hdes hgate hproof]
        exact ⟨_, rfl⟩

theorem afterCommit_retry_subset (env : DepositEnv) (i : Nat) (v : Bytes) (db : BoltDB)
    (r : Except String String) (x : Bytes) (hx : x ∈ (afterCommit env i v db r).retry) :
    x ∈ db.retry := by
  cases r with
  | error err =>
    simp only [afterCommit] at hx
    split at hx
    · exact hx
    · split at hx
      · exact DeleteRetry_subset _ _ _ _ hx
      · exact hx
  | ok t =>
    simp only [afterCommit] at hx
    have h1 := DeleteRetry_subset _ _ _ _ hx
    rwa [PutCheck_retry] at h1

theorem afterCommit_mem_of_ne (env : DepositEnv) (i : Nat) (v : Bytes) (db : BoltDB)
    (r : Except String String) (x : Bytes) (hne : x ≠ v) (hx : x ∈ db.retry) :
    x ∈ (afterCommit env i v db r).retry := by
  cases r with
  | error err =>
    simp only [afterCommit]
    split
    · exact hx
    · split
      · exact DeleteRetry_mem_of_ne _ _ _ _ hne hx
      · exact hx
  | ok t =>
    simp only [afterCommit]
    apply DeleteRetry_mem_of_ne _ _ _ _ hne
    rwa [PutCheck_retry]

theorem afterCommit_checkValue (env : DepositEnv) (i : Nat) (v : Bytes) (db : BoltDB)
    (r : Except String String) (t : String) (hr : r ≠ .ok t) :
    (afterCommit env i v db r).checkValue t = db.checkValue t := by
  cases r with
  | error err =>
    simp only [afterCommit]
    split
    · rfl
    · split
      · exact DeleteRetry_checkValue _ _ _ _
      · rfl
  | ok u =>
    have hne : u ≠ t := fun h => hr (by rw [h])
    simp only [afterCommit]
    rw [DeleteRetry_checkValue, PutCheck_checkValue_other _ _ _ _ _ hne]

theorem depositRecord_retry_subset (env : DepositEnv) (refHeight i : Nat) (v : Bytes)
    (st : BoltDB × List Submission) (x : Bytes)
    (hx : x ∈ (depositRecord env refHeight i v st).1.retry) : x ∈ st.1.retry := by
  rcases depositRecord_cases env refHeight i v st with h | ⟨r, h⟩
  · rwa [h] at hx
  · rw [h] at hx
    exact afterCommit_retry_subset env i v st.1 r x hx

theorem depositRecord_mem_of_ne (env : DepositEnv) (refHeight i : Nat) (v : Bytes)
    (st : BoltDB × List Submission) (x : Bytes) (hne : x ≠ v) (hx : x ∈ st.1.retry) :
    x ∈ (depositRecord env refHeight i v st).1.retry := by
  rcases depositRecord_cases env refHeight i v st with h | ⟨r, h⟩
  · rwa [h]
  · rw [h]
    exact afterCommit_mem_of_ne env i v st.1 r x hne hx

/-- A loop body whose `ImportOuterTransfer` cannot answer `t` leaves the Check value of `t`
alone. -/
theorem depositRecord_checkValue (env : DepositEnv) (refHeight i : Nat) (v : Bytes)
    (st : BoltDB × List Submission) (t : String)
    (hno : ∀ d h p hd, env.importOuterTransfer i d h p hd ≠ .ok t) :
    (depositRecord env refHeight i v st).1.checkValue t = st.1.checkValue t := by
  cases hdes : deserializeCrossTransfer env v with
  | error e => simp [depositRecord, hdes]
  | ok crossTx =>
    cases hgate : distanceGateIgnores refHeight (safeBlockDistance env.blockConfig) crossTx.height
      with
    | true => simp [depositRecord, hdes, hgate]
    | false =>
      cases hproof : getProof env i crossTx (subU64 refHeight 1) with
      | error e => simp [depositRecord, hdes, hgate, hproof]
      | ok ph =>
        obtain ⟨proof, hdr⟩ := ph
        rw [depositRecord_submit env refHeight i v st crossTx proof hdr hdes hgate hproof]
        apply afterCommit_checkValue
        intro hc
        unfold commitProof at hc
        split at hc
        · exact absurd hc (by simp)
        · rename_i tx htx
          have htx2 : tx = t := by simpa using hc
          exact hno _ _ _ _ (htx2 ▸ htx)

/-! ## `handleDepositEvents`: the whole pass -/

theorem depositLoop_append (env : DepositEnv) (refHeight : Nat) (l1 l2 : List Bytes) (k : Nat)
    (st : BoltDB × List Submission) :
    depositLoop env refHeight k (l1 ++ l2) st
      = depositLoop env refHeight (k + l1.length) l2 (depositLoop env refHeight k l1 st) := by
  induction l1 generalizing k st with
  | nil => simp [depositLoop]
  | cons a l1 ih =>
    rw [List.cons_append]
    simp only [depositLoop, List.length_cons]
    rw [ih]
    congr 1
    omega

theorem depositLoop_retry_subset (env : DepositEnv) (refHeight : Nat) (l : List Bytes) (k : Nat)
    (st : BoltDB × List Submission) (x : Bytes)
    (hx : x ∈ (depositLoop env refHeight k l st).1.retry) : x ∈ st.1.retry := by
  induction l generalizing k st with
  | nil => simpa [depositLoop] using hx
  | cons a l ih =>
    simp only [depositLoop] at hx
    exact depositRecord_retry_subset env refHeight k a st x (ih _ _ hx)

theorem depositLoop_mem_of_not_mem (env : DepositEnv) (refHeight : Nat) (l : List Bytes) (k : Nat)
    (st : BoltDB × List Submission) (x : Bytes) (hl : x ∉ l) (hx : x ∈ st.1.retry) :
    x ∈ (depositLoop env refHeight k l st).1.retry := by
  induction l generalizing k st with
  | nil => simpa [depositLoop] using hx
  | cons a l ih =>
    simp only [depositLoop]
    simp only [List.mem_cons, not_or] at hl
    exact ih _ _ hl.2 (depositRecord_mem_of_ne env refHeight k a st x hl.1 hx)

theorem depositLoop_checkValue (env : DepositEnv) (refHeight : Nat) (l : List Bytes) (k : Nat)
    (st : BoltDB × List Submission) (t : String)
    (hno : ∀ j, k ≤ j → ∀ d h p hd, env.importOuterTransfer j d h p hd ≠ .ok t) :
    (depositLoop env refHeight k l st).1.checkValue t = st.1.checkValue t := by
  induction l generalizing k st with
  | nil => simp [depositLoop]
  | cons a l ih =>
    simp only [depositLoop]
    rw [ih (k + 1) _ (fun j hj => hno j (by omega))]
    exact depositRecord_checkValue env refHeight k a st t (hno k (le_refl k))

theorem depositLoop_snoc (env : DepositEnv) (refHeight : Nat) (l1 : List Bytes) (v : Bytes)
    (st : BoltDB × List Submission) :
    depositLoop env refHeight 0 (l1 ++ [v]) st
      = depositRecord env refHeight l1.length v (depositLoop env refHeight 0 l1 st) := by
  rw [depositLoop_append]
  simp [depositLoop]

theorem handleDepositEvents_split (env : DepositEnv) (refHeight : Nat) (db : BoltDB)
    (l1 l2 : List Bytes) (v : Bytes) (hall : env.getAllRetryOk = true)
    (hretry : db.retry = l1 ++ v :: l2) :
    (handleDepositEvents env refHeight db).2.1
      = (depositLoop env refHeight (l1.length + 1) l2
          (depositLoop env refHeight 0 (l1 ++ [v]) (db, []))).1 := by
  have h : l1 ++ v :: l2 = (l1 ++ [v]) ++ l2 := by simp
  simp only [handleDepositEvents, BoltDB.GetAllRetry, hall, if_true, hretry]
  rw [h, depositLoop_append]
  simp

/-- The calls of `commitProof` added by the loop body are made at `refHeight - 1` for a
record the distance gate let through. -/
theorem depositRecord_subs (env : DepositEnv) (refHeight i : Nat) (v : Bytes)
    (st : BoltDB × List Submission) (s : Submission)
    (hs : s ∈ (depositRecord env refHeight i v st).2) :
    s ∈ st.2 ∨ (s.safeHeight = subU64 refHeight 1 ∧ s.height = toUint32 (subU64 refHeight 1) ∧
      distanceGateIgnores refHeight (safeBlockDistance env.blockConfig) s.eventHeight = false) := by
  cases hdes : deserializeCrossTransfer env v with
  | error e => left; simpa [depositRecord, hdes] using hs
  | ok crossTx =>
    cases hgate : distanceGateIgnores refHeight (safeBlockDistance env.blockConfig) crossTx.height
      with
    | true => left; simpa [depositRecord, hdes, hgate] using hs
    | false =>
      cases hproof : getProof env i crossTx (subU64 refHeight 1) with
      | error e => left; simpa [depositRecord, hdes, hgate, hproof] using hs
      | ok ph =>
        obtain ⟨proof, hdr⟩ := ph
        rw [depositRecord_submit env refHeight i v st crossTx proof hdr hdes hgate hproof] at hs
        simp only [List.mem_append, List.mem_singleton] at hs
        rcases hs with hs | hs
        · exact Or.inl hs
        · right
          subst hs
          exact ⟨rfl, rfl, hgate⟩

theorem depositLoop_subs (env : DepositEnv) (refHeight : Nat) (l : List Bytes) (k : Nat)
    (st : BoltDB × List Submission) (s : Submission)
    (hs : s ∈ (depositLoop env refHeight k l st).2) :
    s ∈ st.2 ∨ (s.safeHeight = subU64 refHeight 1 ∧ s.height = toUint32 (subU64 refHeight 1) ∧
      distanceGateIgnores refHeight (safeBlockDistance env.blockConfig) s.eventHeight = false) := by
  induction l generalizing k st with
  | nil => left; simpa [depositLoop] using hs
  | cons a l ih =>
    simp only [depositLoop] at hs
    rcases ih _ _ hs with h | h
    · exact depositRecord_subs env refHeight k a st s h
    · exact Or.inr h

/-- Where the subtraction of the distance gate does not wrap, that is for a reference
height of at least the safe distance, every call of `commitProof` made by
`handleDepositEvents` is at `safeHeight = refHeight - 1` and at least the safe distance
above the height of the event. -/
theorem submissions_respect_distance (env : DepositEnv) (refHeight : Nat) (db : BoltDB)
    (s : Submission) (hd : safeBlockDistance env.blockConfig ≤ refHeight)
    (hr : refHeight < uint64Mod) (hs : s ∈ (handleDepositEvents env refHeight db).2.2) :
    s.safeHeight = refHeight - 1 ∧
      s.eventHeight + safeBlockDistance env.blockConfig ≤ s.safeHeight := by
  have h6 := safeBlockDistance_ge env.blockConfig
  have hsub : s ∈ (depositLoop env refHeight 0 db.retry (db, [])).2 := by
    unfold handleDepositEvents at hs
    cases hok : env.getAllRetryOk with
    | false => simp [BoltDB.GetAllRetry, hok] at hs
    | true => simpa [BoltDB.GetAllRetry, hok] using hs
  rcases depositLoop_subs env refHeight db.retry 0 (db, []) s hsub with h | ⟨h1, _, h3⟩
  · simp at h
  · rw [subU64_of_le refHeight 1 (by omega) hr] at h1
    have h4 := (distanceGate_exact refHeight _ s.eventHeight hd hr).mp h3
    exact ⟨h1, by omega⟩

/-! ## Claims on `handleDepositEvents` -/

/-- C1 (the code departs from the claim): the distance gate compares
`refHeight - distance`, computed on `uint64`, with the event height.  For a reference
height below the distance the difference wraps around: with `BlockConfig = 0`
(distance 6), a record of an event at height 1 and `refHeight = 4 = 1 + 3`, the gate
does not ignore the record although `4 > 1 + 6` is false; the proof is fetched at
height 3, the record is submitted and moved to Check. -/
theorem C1_distance_gate_wraps :
    safeBlockDistance acceptingEnv.blockConfig = 6 ∧ ¬ (4 > 1 + 6) ∧
      distanceGateIgnores 4 (safeBlockDistance acceptingEnv.blockConfig) 1 = false ∧
      handleDepositEvents acceptingEnv 4 (BoltDB.mk [[1]] [] 0)
        = (none, BoltDB.mk [] [("polytx", [1])] 0, [Submission.mk [1] 1 3 3]) := by
  refine ⟨by decide, by decide, by decide, by decide⟩

/-- C2 (the code departs from the claim): `handleDepositEvents(5)` with `BlockConfig = 0`
submits the record of an event at height 2 at `safeHeight = 4`, and
`safeHeight - eventHeight = 2` is below the distance 6. -/
theorem C2_submission_below_distance :
    (handleDepositEvents acceptingEnv 5 (BoltDB.mk [[2]] [] 0)).2.2
        = [Submission.mk [2] 2 4 4] ∧
      safeBlockDistance acceptingEnv.blockConfig = 6 ∧
      ¬ (4 - 2 ≥ safeBlockDistance acceptingEnv.blockConfig) := by
  refine ⟨by decide, by decide, by decide⟩

/-- C3: a Retry record `v` (at position `l1.length` of the list returned by
`GetAllRetry`) that deserializes, passes the distance gate, gets its proof, and whose
`ImportOuterTransfer` submission returns the Poly hash `t`, with its `PutCheck` and
`DeleteRetry` succeeding: right after the record is processed Check maps `t` to `v` and
`v` is not in Retry; at the end of the pass `v` is still not in Retry, and Check still
maps `t` to `v` unless a later submission of the pass returned the same hash. -/
theorem C3_success_moves_to_check (env : DepositEnv) (refHeight : Nat) (db : BoltDB)
    (l1 l2 : List Bytes) (v : Bytes) (crossTx : CrossTransfer) (proof hdr : Bytes) (t : String)
    (hall : env.getAllRetryOk = true)
    (hretry : db.retry = l1 ++ v :: l2)
    (hdes : deserializeCrossTransfer env v = .ok crossTx)
    (hgate : distanceGateIgnores refHeight (safeBlockDistance env.blockConfig) crossTx.height
      = false)
    (hproof : getProof env l1.length crossTx (subU64 refHeight 1) = .ok (proof, hdr))
    (hcommit : commitProof env l1.length (toUint32 (subU64 refHeight 1)) proof crossTx.value
      crossTx.txId hdr = .ok t)
    (hput : env.putCheckOk l1.length = true) (hdel : env.deleteRetryOk l1.length = true) :
    ((depositLoop env refHeight 0 (l1 ++ [v]) (db, [])).1.checkValue t = some v ∧
      v ∉ (depositLoop env refHeight 0 (l1 ++ [v]) (db, [])).1.retry) ∧
    v ∉ (handleDepositEvents env refHeight db).2.1.retry ∧
    ((∀ j, l1.length < j → ∀ d h p hd, env.importOuterTransfer j d h p hd ≠ .ok t) →
      (handleDepositEvents env refHeight db).2.1.checkValue t = some v) := by
  have hstep : (depositLoop env refHeight 0 (l1 ++ [v]) (db, [])).1.checkValue t = some v ∧
      v ∉ (depositLoop env refHeight 0 (l1 ++ [v]) (db, [])).1.retry := by
    rw [depositLoop_snoc, depositRecord_submit env refHeight l1.length v _ crossTx proof hdr hdes
      hgate hproof, hcommit]
    simp only [afterCommit, hput, hdel]
    exact ⟨by rw [DeleteRetry_checkValue, PutCheck_checkValue], DeleteRetry_not_mem _ _⟩
  refine ⟨hstep, ?_, ?_⟩
  · rw [handleDepositEvents_split env refHeight db l1 l2 v hall hretry]
    exact fun h => hstep.2 (depositLoop_retry_subset env refHeight l2 _ _ v h)
  · intro hno
    rw [handleDepositEvents_split env refHeight db l1 l2 v hall hretry,
      depositLoop_checkValue env refHeight l2 _ _ t (fun j hj => hno j (by omega))]
    exact hstep.1

/-- The instance of C3 for the first of two records, at reference height 100. -/
theorem C3_success_moves_to_check_witness :
    ((depositLoop acceptingEnv 100 0 ([] ++ [[1]]) (BoltDB.mk [[1], [2]] [] 0, [])).1.checkValue
        "polytx" = some [1] ∧
      [1] ∉ (depositLoop acceptingEnv 100 0 ([] ++ [[1]]) (BoltDB.mk [[1], [2]] [] 0, [])).1.retry) ∧
    [1] ∉ (handleDepositEvents acceptingEnv 100 (BoltDB.mk [[1], [2]] [] 0)).2.1.retry ∧
    ((∀ j, ([] : List Bytes).length < j → ∀ d h p hd,
        acceptingEnv.importOuterTransfer j d h p hd ≠ .ok "polytx") →
      (handleDepositEvents acceptingEnv 100 (BoltDB.mk [[1], [2]] [] 0)).2.1.checkValue "polytx"
        = some [1]) :=
  C3_success_moves_to_check acceptingEnv 100 (BoltDB.mk [[1], [2]] [] 0) [] [[2]] [1]
    (CrossTransfer.mk "01" [] 0 [] 1) [] [] "polytx" rfl rfl rfl (by decide) rfl rfl rfl rfl

/-- C4 fails as stated: an error text that contains both `tx already done` and
`chooseUtxos, current utxo is not enough` takes the insufficient-funds branch, which is
tested first, and the record stays in Retry; and when the error is `tx already done` but
`DeleteRetry` itself fails, the failure is only logged and the record stays as well. -/
theorem C4_counterexample :
    (stringsContains "chooseUtxos, current utxo is not enough, tx already done"
        "tx already done" = true ∧
      [1] ∈ (handleDepositEvents
        (rejectingEnv "chooseUtxos, current utxo is not enough, tx already done" true) 100
        (BoltDB.mk [[1]] [] 0)).2.1.retry) ∧
    (stringsContains "tx already done" "tx already done" = true ∧
      [1] ∈ (handleDepositEvents (rejectingEnv "tx already done" false) 100
        (BoltDB.mk [[1]] [] 0)).2.1.retry) := by
  refine ⟨⟨by decide, by decide⟩, by decide, by decide⟩

/-- C4 (amended): for a record `v` whose submission fails with an error text that contains
`tx already done` and does not contain `chooseUtxos, current utxo is not enough`, and
whose `DeleteRetry` succeeds: processing the record removes `v` from Retry and leaves the
Check table as it was, and `v` is still absent from Retry at the end of the pass. -/
theorem C4_already_done_deletes (env : DepositEnv) (refHeight : Nat) (db : BoltDB)
    (l1 l2 : List Bytes) (v : Bytes) (crossTx : CrossTransfer) (proof hdr : Bytes) (err : String)
    (hall : env.getAllRetryOk = true)
    (hretry : db.retry = l1 ++ v :: l2)
    (hdes : deserializeCrossTransfer env v = .ok crossTx)
    (hgate : distanceGateIgnores refHeight (safeBlockDistance env.blockConfig) crossTx.height
      = false)
    (hproof : getProof env l1.length crossTx (subU64 refHeight 1) = .ok (proof, hdr))
    (hcommit : commitProof env l1.length (toUint32 (subU64 refHeight 1)) proof crossTx.value
      crossTx.txId hdr = .error err)
    (hdone : stringsContains err "tx already done" = true)
    (hutxo : stringsContains err "chooseUtxos, current utxo is not enough" = false)
    (hdel : env.deleteRetryOk l1.length = true) :
    v ∉ (depositLoop env refHeight 0 (l1 ++ [v]) (db, [])).1.retry ∧
    (depositLoop env refHeight 0 (l1 ++ [v]) (db, [])).1.check
      = (depositLoop env refHeight 0 l1 (db, [])).1.check ∧
    v ∉ (handleDepositEvents env refHeight db).2.1.retry := by
  have hstep : (depositLoop env refHeight 0 (l1 ++ [v]) (db, [])).1
      = ((depositLoop env refHeight 0 l1 (db, [])).1.DeleteRetry true v).1 := by
    rw [depositLoop_snoc, depositRecord_submit env refHeight l1.length v _ crossTx proof hdr hdes
      hgate hproof, hcommit]
    simp [afterCommit, hdone, hutxo, hdel]
  have hnot : v ∉ (depositLoop env refHeight 0 (l1 ++ [v]) (db, [])).1.retry := by
    rw [hstep]
    exact DeleteRetry_not_mem _ _
  refine ⟨hnot, ?_, ?_⟩
  · rw [hstep, DeleteRetry_check]
  · rw [handleDepositEvents_split env refHeight db l1 l2 v hall hretry]
    exact fun h => hnot (depositLoop_retry_subset env refHeight l2 _ _ v h)

/-- The instance of amended C4 for a single record and the error `tx already done`. -/
theorem C4_already_done_deletes_witness :
    [1] ∉ (depositLoop (rejectingEnv "tx already done" true) 100 0 ([] ++ [[1]])
        (BoltDB.mk [[1]] [] 0, [])).1.retry ∧
    (depositLoop (rejectingEnv "tx already done" true) 100 0 ([] ++ [[1]])
        (BoltDB.mk [[1]] [] 0, [])).1.check
      = (depositLoop (rejectingEnv "tx already done" true) 100 0 []
        (BoltDB.mk [[1]] [] 0, [])).1.check ∧
    [1] ∉ (handleDepositEvents (rejectingEnv "tx already done" true) 100
        (BoltDB.mk [[1]] [] 0)).2.1.retry :=
  C4_already_done_deletes (rejectingEnv "tx already done" true) 100 (BoltDB.mk [[1]] [] 0) [] []
    [1] (CrossTransfer.mk "01" [] 0 [] 1) [] [] "tx already done" rfl rfl rfl (by decide) rfl rfl
    (by decide) (by decide) rfl

/-- C5: for a record `v` whose submission fails with an error text that does not contain
`tx already done` (insufficient funds or any other error), processing the record leaves
the whole store, Retry and Check included, as it was; a record that occurs once in Retry
is therefore still in Retry after it is processed and at the end of the pass. -/
theorem C5_other_errors_keep (env : DepositEnv) (refHeight : Nat) (db : BoltDB)
    (l1 l2 : List Bytes) (v : Bytes) (crossTx : CrossTransfer) (proof hdr : Bytes) (err : String)
    (hall : env.getAllRetryOk = true)
    (hretry : db.retry = l1 ++ v :: l2)
    (hdes : deserializeCrossTransfer env v = .ok crossTx)
    (hgate : distanceGateIgnores refHeight (safeBlockDistance env.blockConfig) crossTx.height
      = false)
    (hproof : getProof env l1.length crossTx (subU64 refHeight 1) = .ok (proof, hdr))
    (hcommit : commitProof env l1.length (toUint32 (subU64 refHeight 1)) proof crossTx.value
      crossTx.txId hdr = .error err)
    (hdone : stringsContains err "tx already done" = false) :
    (depositLoop env refHeight 0 (l1 ++ [v]) (db, [])).1
      = (depositLoop env refHeight 0 l1 (db, [])).1 ∧
    (db.retry.Nodup →
      v ∈ (depositLoop env refHeight 0 (l1 ++ [v]) (db, [])).1.retry ∧
      v ∈ (handleDepositEvents env refHeight db).2.1.retry) := by
  have hstep : (depositLoop env refHeight 0 (l1 ++ [v]) (db, [])).1
      = (depositLoop env refHeight 0 l1 (db, [])).1 := by
    rw [depositLoop_snoc, depositRecord_submit env refHeight l1.length v _ crossTx proof hdr hdes
      hgate hproof, hcommit]
    simp only [afterCommit, hdone, Bool.false_eq_true, if_false]
    split_ifs <;> rfl
  refine ⟨hstep, fun hnd => ?_⟩
  rw [hretry] at hnd
  have hv1 : v ∉ l1 := fun h => (List.nodup_append.mp hnd).2.2 h (List.mem_cons_self v l2)
  have hv2 : v ∉ l2 := (List.nodup_cons.mp (List.nodup_append.mp hnd).2.1).1
  have hmem : v ∈ (depositLoop env refHeight 0 (l1 ++ [v]) (db, [])).1.retry := by
    rw [hstep]
    apply depositLoop_mem_of_not_mem env refHeight l1 0 (db, []) v hv1
    simp [hretry]
  refine ⟨hmem, ?_⟩
  rw [handleDepositEvents_split env refHeight db l1 l2 v hall hretry]
  exact depositLoop_mem_of_not_mem env refHeight l2 _ _ v hv2 hmem

/-- The instance of C5 for a single record and an insufficient-funds error. -/
theorem C5_other_errors_keep_witness :
    (depositLoop (rejectingEnv "chooseUtxos, current utxo is not enough" true) 100 0
        ([] ++ [[1]]) (BoltDB.mk [[1]] [] 0, [])).1
      = (depositLoop (rejectingEnv "chooseUtxos, current utxo is not enough" true) 100 0 []
        (BoltDB.mk [[1]] [] 0, [])).1 ∧
    ((BoltDB.mk [[1]] [] 0).retry.Nodup →
      [1] ∈ (depositLoop (rejectingEnv "chooseUtxos, current utxo is not enough" true) 100 0
        ([] ++ [[1]]) (BoltDB.mk [[1]] [] 0, [])).1.retry ∧
      [1] ∈ (handleDepositEvents (rejectingEnv "chooseUtxos, current utxo is not enough" true)
        100 (BoltDB.mk [[1]] [] 0)).2.1.retry) :=
  C5_other_errors_keep (rejectingEnv "chooseUtxos, current utxo is not enough" true) 100
    (BoltDB.mk [[1]] [] 0) [] [] [1] (CrossTransfer.mk "01" [] 0 [] 1) [] []
    "chooseUtxos, current utxo is not enough" rfl rfl rfl (by decide) rfl rfl (by decide)

/-! ## `checkLockEvents` -/

theorem PutRetry_mem (db : BoltDB) (k x : Bytes) :
    x ∈ (db.PutRetry true k).1.retry ↔ x ∈ db.retry ∨ x = k := by
  simp only [BoltDB.PutRetry, if_true]
  split
  · rename_i hk
    constructor
    · exact fun h => Or.inl h
    · rintro (h | h)
      · exact h
      · exact h ▸ hk
  · simp

theorem PutRetry_mem_mono (db : BoltDB) (ok : Bool) (k x : Bytes) (hx : x ∈ db.retry) :
    x ∈ (db.PutRetry ok k).1.retry := by
  cases ok
  · simpa [BoltDB.PutRetry] using hx
  · exact (PutRetry_mem db k x).mpr (Or.inl hx)

theorem PutRetry_check (db : BoltDB) (ok : Bool) (k : Bytes) :
    (db.PutRetry ok k).1.check = db.check := by
  cases ok <;> simp [BoltDB.PutRetry]

theorem DeleteCheck_retry (db : BoltDB) (ok : Bool) (t : String) :
    (db.DeleteCheck ok t).1.retry = db.retry := by
  cases ok <;> simp [BoltDB.DeleteCheck]

theorem DeleteCheck_mem (db : BoltDB) (t : String) (e : String × Bytes) :
    e ∈ (db.DeleteCheck true t).1.check ↔ e ∈ db.check ∧ e.1 ≠ t := by
  simp [BoltDB.DeleteCheck, List.mem_filter]

theorem checkEntry_check (env : CheckEnv) (hdel : ∀ k, env.deleteCheckOk k = true) (db : BoltDB)
    (e0 e : String × Bytes) :
    e ∈ (checkEntry env db e0).check ↔
      e ∈ db.check ∧ ((∃ state, env.getSmartContractEvent e0.1 = .ok (some state)) → e.1 ≠ e0.1) := by
  unfold checkEntry
  cases hev : env.getSmartContractEvent e0.1 with
  | error err => simp
  | ok o =>
    cases o with
    | none => simp
    | some state =>
      simp only [hdel, DeleteCheck_mem]
      have hc : (if state ≠ 1 then (db.PutRetry (env.putRetryOk e0.1) e0.2).1 else db).check
          = db.check := by
        split
        · exact PutRetry_check _ _ _
        · rfl
      rw [hc]
      constructor
      · rintro ⟨h1, h2⟩
        exact ⟨h1, fun _ => h2⟩
      · rintro ⟨h1, h2⟩
        exact ⟨h1, h2 ⟨state, rfl⟩⟩

theorem checkEntry_retry (env : CheckEnv) (hput : ∀ k, env.putRetryOk k = true) (db : BoltDB)
    (e0 : String × Bytes) (x : Bytes) :
    x ∈ (checkEntry env db e0).retry ↔
      x ∈ db.retry ∨
        (e0.2 = x ∧ ∃ state, env.getSmartContractEvent e0.1 = .ok (some state) ∧ state ≠ 1) := by
  unfold checkEntry
  cases hev : env.getSmartContractEvent e0.1 with
  | error err => simp
  | ok o =>
    cases o with
    | none => simp
    | some state =>
      simp only [DeleteCheck_retry, hput]
      by_cases hs : state = 1
      · simp [hs]
      · simp only [ne_eq, hs, not_false_eq_true, if_true, PutRetry_mem]
        constructor
        · rintro (h | h)
          · exact Or.inl h
          · exact Or.inr ⟨h.symm, state, rfl, hs⟩
        · rintro (h | ⟨h, _⟩)
          · exact Or.inl h
          · exact Or.inr h.symm

theorem checkFold_check (env : CheckEnv) (hdel : ∀ k, env.deleteCheckOk k = true)
    (l : List (String × Bytes)) (db : BoltDB) (e : String × Bytes) :
    e ∈ (l.foldl (checkEntry env) db).check ↔
      e ∈ db.check ∧
        ∀ e0 ∈ l, (∃ state, env.getSmartContractEvent e0.1 = .ok (some state)) → e.1 ≠ e0.1 := by
  induction l generalizing db with
  | nil => simp
  | cons a l ih =>
    simp only [List.foldl_cons, ih, checkEntry_check env hdel, List.mem_cons, forall_eq_or_imp]
    tauto

theorem checkFold_retry (env : CheckEnv) (hput : ∀ k, env.putRetryOk k = true)
    (l : List (String × Bytes)) (db : BoltDB) (x : Bytes) :
    x ∈ (l.foldl (checkEntry env) db).retry ↔
      x ∈ db.retry ∨
        ∃ e0 ∈ l, e0.2 = x ∧
          ∃ state, env.getSmartContractEvent e0.1 = .ok (some state) ∧ state ≠ 1 := by
  induction l generalizing db with
  | nil => simp
  | cons a l ih =>
    simp only [List.foldl_cons, ih, checkEntry_retry env hput, List.mem_cons, exists_eq_or_imp]
    exact or_assoc

theorem checkValue_eq_none (db : BoltDB) (t : String)
    (h : ∀ e ∈ db.check, e.1 ≠ t) : db.checkValue t = none := by
  unfold BoltDB.checkValue
  rw [Option.map_eq_none', List.find?_eq_none]
  intro e he
  simpa using h e he

/-- C6: with `GetAllCheck` and the store writes succeeding, after `checkLockEvents`, in
whatever order the map is ranged over: every Check entry `(k, raw)` whose Poly event is
available has been deleted from Check (part 1); the Retry table consists of what it held
before and the `raw` of exactly those available entries whose event state is not 1
(part 2); and the entries whose event is unavailable (error or nil) are still in Check
(part 3). -/
theorem C6_check_resolution (env : CheckEnv) (db : BoltDB)
    (hall : env.getAllCheckOk = true)
    (horder : (env.mapOrder db.check).Perm db.check)
    (hput : ∀ k, env.putRetryOk k = true) (hdel : ∀ k, env.deleteCheckOk k = true) :
    (∀ k raw state, (k, raw) ∈ db.check → env.getSmartContractEvent k = .ok (some state) →
      (checkLockEvents env db).2.checkValue k = none ∧
      (∀ e ∈ (checkLockEvents env db).2.check, e.1 ≠ k) ∧
      (state ≠ 1 → raw ∈ (checkLockEvents env db).2.retry)) ∧
    (∀ x, x ∈ (checkLockEvents env db).2.retry ↔
      x ∈ db.retry ∨
        ∃ k state, (k, x) ∈ db.check ∧ env.getSmartContractEvent k = .ok (some state) ∧
          state ≠ 1) ∧
    (∀ k raw, (k, raw) ∈ db.check →
      (∀ state, env.getSmartContractEvent k ≠ .ok (some state)) →
      (k, raw) ∈ (checkLockEvents env db).2.check) := by
  have hres : (checkLockEvents env db).2 = (env.mapOrder db.check).foldl (checkEntry env) db := by
    simp [checkLockEvents, BoltDB.GetAllCheck, hall]
  have hmem : ∀ e, e ∈ env.mapOrder db.check ↔ e ∈ db.check := fun e => horder.mem_iff
  have hretry : ∀ x, x ∈ (checkLockEvents env db).2.retry ↔
      x ∈ db.retry ∨
        ∃ k state, (k, x) ∈ db.check ∧ env.getSmartContractEvent k = .ok (some state) ∧
          state ≠ 1 := by
    intro x
    rw [hres, checkFold_retry env hput]
    constructor
    · rintro (h | ⟨e0, he0, hx, state, hst, hne⟩)
      · exact Or.inl h
      · refine Or.inr ⟨e0.1, state, ?_, hst, hne⟩
        rw [← hx]
        exact (hmem e0).mp he0
    · rintro (h | ⟨k, state, hk, hst, hne⟩)
      · exact Or.inl h
      · exact Or.inr ⟨(k, x), (hmem _).mpr hk, rfl, state, hst, hne⟩
  have hgone : ∀ k raw state, (k, raw) ∈ db.check →
      env.getSmartContractEvent k = .ok (some state) →
      ∀ e ∈ (checkLockEvents env db).2.check, e.1 ≠ k := by
    intro k raw state hk hst e he
    rw [hres, checkFold_check env hdel] at he
    exact he.2 (k, raw) ((hmem _).mpr hk) ⟨state, hst⟩
  refine ⟨?_, hretry, ?_⟩
  · intro k raw state hk hst
    refine ⟨checkValue_eq_none _ _ (hgone k raw state hk hst), hgone k raw state hk hst, ?_⟩
    intro hne
    exact (hretry raw).mpr (Or.inr ⟨k, state, hk, hst, hne⟩)
  · intro k raw hk hun
    rw [hres, checkFold_check env hdel]
    refine ⟨hk, ?_⟩
    rintro e0 _ ⟨state, hst⟩ heq
    have heq2 : k = e0.1 := heq
    exact hun state (heq2 ▸ hst)

/-- The instance of C6 for a store with one confirmed, one failed and one pending
submission. -/
theorem C6_check_resolution_witness :
    (∀ k raw state, (k, raw) ∈ (BoltDB.mk [[9]] [("aa", [1]), ("bb", [2]), ("cc", [3])] 0).check →
      sampleCheckEnv.getSmartContractEvent k = .ok (some state) →
      (checkLockEvents sampleCheckEnv
        (BoltDB.mk [[9]] [("aa", [1]), ("bb", [2]), ("cc", [3])] 0)).2.checkValue k = none ∧
      (∀ e ∈ (checkLockEvents sampleCheckEnv
        (BoltDB.mk [[9]] [("aa", [1]), ("bb", [2]), ("cc", [3])] 0)).2.check, e.1 ≠ k) ∧
      (state ≠ 1 → raw ∈ (checkLockEvents sampleCheckEnv
        (BoltDB.mk [[9]] [("aa", [1]), ("bb", [2]), ("cc", [3])] 0)).2.retry)) ∧
    (∀ x, x ∈ (checkLockEvents sampleCheckEnv
        (BoltDB.mk [[9]] [("aa", [1]), ("bb", [2]), ("cc", [3])] 0)).2.retry ↔
      x ∈ (BoltDB.mk [[9]] [("aa", [1]), ("bb", [2]), ("cc", [3])] 0).retry ∨
        ∃ k state, (k, x) ∈ (BoltDB.mk [[9]] [("aa", [1]), ("bb", [2]), ("cc", [3])] 0).check ∧
          sampleCheckEnv.getSmartContractEvent k = .ok (some state) ∧ state ≠ 1) ∧
    (∀ k raw, (k, raw) ∈ (BoltDB.mk [[9]] [("aa", [1]), ("bb", [2]), ("cc", [3])] 0).check →
      (∀ state, sampleCheckEnv.getSmartContractEvent k ≠ .ok (some state)) →
      (k, raw) ∈ (checkLockEvents sampleCheckEnv
        (BoltDB.mk [[9]] [("aa", [1]), ("bb", [2]), ("cc", [3])] 0)).2.check) :=
  C6_check_resolution sampleCheckEnv (BoltDB.mk [[9]] [("aa", [1]), ("bb", [2]), ("cc", [3])] 0)
    rfl (List.Perm.refl _) (fun _ => rfl) (fun _ => rfl)

/-! ## `init` -/

theorem fetchLastEpoch_fields (env : InitEnv) (m : PaletteManager) (height : Nat) :
    (fetchLastEpoch env m height).2.db = m.db ∧
      (fetchLastEpoch env m height).2.forceHeight = m.forceHeight := by
  unfold fetchLastEpoch
  split
  · exact ⟨rfl, rfl⟩
  · split
    · exact ⟨rfl, rfl⟩
    · exact ⟨rfl, rfl⟩

theorem fetchLastEpoch_force (env : InitEnv) (m : PaletteManager) (height f : Nat) :
    (fetchLastEpoch env { m with forceHeight := f } height).1 = (fetchLastEpoch env m height).1 := by
  unfold fetchLastEpoch
  split
  · rfl
  · split
    · rfl
    · rfl

theorem init_startHeight (env : InitEnv) (m : PaletteManager) :
    startHeightOf (init env m) =
      if findLastEpochHeight env = 0 then none
      else if (fetchLastEpoch env m (findLastEpochHeight env)).1 = true then
        some (chosenHeight m.db.GetPaletteHeight (findLastEpochHeight env) m.forceHeight,
          chosenHeight m.db.GetPaletteHeight (findLastEpochHeight env) m.forceHeight)
      else none := by
  unfold init
  by_cases h0 : findLastEpochHeight env = 0
  · simp [h0, startHeightOf]
  · simp only [h0, if_false]
    have hf := fetchLastEpoch_fields env m (findLastEpochHeight env)
    rcases hfe : fetchLastEpoch env m (findLastEpochHeight env) with ⟨ok, m1⟩
    rw [hfe] at hf
    cases ok with
    | false => simp [startHeightOf]
    | true =>
      obtain ⟨hf1, hf2⟩ := hf
      dsimp only at hf1 hf2
      simp only [startHeightOf, if_true, chosenHeight, hf1, hf2]

/-- C7 fails as stated: with no force height, a stored checkpoint of 5 and a last epoch
height of 10, `init` starts at 5, not at `max 5 10 = 10`. -/
theorem C7_counterexample :
    (freshManager 5 0 0).forceHeight = 0 ∧ (freshManager 5 0 0).db.GetPaletteHeight = 5 ∧
      findLastEpochHeight (sampleInitEnv 10) = 10 ∧
      startHeightOf (init (sampleInitEnv 10) (freshManager 5 0 0)) = some (5, 5) ∧
      max 5 10 ≠ 5 := by
  refine ⟨by decide, by decide, by decide, by decide, by decide⟩

/-- C7 (amended): with no force height, a non-zero last epoch height and the last epoch
fetched, `init` sets both working heights to the stored checkpoint when that is
non-zero, and to the last epoch height when no checkpoint is stored; this is the maximum
of the two whenever the stored checkpoint is zero or at least the last epoch height. -/
theorem C7_start_without_force (env : InitEnv) (m : PaletteManager)
    (hforce : m.forceHeight = 0) (hepoch : findLastEpochHeight env ≠ 0)
    (hfetch : (fetchLastEpoch env m (findLastEpochHeight env)).1 = true) :
    startHeightOf (init env m) =
        some (if m.db.GetPaletteHeight = 0 then findLastEpochHeight env else m.db.GetPaletteHeight,
          if m.db.GetPaletteHeight = 0 then findLastEpochHeight env else m.db.GetPaletteHeight) ∧
      (m.db.GetPaletteHeight = 0 ∨ findLastEpochHeight env ≤ m.db.GetPaletteHeight →
        startHeightOf (init env m) =
          some (max m.db.GetPaletteHeight (findLastEpochHeight env),
            max m.db.GetPaletteHeight (findLastEpochHeight env))) := by
  have h : startHeightOf (init env m) =
      some (if m.db.GetPaletteHeight = 0 then findLastEpochHeight env else m.db.GetPaletteHeight,
        if m.db.GetPaletteHeight = 0 then findLastEpochHeight env else m.db.GetPaletteHeight) := by
    rw [init_startHeight]
    simp [hepoch, hfetch, hforce, chosenHeight]
  refine ⟨h, fun hmax => ?_⟩
  rw [h]
  rcases hmax with h0 | hle
  · simp [h0]
  · by_cases h0 : m.db.GetPaletteHeight = 0
    · simp [h0]
    · simp [h0, max_eq_left hle]

/-- The instance of amended C7 for a stored checkpoint 50 and a last epoch at 10. -/
theorem C7_start_without_force_witness :
    startHeightOf (init (sampleInitEnv 10) (freshManager 50 0 0)) = some (50, 50) ∧
      ((freshManager 50 0 0).db.GetPaletteHeight = 0 ∨
          findLastEpochHeight (sampleInitEnv 10) ≤ (freshManager 50 0 0).db.GetPaletteHeight →
        startHeightOf (init (sampleInitEnv 10) (freshManager 50 0 0)) = some (50, 50)) :=
  C7_start_without_force (sampleInitEnv 10) (freshManager 50 0 0) rfl (by decide) rfl

/-- C8: let `c` be the height `init` chooses without a force height.  With a non-zero
force height `f`, `init` succeeds as well and both working heights are `f` if `f < c`,
and `c` if `f ≥ c`. -/
theorem C8_force_height (env : InitEnv) (m : PaletteManager) (f c : Nat) (hf : f ≠ 0)
    (hc : startHeightOf (init env { m with forceHeight := 0 }) = some (c, c)) :
    (f < c → startHeightOf (init env { m with forceHeight := f }) = some (f, f)) ∧
      (f ≥ c → startHeightOf (init env { m with forceHeight := f }) = some (c, c)) := by
  rw [init_startHeight] at hc
  rw [init_startHeight]
  by_cases h0 : findLastEpochHeight env = 0
  · simp [h0] at hc
  · rw [fetchLastEpoch_force] at hc ⊢
    by_cases h1 : (fetchLastEpoch env m (findLastEpochHeight env)).1 = true
    · simp only [h0, h1, if_false, if_true, Option.some.injEq, Prod.mk.injEq, and_self] at hc ⊢
      have hfpos : f > 0 := Nat.pos_of_ne_zero hf
      have hc0 : (if m.db.GetPaletteHeight = 0 then findLastEpochHeight env
          else m.db.GetPaletteHeight) = c := by
        simpa [chosenHeight] using hc
      unfold chosenHeight
      rw [hc0]
      constructor
      · intro hlt
        rw [if_pos ⟨hfpos, hlt⟩]
      · intro hge
        rw [if_neg (by omega)]
    · simp [h0, h1] at hc

/-- The instance of C8 for a stored checkpoint 50, a last epoch at 10 and force height
20. -/
theorem C8_force_height_witness :
    (20 < 50 → startHeightOf (init (sampleInitEnv 10)
        { freshManager 50 0 7 with forceHeight := 20 }) = some (20, 20)) ∧
      (20 ≥ 50 → startHeightOf (init (sampleInitEnv 10)
        { freshManager 50 0 7 with forceHeight := 20 }) = some (50, 50)) :=
  C8_force_height (sampleInitEnv 10) (freshManager 50 0 7) 20 50 (by decide) (by decide)

/-! ## `handleNewBlock` and `MonitorChain` -/

theorem fetchBlockHeader_height (env : ChainEnv) (m : PaletteManager) (height : Nat) :
    (fetchBlockHeader env m height).2.currentSyncHeaderHeight = m.currentSyncHeaderHeight := by
  unfold fetchBlockHeader
  split
  · rfl
  · split
    · rfl
    · split
      · rfl
      · split
        · rfl
        · split <;> rfl

theorem isEpoch_height (env : ChainEnv) (m m1 : PaletteManager) (b : Bool)
    (h : isEpoch env m = some (b, m1)) :
    m1.currentSyncHeaderHeight = m.currentSyncHeaderHeight := by
  unfold isEpoch at h
  split at h
  · split at h
    · simp only [Option.some.injEq, Prod.mk.injEq] at h
      rw [← h.2]
    · simp only [Option.some.injEq, Prod.mk.injEq] at h
      rw [← h.2]
  · exact absurd h (by simp)

theorem commitHeader_height (env : ChainEnv) (fuel : Nat) (m m1 : PaletteManager) (b : Bool)
    (h : commitHeader env fuel m = some (b, m1)) :
    m1.currentSyncHeaderHeight = m.currentSyncHeaderHeight := by
  unfold commitHeader at h
  split at h
  · exact absurd h (by simp)
  · split at h
    · simp only [Option.some.injEq, Prod.mk.injEq] at h
      rw [← h.2]
    · split at h
      · exact absurd h (by simp)
      · split at h
        · exact absurd h (by simp)
        · simp only [Option.some.injEq, Prod.mk.injEq] at h
          rw [← h.2]

theorem fetchLockEvents_height (env : ChainEnv) (m : PaletteManager) (height : Nat) :
    (fetchLockEvents env m height).2.currentSyncHeaderHeight = m.currentSyncHeaderHeight := by
  unfold fetchLockEvents
  split <;> rfl

theorem handleHeader_height (env : ChainEnv) (fuel : Nat) (m m1 : PaletteManager) (height : Nat)
    (b : Bool) (h : handleHeader env fuel m height = some (b, m1)) :
    m1.currentSyncHeaderHeight = m.currentSyncHeaderHeight := by
  unfold handleHeader at h
  split at h
  · exact absurd h (by simp)
  · split at h
    · have hfb := fetchBlockHeader_height env m height
      split at h
      · rename_i m2 heq
        simp only [Option.some.injEq, Prod.mk.injEq] at h
        rw [heq] at hfb
        rw [← h.2]
        exact hfb
      · rename_i m2 heq
        rw [heq] at hfb
        split at h
        · exact absurd h (by simp)
        · rename_i m3 hep
          simp only [Option.some.injEq, Prod.mk.injEq] at h
          rw [← h.2, isEpoch_height env m2 m3 false hep]
          exact hfb
        · rename_i m3 hep
          have he := isEpoch_height env m2 m3 true hep
          split at h
          · exact absurd h (by simp)
          · rename_i m4 hcm
            simp only [Option.some.injEq, Prod.mk.injEq] at h
            rw [← h.2, commitHeader_height env fuel m3 m4 false hcm, he]
            exact hfb
          · rename_i m4 hcm
            simp only [Option.some.injEq, Prod.mk.injEq] at h
            rw [← h.2, commitHeader_height env fuel m3 m4 true hcm, he]
            exact hfb
    · simp only [Option.some.injEq, Prod.mk.injEq] at h
      rw [← h.2]

/-- A `handleNewBlock` that returns true ran `fetchLockEvents` on the manager left by the
header part. -/
theorem handleNewBlock_true (env : ChainEnv) (fuel : Nat) (m m1 : PaletteManager) (height : Nat)
    (h : handleNewBlock env fuel m height = some (true, m1)) :
    ∃ m0, handleHeader env fuel m height = some (true, m0) ∧
      m1 = (fetchLockEvents env m0 height).2 := by
  unfold handleNewBlock at h
  split at h
  · exact absurd h (by simp)
  · simp at h
  · rename_i m0 hh
    simp only [Option.some.injEq, Prod.mk.injEq, true_and] at h
    exact ⟨m0, hh, h.symm⟩

theorem handleNewBlock_height (env : ChainEnv) (fuel : Nat) (m m1 : PaletteManager) (height : Nat)
    (h : handleNewBlock env fuel m height = some (true, m1)) :
    m1.currentSyncHeaderHeight = m.currentSyncHeaderHeight := by
  obtain ⟨m0, hh, rfl⟩ := handleNewBlock_true env fuel m m1 height h
  rw [fetchLockEvents_height, handleHeader_height env fuel m m0 height true hh]

theorem lockEvent_mono (env : ChainEnv) (height i : Nat) (evt : CrossChainEvent) (db : BoltDB)
    (x : Bytes) (hx : x ∈ db.retry) : x ∈ (lockEvent env height i evt db).retry := by
  unfold lockEvent
  split
  · exact hx
  · split
    · exact hx
    · exact PutRetry_mem_mono _ _ _ _ hx

theorem lockEventLoop_mono (env : ChainEnv) (height : Nat) (l : List CrossChainEvent) (k : Nat)
    (db : BoltDB) (x : Bytes) (hx : x ∈ db.retry) :
    x ∈ (lockEventLoop env height k l db).retry := by
  induction l generalizing k db with
  | nil => simpa [lockEventLoop] using hx
  | cons a l ih =>
    simp only [lockEventLoop]
    exact ih _ _ (lockEvent_mono env height k a db x hx)

theorem lockEvent_wanted (env : ChainEnv) (height i : Nat) (evt : CrossChainEvent) (db : BoltDB)
    (hwanted : eventWanted env evt = true) (hput : env.putRetryOk height i = true) :
    (serializeCrossTransfer env evt height).2 ∈ (lockEvent env height i evt db).retry := by
  unfold eventWanted at hwanted
  simp only [Bool.and_eq_true] at hwanted
  simp only [lockEvent, hwanted.1, hwanted.2, hput, Bool.not_true, Bool.false_eq_true, if_false]
  exact (PutRetry_mem _ _ _).mpr (Or.inr rfl)

theorem lockEventLoop_append (env : ChainEnv) (height : Nat) (l1 l2 : List CrossChainEvent)
    (k : Nat) (db : BoltDB) :
    lockEventLoop env height k (l1 ++ l2) db
      = lockEventLoop env height (k + l1.length) l2 (lockEventLoop env height k l1 db) := by
  induction l1 generalizing k db with
  | nil => simp [lockEventLoop]
  | cons a l1 ih =>
    rw [List.cons_append]
    simp only [lockEventLoop, List.length_cons]
    rw [ih]
    congr 1
    omega

/-- C9 fails as stated: `handleNewBlock(10)` succeeds, the value handed to
`UpdatePaletteHeight` in that iteration is 10 and the stored checkpoint afterwards is 10,
which is not at least `10 + 1`. -/
theorem C9_counterexample :
    (handleNewBlock (sampleChainEnv true true) 5 (runningManager 10) 10).map Prod.fst
        = some true ∧
      (monitorChainIter (sampleChainEnv true true) 5 (runningManager 10)).map
        (fun r => (r.2, r.1.db.GetPaletteHeight, r.1.currentSyncHeaderHeight))
        = some (some 10, 10, 11) ∧
      ¬ (10 + 1 ≤ 10) := by
  refine ⟨by decide, by decide, by decide⟩

/-- C9 (amended): in an iteration of `MonitorChain` at working height `h` for which
`handleNewBlock(h)` succeeds, the value handed to `UpdatePaletteHeight` is `h` itself (the
write comes before the increment); when that write succeeds the stored checkpoint
afterwards is `h`, and the in-memory working height becomes `h + 1`. -/
theorem C9_persists_processed_height (env : ChainEnv) (fuel : Nat) (m m1 : PaletteManager)
    (hnew : handleNewBlock env fuel m m.currentSyncHeaderHeight = some (true, m1)) :
    (monitorChainIter env fuel m).map Prod.snd = some (some m.currentSyncHeaderHeight) ∧
      (env.updateHeightOk m.currentSyncHeaderHeight = true →
        (monitorChainIter env fuel m).map (fun r => r.1.db.GetPaletteHeight)
          = some m.currentSyncHeaderHeight) ∧
      (monitorChainIter env fuel m).map (fun r => r.1.currentSyncHeaderHeight)
        = some (incU64 m.currentSyncHeaderHeight) ∧
      (m.currentSyncHeaderHeight + 1 < uint64Mod →
        (monitorChainIter env fuel m).map (fun r => r.1.currentSyncHeaderHeight)
          = some (m.currentSyncHeaderHeight + 1)) := by
  have hh := handleNewBlock_height env fuel m m1 _ hnew
  have hiter : monitorChainIter env fuel m = some ({ m1 with
      db := (m1.db.UpdatePaletteHeight (env.updateHeightOk m.currentSyncHeaderHeight)
        m.currentSyncHeaderHeight).1,
      currentSyncHeaderHeight := incU64 m.currentSyncHeaderHeight },
      some m.currentSyncHeaderHeight) := by
    simp only [monitorChainIter, hnew, hh]
  rw [hiter]
  refine ⟨rfl, ?_, rfl, ?_⟩
  · intro hok
    simp [BoltDB.UpdatePaletteHeight, BoltDB.GetPaletteHeight, hok]
  · intro hlt
    simp only [Option.map_some', incU64]
    rw [Nat.mod_eq_of_lt hlt]

/-- The instance of amended C9 at working height 10. -/
theorem C9_persists_processed_height_witness :
    (monitorChainIter (sampleChainEnv true true) 5 (runningManager 10)).map Prod.snd
        = some (some 10) ∧
      ((sampleChainEnv true true).updateHeightOk 10 = true →
        (monitorChainIter (sampleChainEnv true true) 5 (runningManager 10)).map
          (fun r => r.1.db.GetPaletteHeight) = some 10) ∧
      (monitorChainIter (sampleChainEnv true true) 5 (runningManager 10)).map
        (fun r => r.1.currentSyncHeaderHeight) = some (incU64 10) ∧
      (10 + 1 < uint64Mod →
        (monitorChainIter (sampleChainEnv true true) 5 (runningManager 10)).map
          (fun r => r.1.currentSyncHeaderHeight) = some (10 + 1)) :=
  C9_persists_processed_height (sampleChainEnv true true) 5 (runningManager 10)
    (PaletteManager.mk (BoltDB.mk [[10, 5]] [] 0) 10 10 0 (some (pltEpoch.mk 5 [[1]] [7]))
      (some (pltEpoch.mk 10 [[1]] [0])))
    (by decide)

/-- C10 fails as stated: height 10 carries an event that passes the outbound check and
is not done on Poly; when `FilterCrossChainEvent` fails, and also when it succeeds but
`PutRetry` fails, `handleNewBlock(10)` still returns true and the Retry table is empty. -/
theorem C10_counterexample :
    eventWanted (sampleChainEnv false true) sampleEvent = true ∧
      (handleNewBlock (sampleChainEnv false true) 5 (runningManager 10) 10).map
        (fun r => (r.1, r.2.db.retry)) = some (true, []) ∧
      eventWanted (sampleChainEnv true false) sampleEvent = true ∧
      (handleNewBlock (sampleChainEnv true false) 5 (runningManager 10) 10).map
        (fun r => (r.1, r.2.db.retry)) = some (true, []) := by
  refine ⟨by decide, by decide, by decide, by decide⟩

/-- C10 (amended): whenever `handleNewBlock(h)` returns true and `FilterCrossChainEvent`
for `h` returned an iterator (no error, not nil), every event the iterator yields that
passes the outbound `TargetContracts` check and is not already done on Poly, and whose
`PutRetry` succeeded, is in the Retry table (as the bytes `serializeCrossTransfer` gives
for it at height `h`). -/
theorem C10_events_recorded (env : ChainEnv) (fuel : Nat) (m m1 : PaletteManager) (h : Nat)
    (l1 l2 : List CrossChainEvent) (evt : CrossChainEvent)
    (hret : handleNewBlock env fuel m h = some (true, m1))
    (hfilter : env.filterCrossChainEvent h = .iter (l1 ++ evt :: l2))
    (hwanted : eventWanted env evt = true)
    (hput : env.putRetryOk h l1.length = true) :
    (serializeCrossTransfer env evt h).2 ∈ m1.db.retry := by
  obtain ⟨m0, _, rfl⟩ := handleNewBlock_true env fuel m m1 h hret
  have hsplit : l1 ++ evt :: l2 = (l1 ++ [evt]) ++ l2 := by simp
  simp only [fetchLockEvents, hfilter]
  rw [hsplit, lockEventLoop_append, lockEventLoop_append]
  apply lockEventLoop_mono
  simp only [lockEventLoop, Nat.zero_add]
  exact lockEvent_wanted env h l1.length evt _ hwanted hput

/-- The instance of amended C10 at height 10 with one event. -/
theorem C10_events_recorded_witness :
    (serializeCrossTransfer (sampleChainEnv true true) sampleEvent 10).2 ∈
      (PaletteManager.mk (BoltDB.mk [[10, 5]] [] 0) 10 10 0 (some (pltEpoch.mk 5 [[1]] [7]))
        (some (pltEpoch.mk 10 [[1]] [0]))).db.retry :=
  C10_events_recorded (sampleChainEnv true true) 5 (runningManager 10)
    (PaletteManager.mk (BoltDB.mk [[10, 5]] [] 0) 10 10 0 (some (pltEpoch.mk 5 [[1]] [7]))
      (some (pltEpoch.mk 10 [[1]] [0])))
    10 [] [] sampleEvent (by decide) rfl (by decide) rfl

/-! ## `isEpoch` and the validator-set comparison -/

theorem valsetDiffers_eq (s1 s2 : List Address) (h : s1.length = s2.length) :
    valsetDiffers s1 s2 = decide (s1 ≠ s2) := by
  induction s1 generalizing s2 with
  | nil =>
    cases s2 with
    | nil => simp [valsetDiffers]
    | cons b s2 => simp at h
  | cons a s1 ih =>
    cases s2 with
    | nil => simp at h
    | cons b s2 =>
      simp only [List.length_cons, Nat.add_right_cancel_iff] at h
      simp only [valsetDiffers]
      by_cases hab : a = b
      · subst hab
        simp [ih s2 h]
      · simp [hab]

theorem sortAddrList_length (env : ChainEnv) (l : List Address) :
    (sortAddrList env l).length = l.length :=
  List.length_insertionSort _ l

theorem sortAddrList_perm (env : ChainEnv) (l : List Address) : (sortAddrList env l).Perm l :=
  List.perm_insertionSort _ l

theorem sortAddrList_sorted (env : ChainEnv) (l : List Address) :
    List.Sorted (fun a b => env.addrHex a ≤ env.addrHex b) (sortAddrList env l) := by
  haveI : IsTotal Address (fun a b => env.addrHex a ≤ env.addrHex b) :=
    ⟨fun a b => le_total (env.addrHex a) (env.addrHex b)⟩
  haveI : IsTrans Address (fun a b => env.addrHex a ≤ env.addrHex b) :=
    ⟨fun _ _ _ h1 h2 => le_trans h1 h2⟩
  exact List.sorted_insertionSort _ l

/-- Where different addresses have different `Hex()` strings, sorting is canonical: two
lists sort to the same list exactly when they are permutations of each other. -/
theorem sortAddrList_eq_iff_perm (env : ChainEnv) (hinj : Function.Injective env.addrHex)
    (l1 l2 : List Address) : sortAddrList env l1 = sortAddrList env l2 ↔ l1.Perm l2 := by
  constructor
  · intro h
    exact ((sortAddrList_perm env l1).symm.trans (h ▸ List.Perm.refl _)).trans
      (sortAddrList_perm env l2)
  · intro h
    haveI : IsAntisymm Address (fun a b => env.addrHex a ≤ env.addrHex b) :=
      ⟨fun _ _ h1 h2 => hinj (le_antisymm h1 h2)⟩
    exact List.eq_of_perm_of_sorted
      (((sortAddrList_perm env l1).trans h).trans (sortAddrList_perm env l2).symm)
      (sortAddrList_sorted env l1) (sortAddrList_sorted env l2)

theorem sortAddrList_ne_of_length (env : ChainEnv) (l1 l2 : List Address)
    (h : l1.length ≠ l2.length) : sortAddrList env l1 ≠ sortAddrList env l2 := by
  intro heq
  apply h
  rw [← sortAddrList_length env l1, ← sortAddrList_length env l2, heq]

/-- The result of `isEpoch` on a manager with a cached header and a last epoch: whether
the two sorted validator sets differ; both sets are left sorted unless their sizes
differ. -/
theorem isEpoch_result (env : ChainEnv) (m : PaletteManager) (cur last : pltEpoch)
    (hc : m.curHeader = some cur) (hl : m.lastEpoch = some last) :
    isEpoch env m =
      some (decide (sortAddrList env cur.valset ≠ sortAddrList env last.valset),
        if cur.valset.length ≠ last.valset.length then m
        else { m with
          curHeader := some { cur with valset := sortAddrList env cur.valset },
          lastEpoch := some { last with valset := sortAddrList env last.valset } }) := by
  unfold isEpoch
  rw [hc, hl]
  by_cases hlen : cur.valset.length = last.valset.length
  · have hlen2 : (sortAddrList env cur.valset).length = (sortAddrList env last.valset).length := by
      rw [sortAddrList_length, sortAddrList_length, hlen]
    simp only [hlen, ne_eq, not_true_eq_false, if_false, valsetDiffers_eq _ _ hlen2]
  · have hne := sortAddrList_ne_of_length env _ _ hlen
    simp [hlen, hne]

/-- C12: for a manager with a cached header and a last epoch, `isEpoch` returns, and it
returns false exactly when the two validator lists sorted by the address order are
equal; where different addresses have different `Hex()` strings this is exactly when the
two lists are permutations of each other.  A difference in size, or an address that
occurs in only one of the two lists, yields true. -/
theorem C12_isEpoch_false_iff_perm (env : ChainEnv) (m : PaletteManager) (cur last : pltEpoch)
    (hc : m.curHeader = some cur) (hl : m.lastEpoch = some last) :
    (∃ b, (isEpoch env m).map Prod.fst = some b) ∧
    ((isEpoch env m).map Prod.fst = some false ↔
      sortAddrList env cur.valset = sortAddrList env last.valset) ∧
    (cur.valset.length ≠ last.valset.length → (isEpoch env m).map Prod.fst = some true) ∧
    (Function.Injective env.addrHex →
      ((isEpoch env m).map Prod.fst = some false ↔ cur.valset.Perm last.valset) ∧
      ((isEpoch env m).map Prod.fst = some true ↔ ¬ cur.valset.Perm last.valset) ∧
      ((∃ a, (a ∈ cur.valset ∧ a ∉ last.valset) ∨ (a ∈ last.valset ∧ a ∉ cur.valset)) →
        (isEpoch env m).map Prod.fst = some true)) := by
  have hres := isEpoch_result env m cur last hc hl
  have hfalse : (isEpoch env m).map Prod.fst = some false ↔
      sortAddrList env cur.valset = sortAddrList env last.valset := by
    rw [hres]
    simp
  have htrue : (isEpoch env m).map Prod.fst = some true ↔
      sortAddrList env cur.valset ≠ sortAddrList env last.valset := by
    rw [hres]
    simp
  refine ⟨⟨_, by rw [hres]; rfl⟩, hfalse, ?_, ?_⟩
  · intro hlen
    exact htrue.mpr (sortAddrList_ne_of_length env _ _ hlen)
  · intro hinj
    have hperm := sortAddrList_eq_iff_perm env hinj cur.valset last.valset
    refine ⟨hfalse.trans hperm, htrue.trans (not_congr hperm), ?_⟩
    rintro ⟨a, ha⟩
    apply htrue.mpr
    intro heq
    have hmem := (hperm.mp heq).mem_iff (a := a)
    rcases ha with ⟨h1, h2⟩ | ⟨h1, h2⟩
    · exact h2 (hmem.mp h1)
    · exact h2 (hmem.mpr h1)

/-- The instance of C12 for the header validators `[2]`, `[1]`, `[3]` against the last
epoch `[3]`, `[2]`. -/
theorem C12_isEpoch_false_iff_perm_witness :
    (∃ b, (isEpoch (epochChainEnv true)
      { epochManager 10 with curHeader := some (pltEpoch.mk 10 [[2], [1], [3]] [0]) }).map
        Prod.fst = some b) ∧
    ((isEpoch (epochChainEnv true)
      { epochManager 10 with curHeader := some (pltEpoch.mk 10 [[2], [1], [3]] [0]) }).map
        Prod.fst = some false ↔
      sortAddrList (epochChainEnv true) [[2], [1], [3]]
        = sortAddrList (epochChainEnv true) [[3], [2]]) ∧
    (([[2], [1], [3]] : List Address).length ≠ ([[3], [2]] : List Address).length →
      (isEpoch (epochChainEnv true)
        { epochManager 10 with curHeader := some (pltEpoch.mk 10 [[2], [1], [3]] [0]) }).map
          Prod.fst = some true) ∧
    (Function.Injective (epochChainEnv true).addrHex →
      ((isEpoch (epochChainEnv true)
        { epochManager 10 with curHeader := some (pltEpoch.mk 10 [[2], [1], [3]] [0]) }).map
          Prod.fst = some false ↔ List.Perm [[2], [1], [3]] [[3], [2]]) ∧
      ((isEpoch (epochChainEnv true)
        { epochManager 10 with curHeader := some (pltEpoch.mk 10 [[2], [1], [3]] [0]) }).map
          Prod.fst = some true ↔ ¬ List.Perm [[2], [1], [3]] [[3], [2]]) ∧
      ((∃ a, (a ∈ ([[2], [1], [3]] : List Address) ∧ a ∉ ([[3], [2]] : List Address)) ∨
          (a ∈ ([[3], [2]] : List Address) ∧ a ∉ ([[2], [1], [3]] : List Address))) →
        (isEpoch (epochChainEnv true)
          { epochManager 10 with curHeader := some (pltEpoch.mk 10 [[2], [1], [3]] [0]) }).map
            Prod.fst = some true)) :=
  C12_isEpoch_false_iff_perm (epochChainEnv true)
    { epochManager 10 with curHeader := some (pltEpoch.mk 10 [[2], [1], [3]] [0]) }
    (pltEpoch.mk 10 [[2], [1], [3]] [0]) (pltEpoch.mk 5 [[3], [2]] [7]) rfl rfl

/-! ## The header part of `handleNewBlock` -/

theorem fetchBlockHeader_lastEpoch (env : ChainEnv) (m : PaletteManager) (height : Nat) :
    (fetchBlockHeader env m height).2.lastEpoch = m.lastEpoch := by
  unfold fetchBlockHeader
  split
  · rfl
  · split
    · rfl
    · split
      · rfl
      · split
        · rfl
        · split <;> rfl

theorem fetchBlockHeader_cur (env : ChainEnv) (m : PaletteManager) (height : Nat)
    (h : (fetchBlockHeader env m height).1 = true) :
    ∃ cur, (fetchBlockHeader env m height).2.curHeader = some cur := by
  unfold fetchBlockHeader at h ⊢
  split at h
  · rename_i hc
    rw [if_pos hc]
    cases hcur : m.curHeader with
    | none => simp [hcur] at hc
    | some cur => exact ⟨cur, rfl⟩
  · rename_i hc
    rw [if_neg hc]
    split at h
    · simp at h
    · split at h
      · simp at h
      · split at h
        · rename_i hc2
          rw [if_pos hc2]
          cases hcur : m.curHeader with
          | none => simp [hcur] at hc2
          | some cur => exact ⟨cur, rfl⟩
        · rename_i hc2
          rw [if_neg hc2]
          split at h
          · simp at h
          · exact ⟨_, rfl⟩

/-- On a manager without a cached header, a successful `fetchBlockHeader(height)` caches
a header of that height. -/
theorem fetchBlockHeader_fresh (env : ChainEnv) (m : PaletteManager) (height : Nat)
    (hnone : m.curHeader = none) (h : (fetchBlockHeader env m height).1 = true) :
    ∃ cur, (fetchBlockHeader env m height).2.curHeader = some cur ∧ cur.height = height := by
  unfold fetchBlockHeader at h ⊢
  simp only [hnone, Bool.false_eq_true, if_false] at h ⊢
  split at h
  · simp at h
  · split at h
    · simp at h
    · split at h
      · simp at h
      · exact ⟨_, rfl, rfl⟩

theorem confirmPoll_mono (env : ChainEnv) (tx : String) (fuel extra tick h k : Nat)
    (hk : confirmPoll env tx fuel tick h = some k) :
    confirmPoll env tx (fuel + extra) tick h = some k := by
  induction fuel generalizing tick h with
  | zero => simp [confirmPoll] at hk
  | succ n ih =>
    rw [Nat.add_right_comm]
    simp only [confirmPoll] at hk ⊢
    split
    · rename_i h0
      rw [if_pos h0] at hk
      exact ih _ _ hk
    · rename_i h0
      rw [if_neg h0] at hk
      split
      · rename_i hgt
        rw [if_pos hgt] at hk
        exact hk
      · rename_i hgt
        rw [if_neg hgt] at hk
        exact ih _ _ hk

/-- The poll of `commitHeader` ends after two ticks when the first tick finds the
transaction at a non-zero height and the second finds the chain above it. -/
theorem confirmPoll_two_ticks (env : ChainEnv) (tx : String) (fuel : Nat)
    (h0 : env.getBlockHeightByTxHash 0 tx ≠ 0)
    (h1 : env.getCurrentBlockHeight 1 > env.getBlockHeightByTxHash 0 tx) :
    confirmPoll env tx (fuel + 2) 0 0 = some (env.getBlockHeightByTxHash 0 tx) := by
  have h : confirmPoll env tx 2 0 0 = some (env.getBlockHeightByTxHash 0 tx) := by
    simp [confirmPoll, h0, h1]
  have := confirmPoll_mono env tx 2 fuel 0 0 _ h
  rwa [Nat.add_comm] at this

theorem commitHeader_cases (env : ChainEnv) (fuel : Nat) (m : PaletteManager)
    (cur last : pltEpoch) (hc : m.curHeader = some cur) (hl : m.lastEpoch = some last) :
    commitHeader env fuel m =
      match env.syncBlockHeader cur.raw with
      | .error _ => some (false, m)
      | .ok tx =>
        match confirmPoll env tx fuel 0 0 with
        | none => none
        | some _ =>
          some (true, { m with lastEpoch := some (pltEpoch.mk cur.height cur.valset cur.raw) }) := by
  unfold commitHeader
  rw [hc]
  simp only
  split
  · rfl
  · split
    · rfl
    · rw [hl]

/-- C14: on a manager with a cached header `cur` and a last epoch: whenever
`commitHeader` returns true, the last epoch has the height, raw bytes and validator set
of `cur` (and the cached header is still `cur`); whenever `SyncBlockHeader` fails,
`commitHeader` returns false and the manager, its last epoch included, is unchanged;
when `SyncBlockHeader` succeeds and the confirmation poll ends within the ticks allowed,
`commitHeader` does return true.  In the tested case, a header fetched at `h` by a
manager without a cached header and then committed, the last epoch height becomes
`h`. -/
theorem C14_commitHeader_promotes (env : ChainEnv) (fuel : Nat) (m : PaletteManager)
    (cur last : pltEpoch) (hc : m.curHeader = some cur) (hl : m.lastEpoch = some last) :
    (∀ m1, commitHeader env fuel m = some (true, m1) →
      m1.lastEpoch = some (pltEpoch.mk cur.height cur.valset cur.raw) ∧
      m1.curHeader = some cur) ∧
    (∀ err, env.syncBlockHeader cur.raw = .error err →
      commitHeader env fuel m = some (false, m)) ∧
    (∀ tx k, env.syncBlockHeader cur.raw = .ok tx → confirmPoll env tx fuel 0 0 = some k →
      commitHeader env fuel m
        = some (true, { m with lastEpoch := some (pltEpoch.mk cur.height cur.valset cur.raw) })) ∧
    (∀ m0 h m1, m0.curHeader = none → fetchBlockHeader env m0 h = (true, m) →
      commitHeader env fuel m = some (true, m1) →
      ∃ e, m1.lastEpoch = some e ∧ e.height = h) := by
  have hcases := commitHeader_cases env fuel m cur last hc hl
  have hpromote : ∀ m1, commitHeader env fuel m = some (true, m1) →
      m1.lastEpoch = some (pltEpoch.mk cur.height cur.valset cur.raw) ∧
      m1.curHeader = some cur := by
    intro m1 hret
    rw [hcases] at hret
    split at hret
    · simp at hret
    · split at hret
      · simp at hret
      · simp only [Option.some.injEq, Prod.mk.injEq, true_and] at hret
        rw [← hret]
        exact ⟨rfl, hc⟩
  refine ⟨hpromote, ?_, ?_, ?_⟩
  · intro err herr
    rw [hcases, herr]
  · intro tx k htx hk
    rw [hcases, htx]
    simp only [hk]
  · intro m0 h m1 hnone hfetch hret
    have htrue : (fetchBlockHeader env m0 h).1 = true := by rw [hfetch]
    obtain ⟨c, hcur, hheight⟩ := fetchBlockHeader_fresh env m0 h hnone htrue
    rw [hfetch] at hcur
    have hcc : c = cur := by
      have h2 : some c = some cur := hcur.symm.trans hc
      exact Option.some.inj h2
    refine ⟨_, (hpromote m1 hret).1, ?_⟩
    rw [← hcc]
    exact hheight

/-- The instance of C14 for a header fetched at height 10 against the last epoch of
height 5: with `SyncBlockHeader` succeeding the last epoch becomes the header, with
`SyncBlockHeader` failing the manager is unchanged. -/
theorem C14_commitHeader_promotes_witness :
    ((PaletteManager.mk (BoltDB.mk [] [] 0) 10 10 0 (some (pltEpoch.mk 10 [[2], [1], [3]] [0]))
        (some (pltEpoch.mk 10 [[2], [1], [3]] [0]))).lastEpoch
        = some (pltEpoch.mk 10 [[2], [1], [3]] [0]) ∧
      (PaletteManager.mk (BoltDB.mk [] [] 0) 10 10 0 (some (pltEpoch.mk 10 [[2], [1], [3]] [0]))
        (some (pltEpoch.mk 10 [[2], [1], [3]] [0]))).curHeader
        = some (pltEpoch.mk 10 [[2], [1], [3]] [0])) ∧
    commitHeader (epochChainEnv false) 5
        { epochManager 10 with curHeader := some (pltEpoch.mk 10 [[2], [1], [3]] [0]) }
      = some (false,
        { epochManager 10 with curHeader := some (pltEpoch.mk 10 [[2], [1], [3]] [0]) }) :=
  ⟨(C14_commitHeader_promotes (epochChainEnv true) 5
      { epochManager 10 with curHeader := some (pltEpoch.mk 10 [[2], [1], [3]] [0]) }
      (pltEpoch.mk 10 [[2], [1], [3]] [0]) (pltEpoch.mk 5 [[3], [2]] [7]) rfl rfl).1
      (PaletteManager.mk (BoltDB.mk [] [] 0) 10 10 0 (some (pltEpoch.mk 10 [[2], [1], [3]] [0]))
        (some (pltEpoch.mk 10 [[2], [1], [3]] [0]))) (by decide),
    (C14_commitHeader_promotes (epochChainEnv false) 5
      { epochManager 10 with curHeader := some (pltEpoch.mk 10 [[2], [1], [3]] [0]) }
      (pltEpoch.mk 10 [[2], [1], [3]] [0]) (pltEpoch.mk 5 [[3], [2]] [7]) rfl rfl).2.1
      "sync failed" rfl⟩

theorem isEpoch_afterIsEpoch (env : ChainEnv) (m : PaletteManager) (cur last : pltEpoch)
    (hc : m.curHeader = some cur) (hl : m.lastEpoch = some last) :
    isEpoch env m =
      some (decide (sortAddrList env cur.valset ≠ sortAddrList env last.valset),
        afterIsEpoch env m cur last) :=
  isEpoch_result env m cur last hc hl

theorem sortAddrList_idem (env : ChainEnv) (l : List Address) :
    sortAddrList env (sortAddrList env l) = sortAddrList env l :=
  List.Sorted.insertionSort_eq (sortAddrList_sorted env l)

/-- After `isEpoch` the cached header and the last epoch are the same epochs as before,
up to the order of their validators. -/
theorem afterIsEpoch_fields (env : ChainEnv) (m : PaletteManager) (cur last : pltEpoch)
    (hc : m.curHeader = some cur) (hl : m.lastEpoch = some last) :
    ∃ cur1 last1, (afterIsEpoch env m cur last).curHeader = some cur1 ∧
      (afterIsEpoch env m cur last).lastEpoch = some last1 ∧
      cur1.height = cur.height ∧ cur1.raw = cur.raw ∧ cur1.valset.Perm cur.valset ∧
      sortAddrList env cur1.valset = sortAddrList env cur.valset ∧
      last1.height = last.height ∧ last1.raw = last.raw ∧ last1.valset.Perm last.valset := by
  unfold afterIsEpoch
  split
  · exact ⟨cur, last, hc, hl, rfl, rfl, List.Perm.refl _, rfl, rfl, rfl, List.Perm.refl _⟩
  · exact ⟨_, _, rfl, rfl, rfl, rfl, sortAddrList_perm env _, sortAddrList_idem env _, rfl, rfl,
      sortAddrList_perm env _⟩

theorem handleHeader_cases (env : ChainEnv) (fuel : Nat) (m : PaletteManager) (h : Nat)
    (last : pltEpoch) (hl : m.lastEpoch = some last) :
    handleHeader env fuel m h =
      if h ≤ last.height then some (true, m)
      else if (fetchBlockHeader env m h).1 = false then
        some (false, (fetchBlockHeader env m h).2)
      else
        match isEpoch env (fetchBlockHeader env m h).2 with
        | none => none
        | some (false, m2) => some (true, m2)
        | some (true, m2) => commitHeader env fuel m2 := by
  unfold handleHeader
  rw [hl]
  simp only [checkEpochHeight]
  by_cases hle : h ≤ last.height
  · simp [hle]
  · simp only [hle, if_false, if_true]
    rcases hf : fetchBlockHeader env m h with ⟨b, m1⟩
    cases b with
    | false => simp
    | true =>
      simp only [Bool.true_eq_false, if_false]
      cases he : isEpoch env m1 with
      | none => rfl
      | some r =>
        obtain ⟨bE, m2⟩ := r
        cases bE with
        | false => rfl
        | true =>
          simp only
          cases hcm : commitHeader env fuel m2 with
          | none => rfl
          | some r2 =>
            obtain ⟨b2, m3⟩ := r2
            cases b2 <;> rfl

theorem commitCall_cases (env : ChainEnv) (m : PaletteManager) (h : Nat)
    (last : pltEpoch) (hl : m.lastEpoch = some last) :
    commitCall env m h =
      if h ≤ last.height then none
      else if (fetchBlockHeader env m h).1 = false then none
      else
        match isEpoch env (fetchBlockHeader env m h).2 with
        | some (true, m2) => some m2
        | _ => none := by
  unfold commitCall
  rw [hl]
  simp only [checkEpochHeight]
  by_cases hle : h ≤ last.height
  · simp [hle]
  · simp only [hle, if_false, if_true]
    rcases hf : fetchBlockHeader env m h with ⟨b, m1⟩
    cases b with
    | false => simp
    | true => simp

theorem handleNewBlock_fst (env : ChainEnv) (fuel : Nat) (m : PaletteManager) (h : Nat) :
    (handleNewBlock env fuel m h).map Prod.fst = (handleHeader env fuel m h).map Prod.fst := by
  unfold handleNewBlock
  cases hh : handleHeader env fuel m h with
  | none => rfl
  | some r =>
    obtain ⟨b, m1⟩ := r
    cases b <;> rfl

theorem confirmPoll_congr (env env1 : ChainEnv) (tx : String) (fuel tick h : Nat)
    (h1 : env1.getBlockHeightByTxHash = env.getBlockHeightByTxHash)
    (h2 : env1.getCurrentBlockHeight = env.getCurrentBlockHeight) :
    confirmPoll env1 tx fuel tick h = confirmPoll env tx fuel tick h := by
  induction fuel generalizing tick h with
  | zero => rfl
  | succ n ih => simp only [confirmPoll, h1, h2, ih]

theorem commitHeader_congr (env env1 : ChainEnv) (fuel : Nat) (m : PaletteManager)
    (h0 : env1.syncBlockHeader = env.syncBlockHeader)
    (h1 : env1.getBlockHeightByTxHash = env.getBlockHeightByTxHash)
    (h2 : env1.getCurrentBlockHeight = env.getCurrentBlockHeight) :
    commitHeader env1 fuel m = commitHeader env fuel m := by
  unfold commitHeader
  simp only [h0, confirmPoll_congr env env1 _ fuel 0 0 h1 h2]

theorem fetchBlockHeader_congr (env env1 : ChainEnv) (m : PaletteManager) (h : Nat)
    (h0 : env1.headerByNumber = env.headerByNumber) :
    fetchBlockHeader env1 m h = fetchBlockHeader env m h := by
  unfold fetchBlockHeader
  rw [h0]

theorem isEpoch_congr (env env1 : ChainEnv) (m : PaletteManager)
    (h0 : env1.addrHex = env.addrHex) : isEpoch env1 m = isEpoch env m := by
  unfold isEpoch sortAddrList
  rw [h0]

/-- The header part of `handleNewBlock` does not look at the events. -/
theorem handleHeader_congr_events (env env1 : ChainEnv) (fuel : Nat) (m : PaletteManager)
    (h : Nat) (ha : env1.headerByNumber = env.headerByNumber) (hb : env1.addrHex = env.addrHex)
    (h0 : env1.syncBlockHeader = env.syncBlockHeader)
    (h1 : env1.getBlockHeightByTxHash = env.getBlockHeightByTxHash)
    (h2 : env1.getCurrentBlockHeight = env.getCurrentBlockHeight) :
    handleHeader env1 fuel m h = handleHeader env fuel m h := by
  unfold handleHeader
  cases hl : m.lastEpoch with
  | none => rfl
  | some last =>
    simp only [fetchBlockHeader_congr env env1 m h ha]
    split
    · rcases hf : fetchBlockHeader env m h with ⟨b, m1⟩
      cases b with
      | false => rfl
      | true =>
        simp only [isEpoch_congr env env1 m1 hb]
        cases he : isEpoch env m1 with
        | none => rfl
        | some r =>
          obtain ⟨bE, m2⟩ := r
          cases bE with
          | false => rfl
          | true =>
            simp only [commitHeader_congr env env1 fuel m2 h0 h1 h2]
    · rfl

/-- C13: on a manager with a last epoch, `handleNewBlock(h)` returns false exactly when
`h` is above the last epoch height and either `fetchBlockHeader(h)` fails, or `isEpoch`
returns true and `commitHeader` returns false; and whether it returns true or false does
not change when `FilterCrossChainEvent` and the Retry writes answer differently. -/
theorem C13_handleNewBlock_false_iff (env : ChainEnv) (fuel : Nat) (m : PaletteManager)
    (h : Nat) (last : pltEpoch) (hl : m.lastEpoch = some last) :
    ((handleNewBlock env fuel m h).map Prod.fst = some false ↔
      h > last.height ∧
        ((fetchBlockHeader env m h).1 = false ∨
          ∃ m2 m3, isEpoch env (fetchBlockHeader env m h).2 = some (true, m2) ∧
            commitHeader env fuel m2 = some (false, m3))) ∧
    (∀ filter putOk,
      (handleNewBlock { env with filterCrossChainEvent := filter, putRetryOk := putOk }
        fuel m h).map Prod.fst = (handleNewBlock env fuel m h).map Prod.fst) := by
  constructor
  · rw [handleNewBlock_fst, handleHeader_cases env fuel m h last hl]
    by_cases hle : h ≤ last.height
    · simp only [hle, if_true, Option.map_some']
      constructor
      · intro hcontra
        simp at hcontra
      · rintro ⟨hgt, _⟩
        omega
    · have hgt : h > last.height := by omega
      simp only [hle, if_false, hgt, true_and]
      by_cases hf : (fetchBlockHeader env m h).1 = false
      · simp [hf]
      · simp only [hf, if_false, false_or]
        cases he : isEpoch env (fetchBlockHeader env m h).2 with
        | none => simp
        | some r =>
          obtain ⟨bE, m2⟩ := r
          cases bE with
          | false => simp
          | true =>
            simp only [Option.some.injEq, Prod.mk.injEq, true_and, exists_eq_left']
            cases hcm : commitHeader env fuel m2 with
            | none => simp [hcm]
            | some r2 =>
              obtain ⟨b2, m3⟩ := r2
              cases b2 <;> simp [hcm]
  · intro filter putOk
    have hcongr := handleHeader_congr_events env
      { env with filterCrossChainEvent := filter, putRetryOk := putOk } fuel m h
      rfl rfl rfl rfl rfl
    rw [handleNewBlock_fst, handleNewBlock_fst, hcongr]

/-- The instance of C13 at height 10 above a last epoch at height 5, with the validator
set changed and `SyncBlockHeader` failing. -/
theorem C13_handleNewBlock_false_iff_witness :
    ((handleNewBlock (epochChainEnv false) 5 (epochManager 10) 10).map Prod.fst = some false ↔
      10 > (pltEpoch.mk 5 [[3], [2]] [7]).height ∧
        ((fetchBlockHeader (epochChainEnv false) (epochManager 10) 10).1 = false ∨
          ∃ m2 m3, isEpoch (epochChainEnv false)
              (fetchBlockHeader (epochChainEnv false) (epochManager 10) 10).2 = some (true, m2) ∧
            commitHeader (epochChainEnv false) 5 m2 = some (false, m3))) ∧
    (∀ filter putOk,
      (handleNewBlock
        { epochChainEnv false with filterCrossChainEvent := filter, putRetryOk := putOk }
        5 (epochManager 10) 10).map Prod.fst
        = (handleNewBlock (epochChainEnv false) 5 (epochManager 10) 10).map Prod.fst) :=
  C13_handleNewBlock_false_iff (epochChainEnv false) 5 (epochManager 10) 10
    (pltEpoch.mk 5 [[3], [2]] [7]) rfl

theorem fetchLockEvents_lastEpoch (env : ChainEnv) (m : PaletteManager) (height : Nat) :
    (fetchLockEvents env m height).2.lastEpoch = m.lastEpoch := by
  unfold fetchLockEvents
  split <;> rfl

/-- What `isEpoch` returns after a successful `fetchBlockHeader`. -/
theorem isEpoch_after_fetch (env : ChainEnv) (m : PaletteManager) (h : Nat) (last : pltEpoch)
    (hl : m.lastEpoch = some last) (hf : (fetchBlockHeader env m h).1 = true) :
    ∃ cur, (fetchBlockHeader env m h).2.curHeader = some cur ∧
      (fetchBlockHeader env m h).2.lastEpoch = some last ∧
      isEpoch env (fetchBlockHeader env m h).2 =
        some (decide (sortAddrList env cur.valset ≠ sortAddrList env last.valset),
          afterIsEpoch env (fetchBlockHeader env m h).2 cur last) := by
  obtain ⟨cur, hcur⟩ := fetchBlockHeader_cur env m h hf
  have hl1 : (fetchBlockHeader env m h).2.lastEpoch = some last := by
    rw [fetchBlockHeader_lastEpoch, hl]
  exact ⟨cur, hcur, hl1, isEpoch_afterIsEpoch env _ cur last hcur hl1⟩

/-- The last epoch after the header part of `handleNewBlock`: the epoch it was, up to the
order of its validators, or a new epoch whose sorted validator set differs. -/
theorem handleHeader_lastEpoch (env : ChainEnv) (fuel : Nat) (m m0 : PaletteManager) (h : Nat)
    (b : Bool) (last : pltEpoch) (hl : m.lastEpoch = some last)
    (hret : handleHeader env fuel m h = some (b, m0)) :
    ∃ e, m0.lastEpoch = some e ∧
      ((e.height = last.height ∧ e.raw = last.raw ∧ e.valset.Perm last.valset) ∨
        (h > last.height ∧ sortAddrList env e.valset ≠ sortAddrList env last.valset ∧
          (Function.Injective env.addrHex → ¬ e.valset.Perm last.valset))) := by
  rw [handleHeader_cases env fuel m h last hl] at hret
  by_cases hle : h ≤ last.height
  · simp only [hle, if_true, Option.some.injEq, Prod.mk.injEq] at hret
    rw [← hret.2]
    exact ⟨last, hl, Or.inl ⟨rfl, rfl, List.Perm.refl _⟩⟩
  · rw [if_neg hle] at hret
    by_cases hf : (fetchBlockHeader env m h).1 = false
    · rw [if_pos hf] at hret
      simp only [Option.some.injEq, Prod.mk.injEq] at hret
      rw [← hret.2, fetchBlockHeader_lastEpoch]
      exact ⟨last, hl, Or.inl ⟨rfl, rfl, List.Perm.refl _⟩⟩
    · rw [if_neg hf] at hret
      have hft : (fetchBlockHeader env m h).1 = true := by simpa using hf
      obtain ⟨cur, hcur, hl1, hep⟩ := isEpoch_after_fetch env m h last hl hft
      obtain ⟨cur1, last1, hc1, hl1a, hch, hcr, hcp, hcs, hlh, hlr, hlp⟩ :=
        afterIsEpoch_fields env _ cur last hcur hl1
      rw [hep] at hret
      by_cases hd : sortAddrList env cur.valset = sortAddrList env last.valset
      · simp only [hd, ne_eq, not_true_eq_false, decide_False, Option.some.injEq,
          Prod.mk.injEq] at hret
        rw [← hret.2]
        exact ⟨last1, hl1a, Or.inl ⟨hlh, hlr, hlp⟩⟩
      · simp only [hd, ne_eq, not_false_eq_true, decide_True] at hret
        rw [commitHeader_cases env fuel _ cur1 last1 hc1 hl1a] at hret
        split at hret
        · simp only [Option.some.injEq, Prod.mk.injEq] at hret
          rw [← hret.2]
          exact ⟨last1, hl1a, Or.inl ⟨hlh, hlr, hlp⟩⟩
        · split at hret
          · simp at hret
          · simp only [Option.some.injEq, Prod.mk.injEq] at hret
            rw [← hret.2]
            refine ⟨_, rfl, Or.inr ⟨by omega, ?_, ?_⟩⟩
            · show sortAddrList env cur1.valset ≠ sortAddrList env last.valset
              rw [hcs]
              exact hd
            · intro hinj hperm
              apply hd
              exact (sortAddrList_eq_iff_perm env hinj _ _).mpr (hcp.symm.trans hperm)

/-- C11: on a manager with a last epoch `last`.  (1) When `handleNewBlock(h)` calls
`commitHeader`, then `h > last.height` and the sorted validator set of the fetched header
differs from the sorted validator set of `last`; where different addresses have
different `Hex()` strings the two sets then differ as multisets.  (2) When it does not
call `commitHeader`, its header part does not depend on what `SyncBlockHeader` and the
confirmation poll would answer.  (3) Hence after `handleNewBlock(h)` the last epoch is
either the epoch it was (same height and raw bytes, validators permuted), or a newly
committed one whose validator set differs from the previous epoch's. -/
theorem C11_commit_only_new_valset (env : ChainEnv) (fuel : Nat) (m : PaletteManager) (h : Nat)
    (last : pltEpoch) (hl : m.lastEpoch = some last) :
    (∀ m2, commitCall env m h = some m2 →
      handleHeader env fuel m h = commitHeader env fuel m2 ∧ h > last.height ∧
      ∃ cur, (fetchBlockHeader env m h).2.curHeader = some cur ∧
        sortAddrList env cur.valset ≠ sortAddrList env last.valset ∧
        (Function.Injective env.addrHex → ¬ cur.valset.Perm last.valset)) ∧
    (commitCall env m h = none → ∀ sync txHeight curHeight,
      handleHeader
        { env with
          syncBlockHeader := sync,
          getBlockHeightByTxHash := txHeight,
          getCurrentBlockHeight := curHeight } fuel m h
        = handleHeader env fuel m h) ∧
    (∀ b m1, handleNewBlock env fuel m h = some (b, m1) →
      ∃ e, m1.lastEpoch = some e ∧
        ((e.height = last.height ∧ e.raw = last.raw ∧ e.valset.Perm last.valset) ∨
          (h > last.height ∧ sortAddrList env e.valset ≠ sortAddrList env last.valset ∧
            (Function.Injective env.addrHex → ¬ e.valset.Perm last.valset)))) := by
  refine ⟨?_, ?_, ?_⟩
  · intro m2 hcall
    rw [commitCall_cases env m h last hl] at hcall
    rw [handleHeader_cases env fuel m h last hl]
    by_cases hle : h ≤ last.height
    · simp [hle] at hcall
    · rw [if_neg hle] at hcall ⊢
      by_cases hf : (fetchBlockHeader env m h).1 = false
      · simp [hf] at hcall
      · rw [if_neg hf] at hcall ⊢
        have hft : (fetchBlockHeader env m h).1 = true := by simpa using hf
        obtain ⟨cur, hcur, hl1, hep⟩ := isEpoch_after_fetch env m h last hl hft
        rw [hep] at hcall ⊢
        by_cases hd : sortAddrList env cur.valset = sortAddrList env last.valset
        · simp [hd] at hcall
        · simp only [hd, ne_eq, not_false_eq_true, decide_True, Option.some.injEq] at hcall ⊢
          rw [hcall]
          refine ⟨rfl, by omega, cur, hcur, hd, ?_⟩
          intro hinj hperm
          exact hd ((sortAddrList_eq_iff_perm env hinj _ _).mpr hperm)
  · intro hnone sync txHeight curHeight
    have hl2 := hl
    rw [commitCall_cases env m h last hl] at hnone
    rw [handleHeader_cases env fuel m h last hl, handleHeader_cases _ fuel m h last hl2]
    have hfetch := fetchBlockHeader_congr env
      { env with
        syncBlockHeader := sync,
        getBlockHeightByTxHash := txHeight,
        getCurrentBlockHeight := curHeight } m h rfl
    rw [hfetch]
    by_cases hle : h ≤ last.height
    · simp [hle]
    · rw [if_neg hle] at hnone
      rw [if_neg hle, if_neg hle]
      by_cases hf : (fetchBlockHeader env m h).1 = false
      · simp [hf]
      · rw [if_neg hf] at hnone
        rw [if_neg hf, if_neg hf]
        have hiso := isEpoch_congr env
          { env with
            syncBlockHeader := sync,
            getBlockHeightByTxHash := txHeight,
            getCurrentBlockHeight := curHeight } (fetchBlockHeader env m h).2 rfl
        rw [hiso]
        cases he : isEpoch env (fetchBlockHeader env m h).2 with
        | none => rfl
        | some r =>
          obtain ⟨bE, m2⟩ := r
          cases bE with
          | false => rfl
          | true => simp [he] at hnone
  · intro b m1 hret
    unfold handleNewBlock at hret
    cases hh : handleHeader env fuel m h with
    | none => simp [hh] at hret
    | some r =>
      obtain ⟨b0, m0⟩ := r
      have hlast := handleHeader_lastEpoch env fuel m m0 h b0 last hl hh
      rw [hh] at hret
      cases b0 with
      | false =>
        simp only [Option.some.injEq, Prod.mk.injEq] at hret
        rw [← hret.2]
        exact hlast
      | true =>
        simp only [Option.some.injEq, Prod.mk.injEq] at hret
        rw [← hret.2, fetchLockEvents_lastEpoch]
        exact hlast

/-- The instance of C11 at height 10 above a last epoch at height 5 with validators
`[3]`, `[2]`, for headers with validators `[2]`, `[1]`, `[3]`. -/
theorem C11_commit_only_new_valset_witness :
    (handleHeader (epochChainEnv true) 5 (epochManager 10) 10
        = commitHeader (epochChainEnv true) 5
          { epochManager 10 with curHeader := some (pltEpoch.mk 10 [[2], [1], [3]] [0]) } ∧
      10 > (pltEpoch.mk 5 [[3], [2]] [7]).height ∧
      ∃ cur, (fetchBlockHeader (epochChainEnv true) (epochManager 10) 10).2.curHeader = some cur ∧
        sortAddrList (epochChainEnv true) cur.valset
          ≠ sortAddrList (epochChainEnv true) (pltEpoch.mk 5 [[3], [2]] [7]).valset ∧
        (Function.Injective (epochChainEnv true).addrHex →
          ¬ cur.valset.Perm (pltEpoch.mk 5 [[3], [2]] [7]).valset)) ∧
    ∃ e, (PaletteManager.mk (BoltDB.mk [] [] 0) 10 10 0
        (some (pltEpoch.mk 10 [[2], [1], [3]] [0]))
        (some (pltEpoch.mk 10 [[2], [1], [3]] [0]))).lastEpoch = some e ∧
      ((e.height = (pltEpoch.mk 5 [[3], [2]] [7]).height ∧
          e.raw = (pltEpoch.mk 5 [[3], [2]] [7]).raw ∧
          e.valset.Perm (pltEpoch.mk 5 [[3], [2]] [7]).valset) ∨
        (10 > (pltEpoch.mk 5 [[3], [2]] [7]).height ∧
          sortAddrList (epochChainEnv true) e.valset
            ≠ sortAddrList (epochChainEnv true) (pltEpoch.mk 5 [[3], [2]] [7]).valset ∧
          (Function.Injective (epochChainEnv true).addrHex →
            ¬ e.valset.Perm (pltEpoch.mk 5 [[3], [2]] [7]).valset))) :=
  ⟨(C11_commit_only_new_valset (epochChainEnv true) 5 (epochManager 10) 10
      (pltEpoch.mk 5 [[3], [2]] [7]) rfl).1
      { epochManager 10 with curHeader := some (pltEpoch.mk 10 [[2], [1], [3]] [0]) }
      (by decide),
    (C11_commit_only_new_valset (epochChainEnv true) 5 (epochManager 10) 10
      (pltEpoch.mk 5 [[3], [2]] [7]) rfl).2.2 true
      (PaletteManager.mk (BoltDB.mk [] [] 0) 10 10 0
        (some (pltEpoch.mk 10 [[2], [1], [3]] [0]))
        (some (pltEpoch.mk 10 [[2], [1], [3]] [0])))
      (by decide)⟩

/-! ## Round trip of the `CrossTransfer` codec -/

theorem writeUintLE_length (n x : Nat) : (writeUintLE n x).length = n := by
  induction n generalizing x with
  | zero => rfl
  | succ n ih => simp [writeUintLE, ih]

theorem readUintLE_writeUintLE (n x : Nat) : readUintLE (writeUintLE n x) = x % 256 ^ n := by
  induction n generalizing x with
  | zero => simp [writeUintLE, readUintLE, Nat.mod_one]
  | succ n ih =>
    have h := ih (x / 256)
    unfold readUintLE at h ⊢
    simp only [writeUintLE, List.foldr_cons, h, Nat.mod_mod]
    rw [pow_succ, Nat.mul_comm (256 ^ n) 256, Nat.mod_mul]

theorem nextBytes_append (b rest : Bytes) : nextBytes b.length (b ++ rest) = some (b, rest) := by
  simp [nextBytes]

theorem nextUintLE_write (n x : Nat) (rest : Bytes) :
    nextUintLE n (writeUintLE n x ++ rest) = some (x % 256 ^ n, rest) := by
  have h := nextBytes_append (writeUintLE n x) rest
  rw [writeUintLE_length] at h
  simp only [nextUintLE, h, readUintLE_writeUintLE]

theorem nextVarUint_write (x : Nat) (rest : Bytes) (hx : x < uint64Mod) :
    nextVarUint (writeVarUint x ++ rest) = some (x, rest) := by
  unfold uint64Mod at hx
  unfold writeVarUint
  by_cases h1 : x < 0xFD
  · have a1 : x ≠ 0xFD := by omega
    have a2 : x ≠ 0xFE := by omega
    have a3 : x ≠ 0xFF := by omega
    simp only [h1, if_true, List.singleton_append, nextVarUint, a1, a2, a3, if_false]
  · rw [if_neg h1]
    by_cases h2 : x ≤ 0xFFFF
    · rw [if_pos h2]
      simp only [List.cons_append, nextVarUint, if_true, nextUintLE_write]
      rw [Nat.mod_eq_of_lt (by norm_num; omega)]
    · rw [if_neg h2]
      by_cases h3 : x ≤ 0xFFFFFFFF
      · rw [if_pos h3]
        have b1 : (0xFE : Nat) ≠ 0xFD := by decide
        simp only [List.cons_append, nextVarUint, b1, if_false, if_true, nextUintLE_write]
        rw [Nat.mod_eq_of_lt (by norm_num; omega)]
      · rw [if_neg h3]
        have b1 : (0xFF : Nat) ≠ 0xFD := by decide
        have b2 : (0xFF : Nat) ≠ 0xFE := by decide
        simp only [List.cons_append, nextVarUint, b1, b2, if_false, if_true, nextUintLE_write]
        rw [Nat.mod_eq_of_lt (by norm_num; omega)]

theorem nextVarBytes_write (b rest : Bytes) (hb : b.length < uint64Mod) :
    nextVarBytes (writeVarBytes b ++ rest) = some (b, rest) := by
  unfold nextVarBytes writeVarBytes
  rw [List.append_assoc, nextVarUint_write _ _ hb]
  simp only
  by_cases h0 : b.length > 0
  · rw [if_pos h0, nextBytes_append]
  · rw [if_neg h0]
    have : b = [] := List.length_eq_zero.mp (by omega)
    simp [this]

theorem bytesString_stringBytes (s : String) : bytesString (stringBytes s) = s := by
  unfold bytesString stringBytes
  rw [List.map_map]
  have h : (Char.ofNat ∘ Char.toNat) = id := by
    funext c
    exact Char.ofNat_toNat c
  rw [h, List.map_id]
  rfl

/-- The modelled codec reads back every record whose fields fit their Go types. -/
theorem CrossTransfer_roundtrip (tx : CrossTransfer)
    (hindex : tx.txIndex.length < uint64Mod) (htx : tx.txId.length < uint64Mod)
    (hchain : tx.toChain < uint32Mod) (hval : tx.value.length < uint64Mod)
    (hheight : tx.height < uint64Mod) :
    CrossTransfer.Deserialization tx.Serialization = .ok tx := by
  have hlen : (stringBytes tx.txIndex).length < uint64Mod := by
    simpa [stringBytes] using hindex
  have h4 : tx.toChain % 256 ^ 4 = tx.toChain := Nat.mod_eq_of_lt (by
    unfold uint32Mod at hchain
    norm_num
    omega)
  have h8 : tx.height % 256 ^ 8 = tx.height := Nat.mod_eq_of_lt (by
    unfold uint64Mod at hheight
    norm_num
    omega)
  have hlast : nextUintLE 8 (writeUintLE 8 tx.height) = some (tx.height % 256 ^ 8, []) := by
    have := nextUintLE_write 8 tx.height []
    rwa [List.append_nil] at this
  unfold CrossTransfer.Deserialization CrossTransfer.Serialization
  simp only [nextVarBytes_write _ _ hlen, nextVarBytes_write _ _ htx, nextUintLE_write,
    nextVarBytes_write _ _ hval, hlast, h4, h8, bytesString_stringBytes]

/-- C15: with the modelled `CrossTransfer` codec, for every event and every height (a
`uint64`), `deserializeCrossTransfer` applied to the bytes `serializeCrossTransfer`
produced succeeds and returns the record `serializeCrossTransfer` returned, so all five
fields agree. -/
theorem C15_serialize_deserialize (env : ChainEnv) (denv : DepositEnv) (evt : CrossChainEvent)
    (height : Nat)
    (hser : env.serialization = CrossTransfer.Serialization)
    (hdes : denv.deserialization = CrossTransfer.Deserialization)
    (hindex : (env.encodeBigInt (bigFromBytes evt.txId)).length < uint64Mod)
    (htx : evt.rawTxHash.length < uint64Mod) (hval : evt.rawdata.length < uint64Mod)
    (hheight : height < uint64Mod) :
    deserializeCrossTransfer denv (serializeCrossTransfer env evt height).2
        = .ok (serializeCrossTransfer env evt height).1 ∧
      (∀ tx, deserializeCrossTransfer denv (serializeCrossTransfer env evt height).2 = .ok tx →
        tx.txIndex = (serializeCrossTransfer env evt height).1.txIndex ∧
        tx.txId = (serializeCrossTransfer env evt height).1.txId ∧
        tx.toChain = (serializeCrossTransfer env evt height).1.toChain ∧
        tx.value = (serializeCrossTransfer env evt height).1.value ∧
        tx.height = (serializeCrossTransfer env evt height).1.height) := by
  have hround : deserializeCrossTransfer denv (serializeCrossTransfer env evt height).2
      = .ok (serializeCrossTransfer env evt height).1 := by
    have hmod : toUint32 evt.toChainId < uint32Mod := Nat.mod_lt _ (by unfold uint32Mod; norm_num)
    have h := CrossTransfer_roundtrip
      (CrossTransfer.mk (env.encodeBigInt (bigFromBytes evt.txId)) evt.rawTxHash
        (toUint32 evt.toChainId) evt.rawdata height) hindex htx hmod hval hheight
    simp only [deserializeCrossTransfer, serializeCrossTransfer, hser, hdes, h]
  refine ⟨hround, ?_⟩
  intro tx htxeq
  rw [hround] at htxeq
  have : (serializeCrossTransfer env evt height).1 = tx := by
    injection htxeq
  rw [← this]
  exact ⟨rfl, rfl, rfl, rfl, rfl⟩

/-- The instance of C15 for the test event at height 10. -/
theorem C15_serialize_deserialize_witness :
    deserializeCrossTransfer codecDepositEnv (serializeCrossTransfer codecChainEnv sampleEvent 10).2
        = .ok (CrossTransfer.mk "03" [9] 8 [5] 10) :=
  (C15_serialize_deserialize codecChainEnv codecDepositEnv sampleEvent 10 rfl rfl
    (by decide) (by decide) (by decide) (by decide)).1

/-! ## Storage slot: `getMappingKey` -/

theorem goCopy_full (dst src : Bytes) (h : dst.length = src.length) : goCopy dst src = src := by
  unfold goCopy
  rw [h, List.take_length, ← h, List.drop_length, List.append_nil]

theorem leftPadBytes_eq (b : Bytes) (l : Nat) (h : b.length ≤ l) :
    leftPadBytes b l = List.replicate (l - b.length) 0 ++ b := by
  unfold leftPadBytes
  by_cases hl : l ≤ b.length
  · have : l - b.length = 0 := by omega
    simp [hl, this]
  · rw [if_neg hl]
    simp only [List.take_replicate, List.drop_replicate]
    have h1 : (l - b.length) ⊓ l = l - b.length := by
      simp
    have h2 : l - (l - b.length) = b.length := by omega
    rw [h1, h2, goCopy_full _ _ (by simp)]

theorem leftPadBytes_length (b : Bytes) (l : Nat) (h : b.length ≤ l) :
    (leftPadBytes b l).length = l := by
  rw [leftPadBytes_eq b l h]
  simp
  omega

theorem hexDecodeChars_length (cs : List Char) (bs : Bytes) (h : hexDecodeChars cs = .ok bs) :
    bs.length * 2 = cs.length := by
  induction cs using hexDecodeChars.induct generalizing bs with
  | case1 =>
    simp only [hexDecodeChars] at h
    injection h with h
    subst h
    rfl
  | case2 c => simp [hexDecodeChars] at h
  | case3 a b rest x y hx hy bs1 hrest ih =>
    simp only [hexDecodeChars, hx, hy, hrest] at h
    injection h with h
    subst h
    simp only [List.length_cons]
    have := ih bs1 hrest
    omega
  | case4 a b rest x y hx hy e hrest _ =>
    simp [hexDecodeChars, hx, hy, hrest] at h
  | case5 a b rest hno =>
    unfold hexDecodeChars at h
    split at h
    · rename_i x y hx hy
      exact (hno x y hx hy).elim
    · simp at h

/-- Go `hex.Decode` succeeds exactly on an even number of hexadecimal digits. -/
theorem hexDecodeChars_ok_iff (cs : List Char) :
    (∃ bs, hexDecodeChars cs = .ok bs) ↔
      cs.length % 2 = 0 ∧ ∀ c ∈ cs, (fromHexChar c).isSome = true := by
  induction cs using hexDecodeChars.induct with
  | case1 => simp [hexDecodeChars]
  | case2 c => simp [hexDecodeChars]
  | case3 a b rest x y hx hy bs1 hrest ih =>
    have hvalid := ih.mp ⟨bs1, hrest⟩
    constructor
    · intro _
      refine ⟨?_, ?_⟩
      · simp only [List.length_cons]
        omega
      · intro c hc
        simp only [List.mem_cons] at hc
        rcases hc with hc | hc | hc
        · simp [hc, hx, hy]
        · simp [hc, hx, hy]
        · exact hvalid.2 c hc
    · intro _
      exact ⟨(x * 16 + y) :: bs1, by simp only [hexDecodeChars, hx, hy, hrest]⟩
  | case4 a b rest x y hx hy e hrest ih =>
    have hinvalid : ¬ (rest.length % 2 = 0 ∧ ∀ c ∈ rest, (fromHexChar c).isSome = true) := by
      intro hv
      obtain ⟨bs, hbs⟩ := ih.mpr hv
      rw [hrest] at hbs
      exact absurd hbs (by simp)
    constructor
    · rintro ⟨bs, hbs⟩
      simp [hexDecodeChars, hx, hy, hrest] at hbs
    · rintro ⟨hlen, hall⟩
      exfalso
      apply hinvalid
      refine ⟨?_, fun c hc => hall c (by simp [hc])⟩
      simp only [List.length_cons] at hlen
      omega
  | case5 a b rest hno =>
    constructor
    · rintro ⟨bs, hbs⟩
      unfold hexDecodeChars at hbs
      split at hbs
      · rename_i x y hx hy
        exact (hno x y hx hy).elim
      · simp at hbs
    · rintro ⟨_, hall⟩
      exfalso
      have ha := hall a (by simp)
      have hb := hall b (by simp)
      rw [Option.isSome_iff_exists] at ha hb
      obtain ⟨x, hx⟩ := ha
      obtain ⟨y, hy⟩ := hb
      exact hno x y hx hy

theorem except_error_or_ok {α : Type} (r : Except String α) :
    (∃ err, r = .error err) ↔ ¬ ∃ a, r = .ok a := by
  cases r with
  | error e => simp
  | ok a => simp

/-- C16: (1) for every `txIndex` that is a valid hexadecimal string of at most 64
characters, `getMappingKey(txIndex)` succeeds and is Keccak256 of the 64-byte preimage
formed by the decoded bytes (half as many as characters, so at most 32) left-padded with
zeros to 32 bytes, followed by 31 zero bytes and the byte 1.  (2) `getMappingKey` returns
an error exactly when `txIndex` is not a valid hexadecimal string (an odd number of
characters, or a character that is no hexadecimal digit). -/
theorem C16_getMappingKey (keccak256 : Bytes → Bytes) (txIndex : String) :
    (isHexString txIndex → txIndex.toList.length ≤ 64 →
      ∃ p1, hexDecodeString txIndex = .ok p1 ∧ p1.length * 2 = txIndex.toList.length ∧
        getMappingKey keccak256 txIndex
          = .ok (keccak256 ((List.replicate (32 - p1.length) 0 ++ p1)
              ++ (List.replicate 31 0 ++ [1]))) ∧
        ((List.replicate (32 - p1.length) 0 ++ p1)
          ++ (List.replicate 31 0 ++ [1])).length = 64) ∧
    ((∃ err, getMappingKey keccak256 txIndex = .error err) ↔ ¬ isHexString txIndex) := by
  have h01 : hexDecodeString "01" = .ok [1] := by rfl
  have hpad1 : leftPadBytes [1] 32 = List.replicate 31 0 ++ [1] := by rfl
  have hkey : ∀ p1, hexDecodeString txIndex = .ok p1 →
      getMappingKey keccak256 txIndex
        = .ok (keccak256 (leftPadBytes p1 32 ++ (List.replicate 31 0 ++ [1]))) := by
    intro p1 hp1
    simp only [getMappingKey, mappingKeyAt, hp1, h01, hpad1]
  constructor
  · intro hvalid hlen
    obtain ⟨p1, hp1⟩ := (hexDecodeChars_ok_iff txIndex.toList).mpr hvalid
    have hl := hexDecodeChars_length _ _ hp1
    have hp32 : p1.length ≤ 32 := by omega
    refine ⟨p1, hp1, hl, ?_, ?_⟩
    · rw [hkey p1 hp1, leftPadBytes_eq p1 32 hp32]
    · simp only [List.length_append, List.length_replicate, List.length_singleton]
      omega
  · rw [except_error_or_ok]
    apply not_congr
    constructor
    · rintro ⟨key, hk⟩
      apply (hexDecodeChars_ok_iff txIndex.toList).mp
      cases hd : hexDecodeChars txIndex.toList with
      | error e =>
        have hd2 : hexDecodeString txIndex = .error e := hd
        simp [getMappingKey, mappingKeyAt, hd2] at hk
      | ok p1 => exact ⟨p1, rfl⟩
    · intro hvalid
      obtain ⟨p1, hp1⟩ := (hexDecodeChars_ok_iff txIndex.toList).mpr hvalid
      exact ⟨_, hkey p1 hp1⟩

/-- The instance of C16 for the index `03`, and for `0g`, which is no hexadecimal string. -/
theorem C16_getMappingKey_witness :
    getMappingKey sampleKeccak "03"
        = .ok (sampleKeccak ((List.replicate 31 0 ++ [3]) ++ (List.replicate 31 0 ++ [1]))) ∧
      ∃ err, getMappingKey sampleKeccak "0g" = .error err :=
  ⟨by
      obtain ⟨p1, hp1, _, hkey, _⟩ := (C16_getMappingKey sampleKeccak "03").1
        ⟨by decide, by decide⟩ (by decide)
      have h3 : p1 = [3] := by
        have h03 : hexDecodeString "03" = .ok [3] := by rfl
        rw [h03] at hp1
        injection hp1 with hp1
        exact hp1.symm
      rw [hkey, h3]
      rfl,
    (C16_getMappingKey sampleKeccak "0g").2.mpr (by
      rintro ⟨_, hall⟩
      have := hall (Char.ofNat 103) (by decide)
      revert this
      decide)⟩

/-! ## Multi-signature blobs -/

theorem goSlice_chunk (d : Bytes) (i : Nat) :
    goSlice d (i * 65) ((i + 1) * 65) = (d.drop (i * 65)).take 65 := by
  unfold goSlice
  have : (i + 1) * 65 - i * 65 = 65 := by omega
  rw [this]

theorem chunk_length (d : Bytes) (i : Nat) (h : (i + 1) * 65 ≤ d.length) :
    ((d.drop (i * 65)).take 65).length = 65 := by
  simp only [List.length_take, List.length_drop]
  omega

theorem chunks_flatten (d : Bytes) (n : Nat) :
    ((List.range n).map (fun i => (d.drop (i * 65)).take 65)).flatten = d.take (n * 65) := by
  induction n with
  | zero => simp
  | succ n ih =>
    rw [List.range_succ, List.map_append, List.flatten_append, ih]
    have h : (n + 1) * 65 = n * 65 + 65 := by omega
    rw [h, List.take_add]
    simp

/-- The signatures `dissembleHeaderSigs` returns are all empty: `copy` into a slice of
length zero copies nothing. -/
theorem dissembleHeaderSigs_empty (raw : Bytes) (h : raw.length % 65 = 0) :
    dissembleHeaderSigs raw = .ok (List.replicate (raw.length / 65) []) := by
  unfold dissembleHeaderSigs
  simp only [h, ne_eq, not_true_eq_false, if_false]
  congr 1
  have hc : ∀ x : Bytes, goCopy [] x = [] := by
    intro x
    simp [goCopy]
  simp only [hc]
  induction raw.length / 65 with
  | zero => rfl
  | succ n ih => rw [List.range_succ, List.map_append, ih, List.replicate_succ']; rfl

/-- C17 (the code departs from the claim): for a blob of 65 bytes `0, 1, ..., 64`,
`dissembleHeaderSigs` returns one signature, and that signature is empty instead of the
65-byte copy of the blob; `RawMultiSigsToList` returns the copy for the same blob. -/
theorem C17_dissemble_returns_empty_sigs :
    dissembleHeaderSigs (List.range 65) = .ok [[]] ∧
      dissembleHeaderSigs (List.range 65) ≠ .ok [goSlice (List.range 65) 0 65] ∧
      RawMultiSigsToList (List.range 65) = .ok [goSlice (List.range 65) 0 65] := by
  refine ⟨by rfl, ?_, by rfl⟩
  intro h
  have h1 : dissembleHeaderSigs (List.range 65) = .ok [[]] := by rfl
  rw [h1] at h
  injection h with h
  revert h
  decide

/-- The result of `RawMultiSigsToList` on a non-empty blob whose length is a multiple of
65: its consecutive chunks of 65 bytes. -/
theorem RawMultiSigsToList_ok (d : Bytes) (h65 : d.length % 65 = 0) (h0 : d.length ≠ 0) :
    RawMultiSigsToList d
      = .ok ((List.range (d.length / 65)).map (fun i => (d.drop (i * 65)).take 65)) := by
  have hn : d.length / 65 ≠ 0 := by omega
  unfold RawMultiSigsToList
  simp only [h65, ne_eq, not_true_eq_false, if_false, hn]
  congr 1
  apply List.map_congr_left
  intro i hi
  rw [List.mem_range] at hi
  have hle : (i + 1) * 65 ≤ d.length := by omega
  simp only [goSlice_chunk]
  exact goCopy_full _ _ (by rw [chunk_length d i hle]; simp)

theorem RawMultiSigsToList_error_iff (d : Bytes) :
    (∃ err, RawMultiSigsToList d = .error err) ↔ (d.length = 0 ∨ d.length % 65 ≠ 0) := by
  by_cases h65 : d.length % 65 = 0
  · by_cases h0 : d.length = 0
    · simp [RawMultiSigsToList, h0]
    · rw [RawMultiSigsToList_ok d h65 h0]
      simp [h65, h0]
  · simp [RawMultiSigsToList, h65]

/-- What a successful `RawMultiSigsToList` returns: `len/65` signatures (at least one),
each of 65 bytes, whose concatenation is the blob. -/
theorem RawMultiSigsToList_sigs (d : Bytes) (sigs : List Bytes)
    (h : RawMultiSigsToList d = .ok sigs) :
    d.length % 65 = 0 ∧ sigs.length = d.length / 65 ∧ sigs ≠ [] ∧ (∀ s ∈ sigs, s.length = 65) ∧
      sigs.flatten = d := by
  have hne : ¬ (d.length = 0 ∨ d.length % 65 ≠ 0) := by
    intro hbad
    obtain ⟨err, herr⟩ := (RawMultiSigsToList_error_iff d).mpr hbad
    rw [herr] at h
    exact absurd h (by simp)
  have h65 : d.length % 65 = 0 := by omega
  have h0 : d.length ≠ 0 := by omega
  rw [RawMultiSigsToList_ok d h65 h0] at h
  injection h with h
  subst h
  have hlen : ((List.range (d.length / 65)).map (fun i => (d.drop (i * 65)).take 65)).length
      = d.length / 65 := by simp
  refine ⟨h65, hlen, ?_, ?_, ?_⟩
  · intro hnil
    rw [hnil] at hlen
    simp only [List.length_nil] at hlen
    omega
  · intro s hs
    simp only [List.mem_map, List.mem_range] at hs
    obtain ⟨i, hi, rfl⟩ := hs
    exact chunk_length d i (by omega)
  · rw [chunks_flatten]
    apply List.take_of_length_le
    omega

/-- C18: `RawMultiSigsToList(d)` fails exactly when the length of `d` is 0 or not a
multiple of 65; otherwise it returns `len(d)/65` signatures, each of exactly 65 bytes,
whose concatenation in order is `d`. -/
theorem C18_RawMultiSigsToList (d : Bytes) :
    ((∃ err, RawMultiSigsToList d = .error err) ↔ (d.length = 0 ∨ d.length % 65 ≠ 0)) ∧
    (¬ (d.length = 0 ∨ d.length % 65 ≠ 0) →
      ∃ sigs, RawMultiSigsToList d = .ok sigs ∧ sigs.length = d.length / 65 ∧
        (∀ s ∈ sigs, s.length = 65) ∧ sigs.flatten = d) := by
  refine ⟨RawMultiSigsToList_error_iff d, ?_⟩
  intro hgood
  have h65 : d.length % 65 = 0 := by omega
  have h0 : d.length ≠ 0 := by omega
  have hok := RawMultiSigsToList_ok d h65 h0
  obtain ⟨_, hlen, _, hall, hflat⟩ := RawMultiSigsToList_sigs d _ hok
  exact ⟨_, hok, hlen, hall, hflat⟩

/-- The instance of C18 for a blob of 130 bytes. -/
theorem C18_RawMultiSigsToList_witness :
    ∃ sigs, RawMultiSigsToList (List.range 130) = .ok sigs ∧
      sigs.length = (List.range 130).length / 65 ∧
      (∀ s ∈ sigs, s.length = 65) ∧ sigs.flatten = List.range 130 :=
  (C18_RawMultiSigsToList (List.range 130)).2 (by simp)

/-! ## `VerifySig` -/

theorem signerIn_iff (signers : List Address) (addr : Address) :
    signerIn signers addr = true ↔ addr ∈ signers := by
  unfold signerIn
  rw [List.any_eq_true]
  constructor
  · rintro ⟨x, hx, heq⟩
    have : x = addr := by simpa using heq
    exact this ▸ hx
  · intro h
    exact ⟨addr, h, by simp⟩

theorem keeperCount_fold (signers keepers : List Address) (c : Nat) :
    keepers.foldl (fun count keeper => if signerIn signers keeper then count + 1 else count) c
      = c + (keepers.filter (fun k => signerIn signers k)).length := by
  induction keepers generalizing c with
  | nil => simp
  | cons k ks ih =>
    simp only [List.foldl_cons, List.filter_cons]
    by_cases hk : signerIn signers k = true
    · simp only [hk, if_true, ih, List.length_cons]
      omega
    · simp only [hk, if_false, ih]
      simp

/-- The count of `containsMAddress`: the number of entries of the keeper list that occur
among the signers. -/
theorem keeperCount_eq (signers keepers : List Address) :
    keeperCount signers keepers = (keepers.filter (fun k => decide (k ∈ signers))).length := by
  unfold keeperCount
  rw [keeperCount_fold, Nat.zero_add]
  congr 1
  apply List.filter_congr
  intro k _
  by_cases hk : k ∈ signers
  · simp [hk, (signerIn_iff signers k).mpr hk]
  · have : signerIn signers k = false := by
      cases h : signerIn signers k with
      | false => rfl
      | true => exact absurd ((signerIn_iff signers k).mp h) hk
    simp [hk, this]

theorem keeperCount_congr (signers1 signers2 keepers : List Address)
    (h : ∀ a, a ∈ signers1 ↔ a ∈ signers2) :
    keeperCount signers1 keepers = keeperCount signers2 keepers := by
  rw [keeperCount_eq, keeperCount_eq]
  congr 1
  apply List.filter_congr
  intro k _
  simp [h k]

/-- The function `RecoverSignersFromMultiSigs` succeeds exactly when every signature
recovers, and then returns the addresses of the recovered keys, in order. -/
theorem RecoverSigners_ok_iff (ecrecover : Bytes → Bytes → Except String Bytes) (hash : Bytes)
    (sigs : List Bytes) (signers : List Address) :
    RecoverSignersFromMultiSigs ecrecover hash sigs = .ok signers ↔
      List.Forall₂ (fun sig signer =>
        ∃ enc, ecrecover hash sig = .ok enc ∧ signer = BytesToAddress enc) sigs signers := by
  induction sigs generalizing signers with
  | nil =>
    simp only [RecoverSignersFromMultiSigs, List.forall₂_nil_left_iff]
    constructor
    · intro h
      injection h with h
      exact h.symm
    · intro h
      rw [h]
  | cons sig sigs ih =>
    simp only [RecoverSignersFromMultiSigs]
    cases henc : ecrecover hash sig with
    | error e =>
      simp only [List.forall₂_cons_left_iff]
      constructor
      · intro h
        exact absurd h (by simp)
      · rintro ⟨signer, rest, ⟨enc, hrec, _⟩, _, _⟩
        rw [henc] at hrec
        exact absurd hrec (by simp)
    | ok enc =>
      cases hrest : RecoverSignersFromMultiSigs ecrecover hash sigs with
      | error e =>
        simp only [List.forall₂_cons_left_iff]
        constructor
        · intro h
          exact absurd h (by simp)
        · rintro ⟨signer, rest, _, hf, _⟩
          have := (ih rest).mpr hf
          rw [hrest] at this
          exact absurd this (by simp)
      | ok rest =>
        simp only [List.forall₂_cons_left_iff]
        constructor
        · intro h
          injection h with h
          exact ⟨BytesToAddress enc, rest, ⟨enc, henc, rfl⟩, (ih rest).mp hrest, h.symm⟩
        · rintro ⟨signer, rest2, ⟨enc2, hrec, hsigner⟩, hf, hs⟩
          have hr2 := (ih rest2).mpr hf
          rw [hrest] at hr2
          injection hr2 with hr2
          rw [henc] at hrec
          injection hrec with hrec
          rw [hs, hsigner, ← hrec, hr2]

/-- C19: (1) `VerifySig` returns nil exactly when `RawMultiSigsToList` splits the blob
into signatures, every signature recovers (the signers being the addresses of the
recovered keys), and the number of entries of `keepers` that occur among the signers is
at least `m`.  (2) The signatures of a blob that splits are at least one, each of 65
bytes, and concatenate to the blob.  (3) The verdict of `containsMAddress` depends only
on which addresses occur among the signers, not on how often: a signer that appears
several times is counted once. -/
theorem C19_VerifySig (ecrecover : Bytes → Bytes → Except String Bytes) (hash blob : Bytes)
    (keepers : List Address) (m : Int) :
    (VerifySig ecrecover hash blob keepers m = .ok () ↔
      ∃ sigs signers, RawMultiSigsToList blob = .ok sigs ∧
        List.Forall₂ (fun sig signer =>
          ∃ enc, ecrecover hash sig = .ok enc ∧ signer = BytesToAddress enc) sigs signers ∧
        m ≤ ((keepers.filter (fun k => decide (k ∈ signers))).length : Int)) ∧
    (∀ sigs, RawMultiSigsToList blob = .ok sigs →
      sigs ≠ [] ∧ (∀ s ∈ sigs, s.length = 65) ∧ sigs.flatten = blob) ∧
    (∀ signers1 signers2, (∀ a, a ∈ signers1 ↔ a ∈ signers2) →
      containsMAddress signers1 keepers m = containsMAddress signers2 keepers m) := by
  refine ⟨?_, ?_, ?_⟩
  · unfold VerifySig
    cases hsplit : RawMultiSigsToList blob with
    | error e =>
      constructor
      · intro h
        exact absurd h (by simp)
      · rintro ⟨sigs, signers, hs, _⟩
        exact absurd hs (by simp)
    | ok sigs =>
      simp only
      cases hrec : RecoverSignersFromMultiSigs ecrecover hash sigs with
      | error e =>
        constructor
        · intro h
          exact absurd h (by simp)
        · rintro ⟨sigs2, signers, hs, hf, _⟩
          injection hs with hs
          rw [← hs] at hf
          have := (RecoverSigners_ok_iff ecrecover hash sigs signers).mpr hf
          rw [hrec] at this
          exact absurd this (by simp)
      | ok signers =>
        simp only
        constructor
        · intro h
          refine ⟨sigs, signers, rfl, (RecoverSigners_ok_iff ecrecover hash sigs signers).mp hrec, ?_⟩
          by_cases hc : containsMAddress signers keepers m = true
          · unfold containsMAddress at hc
            rw [keeperCount_eq] at hc
            simpa using hc
          · rw [if_neg hc] at h
            exact absurd h (by simp)
        · rintro ⟨sigs2, signers2, hs, hf, hm⟩
          injection hs with hs
          rw [← hs] at hf
          have hr2 := (RecoverSigners_ok_iff ecrecover hash sigs signers2).mpr hf
          rw [hrec] at hr2
          injection hr2 with hr2
          have hc : containsMAddress signers keepers m = true := by
            unfold containsMAddress
            rw [keeperCount_eq, hr2]
            simpa using hm
          rw [if_pos hc]
  · intro sigs hs
    obtain ⟨_, _, hne, hall, hflat⟩ := RawMultiSigsToList_sigs blob sigs hs
    exact ⟨hne, hall, hflat⟩
  · intro signers1 signers2 hsame
    unfold containsMAddress
    rw [keeperCount_congr signers1 signers2 keepers hsame]

/-- The instance of C19 for a signer that signed twice: it counts like one signature. -/
theorem C19_VerifySig_witness :
    containsMAddress [[7], [7]] [[7], [8]] 2 = containsMAddress [[7]] [[7], [8]] 2 :=
  (C19_VerifySig sampleEcrecover [] [] [[7], [8]] 2).2.2 [[7], [7]] [[7]] (by simp)

/-! ## `VerifyPolyHeader` -/

/-- C20 fails as stated: with `N = 3` consensus peers, a header with `⌊2·3/3⌋ = 2`
bookkeepers, both in the peer map and with a valid multi-signature, passes
`VerifyPolyHeader`. -/
theorem C20_counterexample :
    ([("1" : String), "2", "3"]).length ≥ 1 ∧
      (PolyHeader.mk [[1], [2]] [[], []] []).bookkeepers.length
        = 2 * ([("1" : String), "2", "3"]).length / 3 ∧
      VerifyPolyHeader samplePolyVerifyEnv (PolyHeader.mk [[1], [2]] [[], []] [])
        ["1", "2", "3"] = .ok () := by
  refine ⟨by decide, by decide, by rfl⟩

/-- C20 (amended): for every number `N` of consensus peers that is not a multiple of 3
(hence `N ≥ 1`), `VerifyPolyHeader` returns an error for every header that carries only
`⌊2N/3⌋` bookkeepers. -/
theorem C20_floor_quorum_fails (env : PolyVerifyEnv) (hdr : PolyHeader) (peerMap : List String)
    (h3 : peerMap.length % 3 ≠ 0)
    (hb : hdr.bookkeepers.length = 2 * peerMap.length / 3) :
    ∃ err, VerifyPolyHeader env hdr peerMap = .error err := by
  have hlt : hdr.bookkeepers.length * 3 < peerMap.length * 2 := by
    rw [hb]
    omega
  unfold VerifyPolyHeader
  rw [if_pos hlt]
  exact ⟨_, rfl⟩

/-- The instance of amended C20 for two peers and one bookkeeper. -/
theorem C20_floor_quorum_fails_witness :
    ∃ err, VerifyPolyHeader samplePolyVerifyEnv (PolyHeader.mk [[1]] [[]] []) ["1", "2"]
      = .error err :=
  C20_floor_quorum_fails samplePolyVerifyEnv (PolyHeader.mk [[1]] [[]] []) ["1", "2"]
    (by decide) (by decide)

/-- The loop of `VerifyPolyHeader` over the bookkeepers succeeds exactly when the
public-key id of every bookkeeper is a key of the peer map. -/
theorem checkBookkeepers_ok_iff (env : PolyVerifyEnv) (peerMap : List String) (i : Nat)
    (l : List Bytes) :
    checkBookkeepers env peerMap i l = .ok () ↔ ∀ bk ∈ l, env.pubkeyID bk ∈ peerMap := by
  induction l generalizing i with
  | nil => simp [checkBookkeepers]
  | cons bk rest ih =>
    simp only [checkBookkeepers, List.mem_cons, forall_eq_or_imp]
    by_cases hin : env.pubkeyID bk ∈ peerMap
    · simp only [hin, if_true, true_and]
      exact ih (i + 1)
    · simp only [hin, if_false, false_and, iff_false]
      intro h
      exact absurd h (by simp)

/-- C21: `VerifyPolyHeader` returns nil exactly when three times the number of
bookkeepers is at least twice the number of peers, the public-key id of every
bookkeeper is a key of the peer map, and the multi-signature verification of the header
hash with threshold `len(Bookkeepers)` succeeds.  The first condition says that there
are at least `⌈2N/3⌉` bookkeepers for `N` peers; so a header with `⌈2N/3⌉` in-set
bookkeepers and a verifying multi-signature passes. -/
theorem C21_VerifyPolyHeader_nil_iff (env : PolyVerifyEnv) (hdr : PolyHeader)
    (peerMap : List String) :
    (VerifyPolyHeader env hdr peerMap = .ok () ↔
      hdr.bookkeepers.length * 3 ≥ peerMap.length * 2 ∧
      (∀ bk ∈ hdr.bookkeepers, env.pubkeyID bk ∈ peerMap) ∧
      env.verifyMultiSignature hdr.hash hdr.bookkeepers hdr.bookkeepers.length hdr.sigData
        = .ok ()) ∧
    (hdr.bookkeepers.length * 3 ≥ peerMap.length * 2 ↔
      hdr.bookkeepers.length ≥ (2 * peerMap.length + 2) / 3) ∧
    (hdr.bookkeepers.length = (2 * peerMap.length + 2) / 3 →
      (∀ bk ∈ hdr.bookkeepers, env.pubkeyID bk ∈ peerMap) →
      env.verifyMultiSignature hdr.hash hdr.bookkeepers hdr.bookkeepers.length hdr.sigData
        = .ok () →
      VerifyPolyHeader env hdr peerMap = .ok ()) := by
  have hiff : VerifyPolyHeader env hdr peerMap = .ok () ↔
      hdr.bookkeepers.length * 3 ≥ peerMap.length * 2 ∧
      (∀ bk ∈ hdr.bookkeepers, env.pubkeyID bk ∈ peerMap) ∧
      env.verifyMultiSignature hdr.hash hdr.bookkeepers hdr.bookkeepers.length hdr.sigData
        = .ok () := by
    unfold VerifyPolyHeader
    by_cases hq : hdr.bookkeepers.length * 3 < peerMap.length * 2
    · rw [if_pos hq]
      constructor
      · intro h
        exact absurd h (by simp)
      · rintro ⟨hge, _⟩
        omega
    · rw [if_neg hq]
      have hge : hdr.bookkeepers.length * 3 ≥ peerMap.length * 2 := by omega
      have hcbiff := checkBookkeepers_ok_iff env peerMap 0 hdr.bookkeepers
      cases hcb : checkBookkeepers env peerMap 0 hdr.bookkeepers with
      | error e =>
        rw [hcb] at hcbiff
        constructor
        · intro h
          exact absurd h (by simp)
        · rintro ⟨_, h, _⟩
          exact absurd (hcbiff.mpr h) (by simp)
      | ok u =>
        rw [hcb] at hcbiff
        have hall := hcbiff.mp rfl
        simp only
        cases hv : env.verifyMultiSignature hdr.hash hdr.bookkeepers hdr.bookkeepers.length
            hdr.sigData with
        | error e =>
          constructor
          · intro h
            exact absurd h (by simp)
          · rintro ⟨_, _, h⟩
            exact absurd h (by simp)
        | ok u2 =>
          constructor
          · intro _
            exact ⟨hge, hall, rfl⟩
          · intro _
            rfl
  refine ⟨hiff, ?_, ?_⟩
  · constructor <;> intro h <;> omega
  · intro hlen hin hsig
    exact hiff.mpr ⟨by omega, hin, hsig⟩

/-- The instance of C21 for four peers and three in-set bookkeepers with three
signatures. -/
theorem C21_VerifyPolyHeader_nil_iff_witness :
    VerifyPolyHeader samplePolyVerifyEnv (PolyHeader.mk [[1], [2], [3]] [[], [], []] [])
      ["1", "2", "3", "4"] = .ok () :=
  (C21_VerifyPolyHeader_nil_iff samplePolyVerifyEnv
    (PolyHeader.mk [[1], [2], [3]] [[], [], []] []) ["1", "2", "3", "4"]).2.2
    (by decide) (by decide) (by rfl)

/-- C22 (the code departs from the claim): for a header whose Istanbul extra decodes to
an empty validator list, `fetchBlockHeader(10)` on a manager without a cached header
returns true and caches the header with an empty validator set; `handleNewBlock(10)`
then commits it as the new epoch. -/
theorem C22_fetch_accepts_empty_valset :
    (emptyValsetEnv.headerByNumber 10).toOption.map
        (fun hdr => hdr.istanbulValidators.toOption) = some (some []) ∧
      fetchBlockHeader emptyValsetEnv (runningManager 10) 10
        = (true, { runningManager 10 with curHeader := some (pltEpoch.mk 10 [] [0]) }) ∧
      (handleNewBlock emptyValsetEnv 5 (runningManager 10) 10).map
        (fun r => (r.1, r.2.lastEpoch)) = some (true, some (pltEpoch.mk 10 [] [0])) := by
  refine ⟨by rfl, by rfl, by decide⟩

/-- What `fetchBlockHeader` does on a manager without a cached header: it fails exactly
when `HeaderByNumber`, `MarshalJSON` or `ExtractIstanbulExtra` fails, and otherwise
caches the validators as decoded, whatever their number. -/
theorem fetchBlockHeader_fresh_ok (env : ChainEnv) (m : PaletteManager) (height : Nat)
    (hdr : PltHeader) (raw : Bytes) (vals : List Address) (hnone : m.curHeader = none)
    (hh : env.headerByNumber height = .ok hdr) (hr : hdr.marshalJSON = .ok raw)
    (hv : hdr.istanbulValidators = .ok vals) :
    fetchBlockHeader env m height
      = (true, { m with curHeader := some (pltEpoch.mk height vals raw) }) := by
  unfold fetchBlockHeader
  simp [hnone, hh, hr, hv]

/-- The events part of `handleNewBlock` does not look at the result of
`UpdatePaletteHeight`. -/
theorem lockEventLoop_updateHeightOk (env : ChainEnv) (ok : Nat → Bool) (height i : Nat)
    (evts : List CrossChainEvent) (db : BoltDB) :
    lockEventLoop { env with updateHeightOk := ok } height i evts db
      = lockEventLoop env height i evts db := by
  induction evts generalizing i db with
  | nil => rfl
  | cons evt rest ih =>
    simp only [lockEventLoop]
    rw [ih]
    rfl

/-- C23 fails as stated: with `UpdatePaletteHeight` failing, the iteration of
`MonitorChain` at height 10 still advances the working height to 11, and the stored
checkpoint stays what it was. -/
theorem C23_counterexample :
    failingUpdateEnv.updateHeightOk 10 = false ∧
      (handleNewBlock failingUpdateEnv 5 (runningManager 10) 10).map Prod.fst = some true ∧
      (monitorChainIter failingUpdateEnv 5 (runningManager 10)).map
        (fun r => (r.1.currentSyncHeaderHeight, r.1.db.GetPaletteHeight)) = some (11, 0) := by
  refine ⟨by rfl, by decide, by decide⟩

/-- C23 (amended): in an iteration of `MonitorChain` at working height `h` for which
`handleNewBlock(h)` succeeds, the working height is advanced to `h + 1` after
`UpdatePaletteHeight(h)` was called, whether that write succeeded or not; when the write
fails the stored checkpoint is left as `handleNewBlock` left it. -/
theorem C23_height_advances_regardless (env : ChainEnv) (fuel : Nat) (m m1 : PaletteManager)
    (hnew : handleNewBlock env fuel m m.currentSyncHeaderHeight = some (true, m1)) :
    (monitorChainIter env fuel m).map (fun r => (r.1.currentSyncHeaderHeight, r.2))
        = some (incU64 m.currentSyncHeaderHeight, some m.currentSyncHeaderHeight) ∧
      (env.updateHeightOk m.currentSyncHeaderHeight = false →
        (monitorChainIter env fuel m).map (fun r => r.1.db) = some m1.db) ∧
      (∀ ok, (monitorChainIter { env with updateHeightOk := ok } fuel m).map
          (fun r => r.1.currentSyncHeaderHeight)
        = (monitorChainIter env fuel m).map (fun r => r.1.currentSyncHeaderHeight)) := by
  have hh := handleNewBlock_height env fuel m m1 _ hnew
  have hiter : ∀ e : ChainEnv, handleNewBlock e fuel m m.currentSyncHeaderHeight
      = some (true, m1) →
      monitorChainIter e fuel m = some ({ m1 with
        db := (m1.db.UpdatePaletteHeight (e.updateHeightOk m.currentSyncHeaderHeight)
          m.currentSyncHeaderHeight).1,
        currentSyncHeaderHeight := incU64 m.currentSyncHeaderHeight },
        some m.currentSyncHeaderHeight) := by
    intro e he
    have hhe := handleNewBlock_height e fuel m m1 _ he
    simp only [monitorChainIter, he, hhe]
  refine ⟨?_, ?_, ?_⟩
  · rw [hiter env hnew]
    rfl
  · intro hfail
    rw [hiter env hnew, hfail]
    rfl
  · intro ok
    have he : handleNewBlock { env with updateHeightOk := ok } fuel m m.currentSyncHeaderHeight
        = some (true, m1) := by
      have hhead := handleHeader_congr_events env { env with updateHeightOk := ok } fuel m
        m.currentSyncHeaderHeight rfl rfl rfl rfl rfl
      unfold handleNewBlock at hnew ⊢
      rw [hhead]
      simp only [fetchLockEvents, lockEventLoop_updateHeightOk]
      simp only [fetchLockEvents] at hnew
      exact hnew
    rw [hiter _ he, hiter env hnew]
    rfl

/-- The instance of amended C23 at working height 10 with the write failing. -/
theorem C23_height_advances_regardless_witness :
    (monitorChainIter failingUpdateEnv 5 (runningManager 10)).map
        (fun r => (r.1.currentSyncHeaderHeight, r.2)) = some (incU64 10, some 10) ∧
      (failingUpdateEnv.updateHeightOk 10 = false →
        (monitorChainIter failingUpdateEnv 5 (runningManager 10)).map (fun r => r.1.db)
          = some (BoltDB.mk [[10, 5]] [] 0)) ∧
      (∀ ok, (monitorChainIter { failingUpdateEnv with updateHeightOk := ok } 5
          (runningManager 10)).map (fun r => r.1.currentSyncHeaderHeight)
        = (monitorChainIter failingUpdateEnv 5 (runningManager 10)).map
          (fun r => r.1.currentSyncHeaderHeight)) :=
  C23_height_advances_regardless failingUpdateEnv 5 (runningManager 10)
    (PaletteManager.mk (BoltDB.mk [[10, 5]] [] 0) 10 10 0 (some (pltEpoch.mk 5 [[1]] [7]))
      (some (pltEpoch.mk 10 [[1]] [0])))
    (by decide)

/-! ## The signer addresses of `RecoverSignersFromMultiSigs` -/

/-- On a recovered key of 65 bytes `BytesToAddress` is the last 20 bytes of the key. -/
theorem BytesToAddress_key (enc : Bytes) (h : enc.length = 65) :
    BytesToAddress enc = enc.drop 45 := by
  have hl : (enc.drop 45).length = 20 := by simp [h]
  have hgt : enc.length > 20 := by omega
  simp only [BytesToAddress]
  rw [if_pos hgt, h]
  have h45 : 65 - 20 = 45 := rfl
  rw [h45, hl]
  simp only [Nat.sub_self, List.take_zero, List.drop_zero, List.nil_append]
  exact goCopy_full _ _ (by simp [hl])

/-- For a signature that recovers to a key `P` of 65 bytes, `RecoverSignersFromMultiSigs`
yields the last 20 bytes of `P` itself, with no hash taken.  It is the keeper address
`Keccak256(P[1:])[12:]` of `assemblePubKeyList` only if the last 20 bytes of that digest
are the last 20 bytes of `P`; and the signer of two keys with the same last 20 bytes is
the same, whatever their first 45 bytes. -/
theorem RecoverSigners_key_suffix (ecrecover : Bytes → Bytes → Except String Bytes)
    (keccak256 : Bytes → Bytes) (hash sig P : Bytes)
    (hrec : ecrecover hash sig = .ok P) (hlen : P.length = 65) :
    RecoverSignersFromMultiSigs ecrecover hash [sig] = .ok [P.drop 45] ∧
      (RecoverSignersFromMultiSigs ecrecover hash [sig] = .ok [keeperAddress keccak256 P] ↔
        (keccak256 (P.drop 1)).drop 12 = P.drop 45) ∧
      (∀ Q : Bytes, Q.length = 65 → Q.drop 45 = P.drop 45 →
        RecoverSignersFromMultiSigs (fun _ _ => .ok Q) hash [sig]
          = RecoverSignersFromMultiSigs ecrecover hash [sig]) := by
  have hres : RecoverSignersFromMultiSigs ecrecover hash [sig] = .ok [P.drop 45] := by
    simp only [RecoverSignersFromMultiSigs, hrec, BytesToAddress_key P hlen]
  refine ⟨hres, ?_, ?_⟩
  · rw [hres]
    unfold keeperAddress
    constructor
    · intro h
      simp only [Except.ok.injEq, List.cons.injEq, and_true] at h
      exact h.symm
    · intro h
      rw [h]
  · intro Q hQ hdrop
    rw [hres]
    simp only [RecoverSignersFromMultiSigs, BytesToAddress_key Q hQ, hdrop]

/-- C24 (the code departs from the claim): for a signature that recovers to the key
`sampleKey` (the prefix byte 4 and the 64 bytes `1, ..., 64`),
`RecoverSignersFromMultiSigs` yields the bytes `45, ..., 64`, the last 20 bytes of the
key itself; no hash is taken.  Whatever the function `Keccak256` is, the result is the
keeper address `Keccak256(P[1:])[12:]` that `assemblePubKeyList` derives for that key
only if the digest happens to end in those 20 bytes of the key. -/
theorem C24_signer_is_key_suffix :
    RecoverSignersFromMultiSigs sampleKeyRecover [] [[1]]
        = .ok [[45, 46, 47, 48, 49, 50, 51, 52, 53, 54, 55, 56, 57, 58, 59, 60, 61, 62, 63, 64]] ∧
      (∀ keccak256 : Bytes → Bytes,
        (RecoverSignersFromMultiSigs sampleKeyRecover [] [[1]]
            = .ok [keeperAddress keccak256 sampleKey] ↔
          (keccak256 (sampleKey.drop 1)).drop 12
            = [45, 46, 47, 48, 49, 50, 51, 52, 53, 54, 55, 56, 57, 58, 59, 60, 61, 62, 63, 64])) ∧
      (assemblePubKeyList (fun _ => List.replicate 32 0) (fun l => l) (fun k => k) (fun k => k)
          [sampleKey]).1 = writeUintLE 8 1 ++ writeVarBytes (List.replicate 20 0) := by
  refine ⟨by rfl, ?_, by rfl⟩
  intro keccak256
  exact (RecoverSigners_key_suffix sampleKeyRecover keccak256 [] [1] sampleKey rfl
    (by simp [sampleKey])).2.1

/-! ## Failed store writes in `handleDepositEvents` and `checkLockEvents` -/

theorem PutCheck_mem_self (db : BoltDB) (t : String) (v : Bytes) :
    (t, v) ∈ (db.PutCheck true t v).1.check := by
  simp [BoltDB.PutCheck]

theorem afterCommit_keeps (env : DepositEnv) (i : Nat) (v : Bytes) (db : BoltDB)
    (r : Except String String) (hv : v ∈ db.retry)
    (hput : env.putCheckOk i = true ∨ env.deleteRetryOk i = false)
    (hdone : ∀ err, r = .error err → stringsContains err "tx already done" = false) :
    v ∈ (afterCommit env i v db r).retry ∨ ∃ t, (t, v) ∈ (afterCommit env i v db r).check := by
  cases r with
  | error err =>
    left
    have hd := hdone err rfl
    simp only [afterCommit, hd, Bool.false_eq_true, if_false]
    split <;> exact hv
  | ok txHash =>
    simp only [afterCommit]
    rcases hput with hput | hdel
    · right
      refine ⟨txHash, ?_⟩
      rw [DeleteRetry_check, hput]
      exact PutCheck_mem_self db txHash v
    · left
      rw [hdel]
      simp only [BoltDB.DeleteRetry, Bool.false_eq_true, if_false]
      rw [PutCheck_retry]
      exact hv

theorem depositRecord_keeps (env : DepositEnv) (refHeight i : Nat) (v : Bytes)
    (st : BoltDB × List Submission) (hv : v ∈ st.1.retry)
    (hput : env.putCheckOk i = true ∨ env.deleteRetryOk i = false)
    (hdone : ∀ d h p hd err, env.importOuterTransfer i d h p hd = .error err →
        stringsContains err "tx already done" = false) :
    v ∈ (depositRecord env refHeight i v st).1.retry ∨
        ∃ t, (t, v) ∈ (depositRecord env refHeight i v st).1.check := by
  cases hdes : deserializeCrossTransfer env v with
  | error e => left; simpa [depositRecord, hdes] using hv
  | ok crossTx =>
    cases hgate : distanceGateIgnores refHeight (safeBlockDistance env.blockConfig) crossTx.height
      with
    | true => left; simpa [depositRecord, hdes, hgate] using hv
    | false =>
      cases hproof : getProof env i crossTx (subU64 refHeight 1) with
      | error e => left; simpa [depositRecord, hdes, hgate, hproof] using hv
      | ok ph =>
        obtain ⟨proof, hdr⟩ := ph
        rw [depositRecord_submit env refHeight i v st crossTx proof hdr hdes hgate hproof]
        apply afterCommit_keeps env i v st.1 _ hv hput
        intro err herr
        unfold commitProof at herr
        cases himp : env.importOuterTransfer i crossTx.value (toUint32 (subU64 refHeight 1))
            proof hdr with
        | error e2 =>
          rw [himp] at herr
          simp only [Except.error.injEq] at herr
          rw [← herr]
          exact hdone _ _ _ _ _ himp
        | ok tx =>
          rw [himp] at herr
          exact absurd herr (by simp)

theorem checkEntry_keeps (env : CheckEnv) (db : BoltDB) (k : String) (raw : Bytes)
    (hin : (k, raw) ∈ db.check)
    (hput : env.putRetryOk k = true ∨ env.deleteCheckOk k = false)
    (hstate : env.getSmartContractEvent k ≠ .ok (some 1)) :
    raw ∈ (checkEntry env db (k, raw)).retry ∨ (k, raw) ∈ (checkEntry env db (k, raw)).check := by
  unfold checkEntry
  cases hev : env.getSmartContractEvent k with
  | error e => right; exact hin
  | ok o =>
    cases o with
    | none => right; exact hin
    | some state =>
      have hne : state ≠ 1 := by
        intro h1
        rw [h1] at hev
        exact hstate hev
      simp only [hne, ne_eq, not_false_eq_true, if_true]
      rcases hput with hput | hdel
      · left
        rw [DeleteCheck_retry, hput]
        exact (PutRetry_mem db raw raw).mpr (Or.inr rfl)
      · right
        rw [hdel]
        simp only [BoltDB.DeleteCheck, Bool.false_eq_true, if_false]
        rw [PutRetry_check]
        exact hin

/-- C25 fails as stated: when `PutCheck` fails and the `DeleteRetry` after it succeeds, a
record that Poly accepted is in neither table after `handleDepositEvents`; when
`PutRetry` fails and the `DeleteCheck` after it succeeds, a record whose Poly transaction
ended in state 0 is in neither table after `checkLockEvents`. -/
theorem C25_counterexample :
    (failingPutCheckEnv.importOuterTransfer 0 [] 99 [] []).isOk = true ∧
      (handleDepositEvents failingPutCheckEnv 100 (BoltDB.mk [[1]] [] 0)).2.1
        = BoltDB.mk [] [] 0 ∧
      (failingPutRetryEnv.getSmartContractEvent "bb").toOption = some (some 0) ∧
      (checkLockEvents failingPutRetryEnv (BoltDB.mk [] [("bb", [2])] 0)).2
        = BoltDB.mk [] [] 0 := by
  refine ⟨by rfl, by decide, by rfl, by decide⟩

/-- C25 (amended): a record of the Retry table that the loop body of
`handleDepositEvents` processes is afterwards still in Retry or in Check, provided Poly
did not report it done and the `PutCheck` succeeded or the `DeleteRetry` failed; an
entry of the Check table that the loop body of `checkLockEvents` processes is afterwards
in Retry or still in Check, provided its Poly transaction was not confirmed with state 1
and the `PutRetry` succeeded or the `DeleteCheck` failed. -/
theorem C25_record_kept_unless_put_fails :
    (∀ (env : DepositEnv) (refHeight i : Nat) (v : Bytes) (st : BoltDB × List Submission),
      v ∈ st.1.retry →
      (env.putCheckOk i = true ∨ env.deleteRetryOk i = false) →
      (∀ d h p hd err, env.importOuterTransfer i d h p hd = .error err →
        stringsContains err "tx already done" = false) →
      v ∈ (depositRecord env refHeight i v st).1.retry ∨
        ∃ t, (t, v) ∈ (depositRecord env refHeight i v st).1.check) ∧
    (∀ (env : CheckEnv) (db : BoltDB) (k : String) (raw : Bytes),
      (k, raw) ∈ db.check →
      (env.putRetryOk k = true ∨ env.deleteCheckOk k = false) →
      env.getSmartContractEvent k ≠ .ok (some 1) →
      raw ∈ (checkEntry env db (k, raw)).retry ∨ (k, raw) ∈ (checkEntry env db (k, raw)).check) := by
  exact ⟨fun env refHeight i v st hv hput hdone =>
      depositRecord_keeps env refHeight i v st hv hput hdone,
    fun env db k raw hin hput hstate => checkEntry_keeps env db k raw hin hput hstate⟩

/-- The instance of amended C25 for a record whose `PutCheck` fails together with its
`DeleteRetry`, and for a failed Poly transaction whose `PutRetry` succeeds. -/
theorem C25_record_kept_unless_put_fails_witness :
    ([1] ∈ (depositRecord { failingPutCheckEnv with deleteRetryOk := fun _ => false } 100 0 [1]
          (BoltDB.mk [[1]] [] 0, [])).1.retry ∨
        ∃ t, (t, [1]) ∈ (depositRecord
          { failingPutCheckEnv with deleteRetryOk := fun _ => false } 100 0 [1]
          (BoltDB.mk [[1]] [] 0, [])).1.check) ∧
      ([2] ∈ (checkEntry sampleCheckEnv (BoltDB.mk [] [("bb", [2])] 0) ("bb", [2])).retry ∨
        ("bb", [2]) ∈ (checkEntry sampleCheckEnv (BoltDB.mk [] [("bb", [2])] 0)
          ("bb", [2])).check) :=
  ⟨C25_record_kept_unless_put_fails.1
      { failingPutCheckEnv with deleteRetryOk := fun _ => false } 100 0 [1]
      (BoltDB.mk [[1]] [] 0, []) (by decide) (Or.inr rfl)
      (fun _ _ _ _ err h => absurd h (by simp [failingPutCheckEnv, acceptingEnv])),
    C25_record_kept_unless_put_fails.2 sampleCheckEnv (BoltDB.mk [] [("bb", [2])] 0) "bb" [2]
      (by decide) (Or.inl rfl) (by simp [sampleCheckEnv])⟩

/-! ## The two working heights -/

theorem fetchBlockHeader_deposit (env : ChainEnv) (m : PaletteManager) (height : Nat) :
    (fetchBlockHeader env m height).2.currentDepositHeight = m.currentDepositHeight := by
  unfold fetchBlockHeader
  split
  · rfl
  · split
    · rfl
    · split
      · rfl
      · split
        · rfl
        · split <;> rfl

theorem isEpoch_deposit (env : ChainEnv) (m m1 : PaletteManager) (b : Bool)
    (h : isEpoch env m = some (b, m1)) :
    m1.currentDepositHeight = m.currentDepositHeight := by
  unfold isEpoch at h
  split at h
  · split at h
    · simp only [Option.some.injEq, Prod.mk.injEq] at h
      rw [← h.2]
    · simp only [Option.some.injEq, Prod.mk.injEq] at h
      rw [← h.2]
  · exact absurd h (by simp)

theorem commitHeader_deposit (env : ChainEnv) (fuel : Nat) (m m1 : PaletteManager) (b : Bool)
    (h : commitHeader env fuel m = some (b, m1)) :
    m1.currentDepositHeight = m.currentDepositHeight := by
  unfold commitHeader at h
  split at h
  · exact absurd h (by simp)
  · split at h
    · simp only [Option.some.injEq, Prod.mk.injEq] at h
      rw [← h.2]
    · split at h
      · exact absurd h (by simp)
      · split at h
        · exact absurd h (by simp)
        · simp only [Option.some.injEq, Prod.mk.injEq] at h
          rw [← h.2]

theorem fetchLockEvents_deposit (env : ChainEnv) (m : PaletteManager) (height : Nat) :
    (fetchLockEvents env m height).2.currentDepositHeight = m.currentDepositHeight := by
  unfold fetchLockEvents
  split <;> rfl

theorem handleHeader_deposit (env : ChainEnv) (fuel : Nat) (m m1 : PaletteManager) (height : Nat)
    (b : Bool) (h : handleHeader env fuel m height = some (b, m1)) :
    m1.currentDepositHeight = m.currentDepositHeight := by
  unfold handleHeader at h
  split at h
  · exact absurd h (by simp)
  · split at h
    · have hfb := fetchBlockHeader_deposit env m height
      split at h
      · rename_i m2 heq
        simp only [Option.some.injEq, Prod.mk.injEq] at h
        rw [heq] at hfb
        rw [← h.2]
        exact hfb
      · rename_i m2 heq
        rw [heq] at hfb
        split at h
        · exact absurd h (by simp)
        · rename_i m3 hep
          simp only [Option.some.injEq, Prod.mk.injEq] at h
          rw [← h.2, isEpoch_deposit env m2 m3 false hep]
          exact hfb
        · rename_i m3 hep
          have he := isEpoch_deposit env m2 m3 true hep
          split at h
          · exact absurd h (by simp)
          · rename_i m4 hc
            simp only [Option.some.injEq, Prod.mk.injEq] at h
            rw [← h.2, commitHeader_deposit env fuel m3 m4 false hc, he]
            exact hfb
          · rename_i m4 hc
            simp only [Option.some.injEq, Prod.mk.injEq] at h
            rw [← h.2, commitHeader_deposit env fuel m3 m4 true hc, he]
            exact hfb
    · simp only [Option.some.injEq, Prod.mk.injEq] at h
      rw [← h.2]

/-- The method `handleNewBlock` leaves both working heights as they are. -/
theorem handleNewBlock_heights (env : ChainEnv) (fuel : Nat) (m m1 : PaletteManager)
    (height : Nat) (b : Bool) (h : handleNewBlock env fuel m height = some (b, m1)) :
    m1.currentSyncHeaderHeight = m.currentSyncHeaderHeight ∧
      m1.currentDepositHeight = m.currentDepositHeight := by
  unfold handleNewBlock at h
  split at h
  · exact absurd h (by simp)
  · rename_i m2 hh
    simp only [Option.some.injEq, Prod.mk.injEq] at h
    rw [← h.2]
    exact ⟨handleHeader_height env fuel m m2 height false hh,
      handleHeader_deposit env fuel m m2 height false hh⟩
  · rename_i m2 hh
    simp only [Option.some.injEq, Prod.mk.injEq] at h
    rw [← h.2, fetchLockEvents_height, fetchLockEvents_deposit]
    exact ⟨handleHeader_height env fuel m m2 height true hh,
      handleHeader_deposit env fuel m m2 height true hh⟩

/-- One iteration of `MonitorChain` leaves the deposit height as it is and, below the
top of `uint64`, moves the sync height up by one when `handleNewBlock` returned true and
not at all otherwise. -/
theorem monitorChainIter_heights (env : ChainEnv) (fuel : Nat) (m : PaletteManager)
    (r : PaletteManager × Option Nat) (hlt : m.currentSyncHeaderHeight + 1 < uint64Mod)
    (h : monitorChainIter env fuel m = some r) :
    r.1.currentDepositHeight = m.currentDepositHeight ∧
      r.1.currentSyncHeaderHeight =
        (if (handleNewBlock env fuel m m.currentSyncHeaderHeight).map Prod.fst = some true
          then m.currentSyncHeaderHeight + 1 else m.currentSyncHeaderHeight) := by
  unfold monitorChainIter at h
  split at h
  · exact absurd h (by simp)
  · rename_i m1 hn
    obtain ⟨hs, hd⟩ := handleNewBlock_heights env fuel m m1 _ true hn
    simp only [Option.some.injEq] at h
    rw [← h, hn]
    refine ⟨hd, ?_⟩
    simp only [hs, incU64, Option.map_some', if_true]
    exact Nat.mod_eq_of_lt hlt
  · rename_i m1 hn
    obtain ⟨hs, hd⟩ := handleNewBlock_heights env fuel m m1 _ false hn
    simp only [Option.some.injEq] at h
    rw [← h, hn]
    refine ⟨hd, ?_⟩
    simp only [Option.map_some', Option.some.injEq, Bool.false_eq_true, if_false]
    exact hs

theorem monitorChainLoop_invariant (env : ChainEnv) (fuel height steps : Nat)
    (hh : height < uint64Mod) (m m1 : PaletteManager)
    (hinv : m.currentDepositHeight ≤ m.currentSyncHeaderHeight)
    (h : monitorChainLoop env fuel height steps m = some m1) :
    m1.currentDepositHeight ≤ m1.currentSyncHeaderHeight := by
  induction steps generalizing m with
  | zero =>
    simp only [monitorChainLoop, Option.some.injEq] at h
    rw [← h]
    exact hinv
  | succ n ih =>
    simp only [monitorChainLoop] at h
    split at h
    · rename_i hlt
      split at h
      · exact absurd h (by simp)
      · rename_i m2 o hit
        have hs := monitorChainIter_heights env fuel m (m2, o) (by omega) hit
        apply ih m2 _ h
        obtain ⟨hd, hs⟩ := hs
        rw [hd, hs]
        split <;> omega
    · simp only [Option.some.injEq] at h
      rw [← h]
      exact hinv

theorem monitorDepositIter_heights (env : DepositEnv) (m : PaletteManager)
    (hs : m.currentSyncHeaderHeight < uint64Mod)
    (hlt : m.currentDepositHeight < m.currentSyncHeaderHeight) :
    (monitorDepositIter env m).currentDepositHeight = m.currentDepositHeight + 1 ∧
      (monitorDepositIter env m).currentSyncHeaderHeight = m.currentSyncHeaderHeight := by
  simp only [monitorDepositIter, incU64, and_true]
  exact Nat.mod_eq_of_lt (by omega)

theorem monitorDepositLoop_invariant (env : DepositEnv) (steps : Nat) (m : PaletteManager)
    (hs : m.currentSyncHeaderHeight < uint64Mod)
    (hinv : m.currentDepositHeight ≤ m.currentSyncHeaderHeight) :
    (monitorDepositLoop env steps m).currentDepositHeight
        ≤ (monitorDepositLoop env steps m).currentSyncHeaderHeight ∧
      (monitorDepositLoop env steps m).currentSyncHeaderHeight = m.currentSyncHeaderHeight := by
  induction steps generalizing m with
  | zero => exact ⟨hinv, rfl⟩
  | succ n ih =>
    simp only [monitorDepositLoop]
    split
    · rename_i hlt
      obtain ⟨hd, hsy⟩ := monitorDepositIter_heights env m hs hlt
      have := ih (monitorDepositIter env m) (by rw [hsy]; exact hs) (by rw [hd, hsy]; omega)
      rw [hsy] at this
      exact this
    · exact ⟨hinv, rfl⟩

theorem init_heights (env : InitEnv) (m m1 : PaletteManager) (h : init env m = .ok m1) :
    m1.currentDepositHeight = m1.currentSyncHeaderHeight := by
  unfold init at h
  simp only at h
  split at h
  · exact absurd h (by simp)
  · split at h
    · exact absurd h (by simp)
    · simp only [Except.ok.injEq] at h
      rw [← h]

/-- C26: `currentDepositHeight ≤ currentSyncHeaderHeight` holds after a successful `init`
(the two are equal); an iteration of the loop of `MonitorChain`, entered with the sync
height below the node height, leaves the deposit height as it is and moves the sync
height up by exactly one when `handleNewBlock` returned true and not at all otherwise;
an iteration of the loop of `MonitorDeposit`, entered with the deposit height strictly
below the sync height, moves the deposit height up by exactly one whatever
`handleDepositEvents` returns and leaves the sync height as it is; so each iteration,
and each run of either loop, preserves the inequality. -/
theorem C26_deposit_height_le_sync_height :
    (∀ (env : InitEnv) (m m1 : PaletteManager), init env m = .ok m1 →
      m1.currentDepositHeight ≤ m1.currentSyncHeaderHeight) ∧
    (∀ (env : ChainEnv) (fuel height : Nat) (m : PaletteManager)
        (r : PaletteManager × Option Nat),
      height < uint64Mod → m.currentSyncHeaderHeight < height →
      m.currentDepositHeight ≤ m.currentSyncHeaderHeight →
      monitorChainIter env fuel m = some r →
      r.1.currentDepositHeight = m.currentDepositHeight ∧
        r.1.currentSyncHeaderHeight =
          (if (handleNewBlock env fuel m m.currentSyncHeaderHeight).map Prod.fst = some true
            then m.currentSyncHeaderHeight + 1 else m.currentSyncHeaderHeight) ∧
        r.1.currentDepositHeight ≤ r.1.currentSyncHeaderHeight) ∧
    (∀ (env : DepositEnv) (m : PaletteManager),
      m.currentSyncHeaderHeight < uint64Mod →
      m.currentDepositHeight < m.currentSyncHeaderHeight →
      (monitorDepositIter env m).currentDepositHeight = m.currentDepositHeight + 1 ∧
        (monitorDepositIter env m).currentSyncHeaderHeight = m.currentSyncHeaderHeight ∧
        (monitorDepositIter env m).currentDepositHeight
          ≤ (monitorDepositIter env m).currentSyncHeaderHeight) ∧
    (∀ (env : ChainEnv) (fuel height steps : Nat) (m m1 : PaletteManager),
      height < uint64Mod → m.currentDepositHeight ≤ m.currentSyncHeaderHeight →
      monitorChainLoop env fuel height steps m = some m1 →
      m1.currentDepositHeight ≤ m1.currentSyncHeaderHeight) ∧
    (∀ (env : DepositEnv) (steps : Nat) (m : PaletteManager),
      m.currentSyncHeaderHeight < uint64Mod →
      m.currentDepositHeight ≤ m.currentSyncHeaderHeight →
      (monitorDepositLoop env steps m).currentDepositHeight
        ≤ (monitorDepositLoop env steps m).currentSyncHeaderHeight) := by
  refine ⟨?_, ?_, ?_, ?_, ?_⟩
  · intro env m m1 h
    exact Nat.le_of_eq (init_heights env m m1 h)
  · intro env fuel height m r hh hlt hinv h
    obtain ⟨hd, hs⟩ := monitorChainIter_heights env fuel m r (by omega) h
    refine ⟨hd, hs, ?_⟩
    rw [hd, hs]
    split <;> omega
  · intro env m hs hlt
    obtain ⟨hd, hsy⟩ := monitorDepositIter_heights env m hs hlt
    refine ⟨hd, hsy, ?_⟩
    rw [hd, hsy]
    omega
  · intro env fuel height steps m m1 hh hinv h
    exact monitorChainLoop_invariant env fuel height steps hh m m1 hinv h
  · intro env steps m hs hinv
    exact (monitorDepositLoop_invariant env steps m hs hinv).1

/-- The instance of C26 for a manager initialised at height 10, one iteration of
`MonitorChain` on it with the node at height 12, and one iteration of `MonitorDeposit`
after that. -/
theorem C26_deposit_height_le_sync_height_witness :
    (∀ m1, init (sampleInitEnv 10) (freshManager 0 7 0) = .ok m1 →
      m1.currentDepositHeight ≤ m1.currentSyncHeaderHeight) ∧
    ((10 : Nat) = 10 ∧ (11 : Nat) = (if
        (handleNewBlock (sampleChainEnv true true) 5 (runningManager 10) 10).map Prod.fst
          = some true then 10 + 1 else 10) ∧ 10 ≤ 11) ∧
    ((monitorDepositIter acceptingEnv
        { runningManager 10 with currentSyncHeaderHeight := 11 }).currentDepositHeight = 10 + 1 ∧
      (monitorDepositIter acceptingEnv
        { runningManager 10 with currentSyncHeaderHeight := 11 }).currentSyncHeaderHeight = 11 ∧
      (monitorDepositIter acceptingEnv
        { runningManager 10 with currentSyncHeaderHeight := 11 }).currentDepositHeight
        ≤ (monitorDepositIter acceptingEnv
          { runningManager 10 with currentSyncHeaderHeight := 11 }).currentSyncHeaderHeight) :=
  ⟨fun m1 h => C26_deposit_height_le_sync_height.1 (sampleInitEnv 10) (freshManager 0 7 0) m1 h,
    C26_deposit_height_le_sync_height.2.1 (sampleChainEnv true true) 5 12 (runningManager 10)
      (PaletteManager.mk (BoltDB.mk [[10, 5]] [] 10) 11 10 0 (some (pltEpoch.mk 5 [[1]] [7]))
        (some (pltEpoch.mk 10 [[1]] [0])), some 10)
      (by decide) (by decide) (by decide) (by decide),
    C26_deposit_height_le_sync_height.2.2.1 acceptingEnv
      { runningManager 10 with currentSyncHeaderHeight := 11 } (by decide) (by decide)⟩

theorem fetchLastEpoch_sync (env : InitEnv) (m : PaletteManager) (height s : Nat) :
    fetchLastEpoch env { m with currentSyncHeaderHeight := s } height
      = ((fetchLastEpoch env m height).1,
          { (fetchLastEpoch env m height).2 with currentSyncHeaderHeight := s }) := by
  unfold fetchLastEpoch
  split
  · rfl
  · split
    · rfl
    · rfl

/-- The method `init` overwrites the sync height it is given. -/
theorem init_sync_independent (env : InitEnv) (m : PaletteManager) (s : Nat) :
    init env { m with currentSyncHeaderHeight := s } = init env m := by
  unfold init
  simp only [fetchLastEpoch_sync]
  split
  · rfl
  · rcases fetchLastEpoch env m (findLastEpochHeight env) with ⟨ok, m1⟩
    cases ok <;> rfl

/-- C27: the manager `NewPaletteManager` returns does not depend on its `startHeight`
argument: with the same configuration, chain, force height and store, two values of
`startHeight` give the same result, so the same `currentSyncHeaderHeight` and
`currentDepositHeight`; with a stored checkpoint of 50 both 7 and 99 start at 50. -/
theorem C27_start_height_argument_unused (cfg : ManagerConfig) (env : InitEnv)
    (s1 s2 f : Nat) (db : BoltDB) :
    NewPaletteManager cfg env s1 f db = NewPaletteManager cfg env s2 f db ∧
      startHeightOf (NewPaletteManager cfg env s1 f db)
        = startHeightOf (NewPaletteManager cfg env s2 f db) ∧
      startHeightOf (NewPaletteManager sampleConfig (sampleInitEnv 10) 7 0 (BoltDB.mk [] [] 50))
        = some (50, 50) ∧
      startHeightOf (NewPaletteManager sampleConfig (sampleInitEnv 10) 99 0 (BoltDB.mk [] [] 50))
        = some (50, 50) := by
  have h : NewPaletteManager cfg env s1 f db = NewPaletteManager cfg env s2 f db := by
    unfold NewPaletteManager
    have hi := init_sync_independent env
      (PaletteManager.mk db s2 0 f none none) s1
    simp only at hi
    split
    · rfl
    · split
      · rfl
      · split
        · rfl
        · simp only
          rw [hi]
  exact ⟨h, by rw [h], by decide, by decide⟩

end PaletteRelayer
